import Mathlib

/-!
# Farpost backend: temporal aggregation and interval queries

A shallow embedding of the query layer of `Farpost-Backend`
(`internal/storage/sqlite/sqlite.go`, `internal/lib/date/*.go`) and of the
handlers built on it (`internal/http-server/handlers`), together with the
properties its specification states about it.

Conventions of the embedding.

* A Go `string` is a Lean `String`; Go's `len` is the number of bytes of the
  UTF-8 encoding (`goLen`). Where the code slices a string at a byte offset
  the result is held as its bytes (`goBytes`), since it need not be text.
* SQLite compares `TEXT` values with the default `BINARY` collation, that is
  byte by byte; on UTF-8 text this is the lexicographic order of the code
  points (`textLe`).
* SQL conditions are three-valued; `none` is SQL's `NULL` (`SqlBool`).
* The tables of the store are lists of rows; a query that only reads them
  cannot fail. A failing store appears where the code handles it: in the
  interfaces through which the builders and the handlers call the store.
-/

namespace Farpost

/-! ## Strings and SQL values -/

/-- Go's `len(s)` for a string: the number of bytes. -/
def goLen (s : String) : Nat := s.utf8ByteSize

/-- Lexicographic `<=` on code points. -/
def charsLe : List Char → List Char → Bool
  | [], _ => true
  | _ :: _, [] => false
  | a :: as, b :: bs =>
    if a.toNat < b.toNat then true
    else if b.toNat < a.toNat then false
    else charsLe as bs

/-- SQLite's `a <= b` on two non-NULL `TEXT` values. -/
def textLe (a b : String) : Bool := charsLe a.data b.data

/-- SQLite's `a < b` on two non-NULL `TEXT` values. -/
def textLt (a b : String) : Bool := !textLe b a

/-- An SQL truth value: `none` is NULL (unknown). -/
abbrev SqlBool := Option Bool

/-- SQL `a <= b`: NULL as soon as one side is NULL. -/
def sqlLe : Option String → Option String → SqlBool
  | some a, some b => some (textLe a b)
  | _, _ => none

/-- SQL `a >= b`. -/
def sqlGe (a b : Option String) : SqlBool := sqlLe b a

/-- SQL `a IS NULL`: never NULL itself. -/
def sqlIsNull (a : Option String) : SqlBool := some a.isNone

/-- SQL `AND` (Kleene). -/
def sqlAnd : SqlBool → SqlBool → SqlBool
  | some false, _ => some false
  | _, some false => some false
  | some true, some true => some true
  | _, _ => none

/-- SQL `OR` (Kleene). -/
def sqlOr : SqlBool → SqlBool → SqlBool
  | some true, _ => some true
  | _, some true => some true
  | some false, some false => some false
  | _, _ => none

/-- A `WHERE` clause keeps a row exactly when its condition is true. -/
def sqlWhere : SqlBool → Bool
  | some true => true
  | _ => false

/-! ## Data model -/

/-- A row of table `blackouts`. `end_date` and `source` are the two columns
the code scans through `sql.NullString`. -/
structure BlackoutRow where
  id : String
  start_date : String
  end_date : Option String
  description : String
  type : String
  initiator_name : String
  source : Option String
deriving DecidableEq, Repr

/-- The Go struct `models.Blackout`. -/
structure Blackout where
  ID : String
  StartDate : String
  EndDate : String
  Description : String
  Type_ : String
  InitiatorName : String
  Source : String
deriving DecidableEq, Repr

/-- A row of table `buildings`. -/
structure BuildingRow where
  id : Nat
  is_fake : Nat
deriving DecidableEq, Repr

/-- A row of the link table `blackouts_buildings`. -/
structure LinkRow where
  blackout_id : String
  building_id : Nat
deriving DecidableEq, Repr

/-- The store: the tables read by the queries. -/
structure Storage where
  blackouts : List BlackoutRow
  buildings : List BuildingRow
  blackouts_buildings : List LinkRow
deriving Repr

/-! ## The activity predicate and `GetBlackouts` -/

/-- The two bound parameters `(queryTime, currentTime)` that the activity
queries compute from the reference string: a 10-byte reference is expanded
to the last and the first second of that day. -/
def activityBounds (currentTime : String) : String × String :=
  if goLen currentTime = 10 then
    (currentTime ++ " 23:59:59", currentTime ++ " 00:00:00")
  else
    (currentTime, currentTime)

/-- The condition
`start_date <= ? AND (end_date >= ? OR end_date IS NULL)`. -/
def activeCond (queryTime currentTime : String) (r : BlackoutRow) : SqlBool :=
  sqlAnd (sqlLe (some r.start_date) (some queryTime))
    (sqlOr (sqlGe r.end_date (some currentTime)) (sqlIsNull r.end_date))

/-- The clause `ORDER BY start_date DESC`. SQLite leaves the order of rows with equal
keys open; the insertion sort keeps them in table order. -/
def orderByStartDesc (rows : List BlackoutRow) : List BlackoutRow :=
  rows.insertionSort fun a b => textLe b.start_date a.start_date = true

/-- The rows selected by the query of `GetBlackouts`. -/
def blackoutsQuery (s : Storage) (queryTime currentTime : String) : List BlackoutRow :=
  orderByStartDesc (s.blackouts.filter fun r => sqlWhere (activeCond queryTime currentTime r))

/-- The `rows.Scan` step of `GetBlackouts`: a NULL `end_date` or `source`
leaves the zero value of the Go field. -/
def scanBlackout (r : BlackoutRow) : Blackout :=
  { ID := r.id
    StartDate := r.start_date
    EndDate := r.end_date.getD ""
    Description := r.description
    Type_ := r.type
    InitiatorName := r.initiator_name
    Source := r.source.getD "" }

/-- The method `Storage.GetBlackouts`. -/
def GetBlackouts (s : Storage) (currentTime : String) : List Blackout :=
  let (queryTime, currentTime) := activityBounds currentTime
  (blackoutsQuery s queryTime currentTime).map scanBlackout

/-- The interval predicate in the words of the specification: the event has
started by `hi`, and its end is open or not before `lo`. -/
def ActiveBetween (lo hi : String) (e : BlackoutRow) : Prop :=
  textLe e.start_date hi = true ∧
    (e.end_date = none ∨ ∃ x, e.end_date = some x ∧ textLe lo x = true)

instance (lo hi : String) (e : BlackoutRow) : Decidable (ActiveBetween lo hi e) :=
  match h : e.end_date with
  | none => decidable_of_iff (textLe e.start_date hi = true) (by simp [ActiveBetween, h])
  | some x =>
    decidable_of_iff (textLe e.start_date hi = true ∧ textLe lo x = true)
      (by simp [ActiveBetween, h])

/-! ## Go's `time` package

The standard library is not part of the repository; the definitions below
follow its documented behaviour for the layouts the repository uses. A
`Time` is an instant of the proleptic Gregorian calendar in UTC (a layout
without a zone parses to UTC), held as whole seconds since
`0001-01-01 00:00:00`. A fraction of a second, which `time.Parse` tolerates
after the seconds field, is not retained: no layout used here prints it.
-/

/-- An instant: seconds since `0001-01-01 00:00:00 UTC`. -/
structure Time where
  sec : Int
deriving DecidableEq, Repr

/-- Go's `isLeap`. -/
def isLeap (year : Int) : Bool :=
  year % 4 == 0 && (year % 100 != 0 || year % 400 == 0)

/-- Go's table `daysBefore`: `daysBefore m` is the number of days of a
non-leap year before month `m + 1`. -/
def daysBefore : Nat → Nat
  | 0 => 0
  | 1 => 31
  | 2 => 59
  | 3 => 90
  | 4 => 120
  | 5 => 151
  | 6 => 181
  | 7 => 212
  | 8 => 243
  | 9 => 273
  | 10 => 304
  | 11 => 334
  | _ => 365

/-- Go's `daysIn(m, year)`. -/
def daysIn (month : Nat) (year : Int) : Nat :=
  if month = 2 ∧ isLeap year = true then 29
  else daysBefore month - daysBefore (month - 1)

/-- Days from `0001-01-01` to the first of January of `year`. -/
def daysSinceEpoch (year : Int) : Int :=
  let y := year - 1
  365 * y + y / 4 - y / 100 + y / 400

/-- Go's `norm(hi, lo, base)`: bring `lo` into `[0, base)`, carrying into `hi`. -/
def norm (hi lo base : Int) : Int × Int := (hi + lo / base, lo % base)

/-- Go's `time.Date(year, month, day, hour, min, sec, 0, time.UTC)`:
out-of-range fields are normalised by carrying. -/
def Date (year month day hour min sec : Int) : Time :=
  let (year, m) := norm year (month - 1) 12
  let (min, sec) := norm min sec 60
  let (hour, min) := norm hour min 60
  let (day, hour) := norm day hour 24
  let d := daysSinceEpoch year + daysBefore m.toNat +
    (if isLeap year = true ∧ m + 1 ≥ 3 then 1 else 0) + (day - 1)
  ⟨d * 86400 + (hour * 3600 + min * 60 + sec)⟩

/-- The year of a day count and the day within that year (from 0), by 400-,
100-, 4- and 1-year cycles as in Go's `absDate`. -/
def yearOfDays (d : Int) : Int × Nat :=
  let n400 := d / 146097
  let d1 := d % 146097
  let n100 := d1 / 36524 - d1 / 36524 / 4
  let d2 := d1 - 36524 * n100
  let n4 := d2 / 1461
  let d3 := d2 - 1461 * n4
  let n1 := d3 / 365 - d3 / 365 / 4
  let d4 := d3 - 365 * n1
  (1 + 400 * n400 + 100 * n100 + 4 * n4 + n1, d4.toNat)

/-- Month and day of the month of day `yday` (from 0) of a year, as in Go's
`absDate`: the month is estimated as if every month had 31 days, then
adjusted. -/
def monthDay (leap : Bool) (yday : Nat) : Nat × Nat :=
  if leap = true ∧ yday = 31 + 29 - 1 then (2, 29)
  else
    let day := if leap = true ∧ yday > 31 + 29 - 1 then yday - 1 else yday
    let month := day / 31
    let fin := daysBefore (month + 1)
    if day ≥ fin then (month + 2, day - fin + 1)
    else (month + 1, day - daysBefore month + 1)

/-- The calendar fields of an instant. -/
structure Civil where
  year : Int
  month : Nat
  day : Nat
  hour : Nat
  minute : Nat
  second : Nat
deriving DecidableEq, Repr

/-- The calendar fields of `t` (`t.Date()` and `t.Clock()`). -/
def Time.civil (t : Time) : Civil :=
  let days := t.sec / 86400
  let sod := (t.sec % 86400).toNat
  let (year, yday) := yearOfDays days
  let (month, day) := monthDay (isLeap year) yday
  { year := year, month := month, day := day,
    hour := sod / 3600, minute := sod % 3600 / 60, second := sod % 60 }

/-- The method `t.Add(d)` for a duration of `d` whole seconds. -/
def Time.Add (t : Time) (d : Int) : Time := ⟨t.sec + d⟩

/-- The duration `time.Minute`, in seconds. -/
def Minute : Int := 60

/-- The duration `time.Hour`, in seconds. -/
def Hour : Int := 3600

/-- The method `t.AddDate(years, months, days)`: the calendar fields are
shifted and normalised by `Date`. -/
def Time.AddDate (t : Time) (years months days : Int) : Time :=
  let c := t.civil
  Date (c.year + years) (c.month + months) (c.day + days) c.hour c.minute c.second

/-! ### Formatting -/

/-- Go's `utod`: the character of a decimal digit. -/
def utod (u : Nat) : Char := Char.ofNat (48 + u)

/-- Go's `appendInt(b, x, width)`: the decimal form of `x`, zero-padded to
`width` digits, after a minus sign when `x` is negative. The two fast paths
are the ones of the library. -/
def appendInt (x : Int) (width : Nat) : List Char :=
  let u := x.natAbs
  let sign : List Char := if x < 0 then ['-'] else []
  if width = 2 ∧ u < 100 then
    sign ++ [utod (u / 10), utod (u % 10)]
  else if width = 4 ∧ u < 10000 then
    sign ++ [utod (u / 1000), utod (u / 100 % 10), utod (u / 10 % 10), utod (u % 10)]
  else
    sign ++ List.replicate (width - (Nat.toDigits 10 u).length) '0' ++ Nat.toDigits 10 u

/-- The chunks `2006-01-02` of a layout. -/
def Civil.dateChars (c : Civil) : List Char :=
  appendInt c.year 4 ++ ['-'] ++ appendInt c.month 2 ++ ['-'] ++ appendInt c.day 2

/-- The call `t.Format("2006-01-02 15:04:05")`. -/
def Time.formatDateTime (t : Time) : String :=
  let c := t.civil
  ⟨c.dateChars ++ [' '] ++ appendInt c.hour 2 ++ [':'] ++ appendInt c.minute 2 ++ [':'] ++
    appendInt c.second 2⟩

/-- The call `t.Format("2006-01-02 15:04:00")`: the seconds are the literal `00`. -/
def Time.formatMinuteKey (t : Time) : String :=
  let c := t.civil
  ⟨c.dateChars ++ [' '] ++ appendInt c.hour 2 ++ [':'] ++ appendInt c.minute 2 ++
    [':', '0', '0']⟩

/-- The call `t.Format("2006-01-02 15:00:00")`: minutes and seconds are literals. -/
def Time.formatHourKey (t : Time) : String :=
  let c := t.civil
  ⟨c.dateChars ++ [' '] ++ appendInt c.hour 2 ++ [':', '0', '0', ':', '0', '0']⟩

/-- The call `t.Format("2006-01-02")`. -/
def Time.formatDay (t : Time) : String := ⟨t.civil.dateChars⟩

/-- The call `t.Format("15:04")`. -/
def Time.formatClock (t : Time) : String :=
  let c := t.civil
  ⟨appendInt c.hour 2 ++ [':'] ++ appendInt c.minute 2⟩

/-- The call `t.Format("02.01")`. -/
def Time.formatDayMonth (t : Time) : String :=
  let c := t.civil
  ⟨appendInt c.day 2 ++ ['.'] ++ appendInt c.month 2⟩

/-! ### Parsing -/

/-- Go's `isDigit`: an ASCII decimal digit. -/
def isDigit (c : Char) : Bool := decide (48 ≤ c.toNat) && decide (c.toNat ≤ 57)

/-- The value `c - '0'` of a digit. -/
def digitVal (c : Char) : Nat := c.toNat - 48

/-- Go's `getnum(s, fixed)`: a number of one or two digits, of exactly two
when `fixed`. -/
def getnum (s : List Char) (fixed : Bool) : Option (Nat × List Char) :=
  match s with
  | [] => none
  | [a] => if isDigit a && !fixed then some (digitVal a, []) else none
  | a :: b :: rest =>
    if !isDigit a then none
    else if !isDigit b then (if fixed then none else some (digitVal a, b :: rest))
    else some (digitVal a * 10 + digitVal b, rest)

/-- The chunk `2006` of `time.Parse`: exactly four digits. -/
def getYear (s : List Char) : Option (Int × List Char) :=
  match s with
  | a :: b :: c :: d :: rest =>
    if isDigit a && isDigit b && isDigit c && isDigit d then
      some (((digitVal a * 1000 + digitVal b * 100 + digitVal c * 10 + digitVal d : Nat) : Int),
        rest)
    else none
  | _ => none

/-- Go's `cutspace`. -/
def cutspace (s : List Char) : List Char := s.dropWhile (· == ' ')

/-- Go's `skip(value, prefix)`: remove the literal text `prefix` of a layout
from the value; a run of spaces of the layout stands for a run of spaces of
the value. `afterSpace` records that the previous character of the layout
was a space, whose run has been cut already. -/
def skipFrom (afterSpace : Bool) (value : List Char) : List Char → Option (List Char)
  | [] => some value
  | p :: ps =>
    if p = ' ' then
      if afterSpace then skipFrom true value ps
      else
        match value with
        | [] => skipFrom true [] ps
        | v :: vs => if v ≠ ' ' then none else skipFrom true (cutspace (v :: vs)) ps
    else
      match value with
      | [] => none
      | v :: vs => if v = p then skipFrom false vs ps else none

/-- Go's `skip`. -/
def skip (value pre : List Char) : Option (List Char) := skipFrom false value pre

/-- What may follow the seconds of a value when the layout has no fraction:
nothing, or a period or comma and a run of digits up to the end. -/
def fractionOrEnd (s : List Char) : Bool :=
  match s with
  | [] => true
  | c :: d :: rest => (c = '.' || c = ',') && isDigit d && rest.all isDigit
  | _ => false

/-- The call `time.Parse("2006-01", value)`. Day and time of day take their defaults,
the first of the month at midnight. -/
def parseYearMonth (value : String) : Option Time := do
  let (year, v) ← getYear value.data
  let v ← skip v ['-']
  let (month, v) ← getnum v true
  if month = 0 ∨ 12 < month then none
  else if v ≠ [] then none
  else if 1 > daysIn month year then none
  else some (Date year month 1 0 0 0)

/-- The call `time.Parse("2006-01-02 15:04:05", value)`. -/
def parseDateTime (value : String) : Option Time := do
  let (year, v) ← getYear value.data
  let v ← skip v ['-']
  let (month, v) ← getnum v true
  if month = 0 ∨ 12 < month then none
  let v ← skip v ['-']
  let (day, v) ← getnum v true
  let v ← skip v [' ']
  let (hour, v) ← getnum v false
  if 24 ≤ hour then none
  let v ← skip v [':']
  let (min, v) ← getnum v true
  if 60 ≤ min then none
  let v ← skip v [':']
  let (sec, v) ← getnum v true
  if 60 ≤ sec then none
  if !fractionOrEnd v then none
  if day < 1 ∨ day > daysIn month year then none
  some (Date year month day hour min sec)

/-! ## `GetAllDatesInMonth` -/

/-- The function `date.GetAllDatesInMonth`; `none` is the error return. -/
def GetAllDatesInMonth (startTime : String) : Option (List String) :=
  match parseYearMonth startTime with
  | none => none
  | some startTimeParsed =>
    let firstDayOfMonth :=
      Date startTimeParsed.civil.year startTimeParsed.civil.month 1 0 0 0
    let firstDayOfNextMonth := firstDayOfMonth.AddDate 0 1 0
    let lastDayOfMonth := firstDayOfNextMonth.AddDate 0 0 (-1)
    let daysInMonth := lastDayOfMonth.civil.day
    some ((List.range daysInMonth).map fun i =>
      let day : Nat := i + 1
      let currentDate := Date firstDayOfMonth.civil.year firstDayOfMonth.civil.month day 0 0 0
      currentDate.formatDay)

/-! ### The calendar in the words of the specification -/

/-- The string `s` is a year-month: exactly four digits, a hyphen, and a
two-digit month from `01` to `12`; `y` and `m` are the numbers written. -/
def IsYearMonth (s : String) (y m : Nat) : Prop :=
  ∃ a b c d e f : Char, s.data = [a, b, c, d, '-', e, f] ∧
    isDigit a = true ∧ isDigit b = true ∧ isDigit c = true ∧ isDigit d = true ∧
    isDigit e = true ∧ isDigit f = true ∧
    y = digitVal a * 1000 + digitVal b * 100 + digitVal c * 10 + digitVal d ∧
    m = digitVal e * 10 + digitVal f ∧ 1 ≤ m ∧ m ≤ 12

/-- The Gregorian length of month `m` of year `y`: February has 29 days in a
leap year (every fourth year, except the centuries not divisible by 400) and
28 otherwise; April, June, September and November have 30; the others 31. -/
def gregorianDays (y m : Nat) : Nat :=
  if m = 2 then
    if (y % 4 = 0 ∧ y % 100 ≠ 0) ∨ y % 400 = 0 then 29 else 28
  else if m = 4 ∨ m = 6 ∨ m = 9 ∨ m = 11 then 30
  else 31

/-- The two decimal digits of a number below 100. -/
def twoDigits (n : Nat) : String := ⟨[utod (n / 10), utod (n % 10)]⟩

/-- Days from the epoch to the first day of month `m` (from 1) of year `y`. -/
def monthStart (y : Int) (m : Nat) : Int :=
  daysSinceEpoch y + daysBefore (m - 1) + (if isLeap y = true ∧ m ≥ 3 then 1 else 0)

/-! ## The bucketed series builders (`GetComplaintsLast*`) -/

/-- The Go struct `models.ComplaintData`: a label and one count for each of
the four categories. -/
structure ComplaintData where
  Time : String
  HotWater : Int
  ColdWater : Int
  Electricity : Int
  Heating : Int
deriving DecidableEq, Repr

/-- A row of the grouped count query after `rows.Scan`: the truncated
timestamp, the type and the count. -/
structure CountRow where
  bucket : String
  blackoutType : String
  count : Int
deriving DecidableEq, Repr

/-- The Go map `map[string]*models.ComplaintData`, read by key. -/
abbrev DataMap := String → Option ComplaintData

/-- The empty map `make(map[string]*models.ComplaintData)`. -/
def DataMap.empty : DataMap := fun _ => none

/-- The assignment `dataMap[key] = data`. -/
def DataMap.insert (m : DataMap) (key : String) (data : ComplaintData) : DataMap :=
  fun k => if k = key then some data else m k

/-- The `switch blackoutType` of the merge loop: the count of the matching
category is assigned, any other type leaves the entry as it is. -/
def setCount (data : ComplaintData) (blackoutType : String) (count : Int) : ComplaintData :=
  if blackoutType = "hot_water" then { data with HotWater := count }
  else if blackoutType = "cold_water" then { data with ColdWater := count }
  else if blackoutType = "electricity" then { data with Electricity := count }
  else if blackoutType = "heat" then { data with Heating := count }
  else data

/-- The instant of bucket `i`: `startTime.Add(time.Duration(i) * unit)`. -/
def bucketTime (startTime : Time) (unit : Int) (i : Nat) : Time :=
  startTime.Add ((i : Int) * unit)

/-- The seed loop: one zero entry per offset, stored under its key. -/
def seedBuckets (count : Nat) (unit : Int) (key label : Time → String) (startTime : Time) :
    DataMap :=
  (List.range count).foldl
    (fun dataMap i =>
      dataMap.insert (key (bucketTime startTime unit i))
        { Time := label (bucketTime startTime unit i),
          HotWater := 0, ColdWater := 0, Electricity := 0, Heating := 0 })
    DataMap.empty

/-- One turn of the merge loop. -/
def mergeRow (dataMap : DataMap) (r : CountRow) : DataMap :=
  match dataMap r.bucket with
  | some data => dataMap.insert r.bucket (setCount data r.blackoutType r.count)
  | none => dataMap

/-- The merge loop over the returned rows, in the order returned. -/
def mergeRows (dataMap : DataMap) (rows : List CountRow) : DataMap :=
  rows.foldl mergeRow dataMap

/-- The emit loop: the entries of the offsets, in order, when present. -/
def emitBuckets (count : Nat) (unit : Int) (key : Time → String) (startTime : Time)
    (dataMap : DataMap) : List ComplaintData :=
  (List.range count).filterMap fun i => dataMap (key (bucketTime startTime unit i))

/-- Seed, merge, emit: the body shared by the four builders after the query. -/
def buildSeries (count : Nat) (unit : Int) (key label : Time → String) (startTime : Time)
    (rows : List CountRow) : List ComplaintData :=
  emitBuckets count unit key startTime
    (mergeRows (seedBuckets count unit key label startTime) rows)

/-- What the store answers to the three grouped count queries, given the two
bound parameters `(startTimeStr, endTimeStr)`: the scanned rows, or `none`
when the query, a `Scan` or the iteration fails. -/
structure CountsStore where
  byMinute : String → String → Option (List CountRow)
  byHour : String → String → Option (List CountRow)
  byDay : String → String → Option (List CountRow)

/-- The method `Storage.GetComplaintsLastHour`; `none` is the error return. -/
def GetComplaintsLastHour (db : CountsStore) (endTime : String) : Option (List ComplaintData) :=
  match parseDateTime endTime with
  | none => none
  | some endTimeParsed =>
    let startTime := endTimeParsed.Add (-1 * Hour)
    let startTimeStr := startTime.formatDateTime
    let endTimeStr := endTimeParsed.formatDateTime
    match db.byMinute startTimeStr endTimeStr with
    | none => none
    | some rows =>
      some (buildSeries 60 Minute Time.formatMinuteKey Time.formatClock startTime rows)

/-- The method `Storage.GetComplaintsLastDay`; `none` is the error return. -/
def GetComplaintsLastDay (db : CountsStore) (endTime : String) : Option (List ComplaintData) :=
  match parseDateTime endTime with
  | none => none
  | some endTimeParsed =>
    let startTime := endTimeParsed.Add (-24 * Hour)
    let startTimeStr := startTime.formatDateTime
    let endTimeStr := endTimeParsed.formatDateTime
    match db.byHour startTimeStr endTimeStr with
    | none => none
    | some rows =>
      some (buildSeries 24 Hour Time.formatHourKey Time.formatClock startTime rows)

/-- The method `Storage.GetComplaintsLastWeek`; `none` is the error return. -/
def GetComplaintsLastWeek (db : CountsStore) (endTime : String) : Option (List ComplaintData) :=
  match parseDateTime endTime with
  | none => none
  | some endTimeParsed =>
    let startTime := endTimeParsed.Add (-7 * 24 * Hour)
    let startTimeStr := startTime.formatDateTime
    let endTimeStr := endTimeParsed.formatDateTime
    match db.byDay startTimeStr endTimeStr with
    | none => none
    | some rows =>
      some (buildSeries 7 (24 * Hour) Time.formatDay Time.formatDayMonth startTime rows)

/-- The method `Storage.GetComplaintsLastMonth`; `none` is the error return. -/
def GetComplaintsLastMonth (db : CountsStore) (endTime : String) : Option (List ComplaintData) :=
  match parseDateTime endTime with
  | none => none
  | some endTimeParsed =>
    let startTime := endTimeParsed.Add (-30 * 24 * Hour)
    let startTimeStr := startTime.formatDateTime
    let endTimeStr := endTimeParsed.formatDateTime
    match db.byDay startTimeStr endTimeStr with
    | none => none
    | some rows =>
      some (buildSeries 30 (24 * Hour) Time.formatDay Time.formatDayMonth startTime rows)

/-- The count of the last row of `rows` whose key is `key` and whose type is
`category`, or 0 when there is none. -/
def lastCount (rows : List CountRow) (key category : String) : Int :=
  match (rows.filter fun r => decide (r.bucket = key ∧ r.blackoutType = category)).getLast? with
  | some r => r.count
  | none => 0

/-- The entry a bucket is expected to carry: its label and, per category, the
last matching count. -/
def expectedBucket (rows : List CountRow) (key label : String) : ComplaintData :=
  { Time := label
    HotWater := lastCount rows key "hot_water"
    ColdWater := lastCount rows key "cold_water"
    Electricity := lastCount rows key "electricity"
    Heating := lastCount rows key "heat" }

/-- The parameters in which the four builders differ: bucket count, bucket
width in seconds, key and label layouts, the query it sends, and the Go
function itself. -/
structure Window where
  count : Nat
  unit : Int
  key : Time → String
  label : Time → String
  rowsOf : CountsStore → String → String → Option (List CountRow)
  run : CountsStore → String → Option (List ComplaintData)

/-- The window of `GetComplaintsLastHour`: 60 buckets of one minute. -/
def hourWindow : Window :=
  ⟨60, Minute, Time.formatMinuteKey, Time.formatClock, CountsStore.byMinute,
    GetComplaintsLastHour⟩

/-- The window of `GetComplaintsLastDay`: 24 buckets of one hour. -/
def dayWindow : Window :=
  ⟨24, Hour, Time.formatHourKey, Time.formatClock, CountsStore.byHour, GetComplaintsLastDay⟩

/-- The window of `GetComplaintsLastWeek`: 7 buckets of 24 hours. -/
def weekWindow : Window :=
  ⟨7, 24 * Hour, Time.formatDay, Time.formatDayMonth, CountsStore.byDay, GetComplaintsLastWeek⟩

/-- The window of `GetComplaintsLastMonth`: 30 buckets of 24 hours. -/
def monthWindow : Window :=
  ⟨30, 24 * Hour, Time.formatDay, Time.formatDayMonth, CountsStore.byDay,
    GetComplaintsLastMonth⟩

/-- The four series builders. -/
def windows : List Window := [hourWindow, dayWindow, weekWindow, monthWindow]

/-- The lower bound of a window: the reference instant minus `count` units. -/
def Window.lower (w : Window) (reference : Time) : Time :=
  reference.Add (-((w.count : Int) * w.unit))

/-- The instant of bucket `i` of a window that ends at `reference`. -/
def Window.instant (w : Window) (reference : Time) (i : Nat) : Time :=
  bucketTime (w.lower reference) w.unit i

/-- An entry with its label and all four counts zero. -/
def zeroBucket (label : String) : ComplaintData :=
  { Time := label, HotWater := 0, ColdWater := 0, Electricity := 0, Heating := 0 }

/-- The instant `t` with everything below the granularity `unit` (in seconds)
cleared. -/
def truncateTo (t : Time) (unit : Int) : Time := ⟨t.sec - t.sec % unit⟩

/-! ### The grouped count query over the table

SQLite's `strftime(format, timestring)` is a parameter; `none` is its NULL
result on a text it does not read as a date. -/

/-- The condition `start_date >= ? AND start_date < ?`. -/
def rangeCond (lo hi : String) (r : BlackoutRow) : SqlBool :=
  sqlAnd (sqlGe (some r.start_date) (some lo))
    (match sqlLe (some hi) (some r.start_date) with
      | some b => some (!b)
      | none => none)

/-- The order of `ORDER BY` on a nullable text: NULL sorts first. -/
def keyLe : Option String → Option String → Bool
  | none, _ => true
  | some _, none => false
  | some x, some y => textLe x y

/-- The number of occurrences of `a` in `l`: `COUNT(*)` of a group. -/
def occurrences {α : Type} [DecidableEq α] (a : α) (l : List α) : Nat := l.count a

/-- The `rows.Scan` loop of the builders over the result rows: a NULL key
cannot be scanned into a Go string and makes the whole call fail. -/
def scanCountRows : List (Option String × String × Int) → Option (List CountRow)
  | [] => some []
  | row :: rest =>
    match row.1, scanCountRows rest with
    | some k, some rs => some ({ bucket := k, blackoutType := row.2.1, count := row.2.2 } :: rs)
    | _, _ => none

/-- The query
`SELECT strftime(sel, start_date), type, COUNT(*) FROM blackouts
 WHERE start_date >= ? AND start_date < ?
 GROUP BY strftime(grp, start_date), type ORDER BY 1`
followed by the `Scan` of every row. The selected key of a group is taken
from its first row. Rows with equal keys come in the order of their first
event. -/
def groupedCounts (strftime : String → String → Option String) (sel grp : String)
    (events : List BlackoutRow) (lo hi : String) : Option (List CountRow) :=
  let selected := events.filter fun r => sqlWhere (rangeCond lo hi r)
  let groupOf := fun (r : BlackoutRow) => (strftime grp r.start_date, r.type)
  let groups := (selected.map groupOf).reverse.dedup.reverse
  let rows := groups.map fun g =>
    ((selected.find? fun r => decide (groupOf r = g)).bind fun r => strftime sel r.start_date,
      g.2, (occurrences g (selected.map groupOf) : Int))
  scanCountRows (rows.insertionSort fun a b => keyLe a.1 b.1 = true)

/-- The three grouped count queries of the builders, answered from the table. -/
def sqliteCounts (strftime : String → String → Option String) (s : Storage) : CountsStore :=
  { byMinute := groupedCounts strftime "%Y-%m-%d %H:%M:00" "%Y-%m-%d %H:%M" s.blackouts
    byHour := groupedCounts strftime "%Y-%m-%d %H:00:00" "%Y-%m-%d %H" s.blackouts
    byDay := groupedCounts strftime "%Y-%m-%d" "%Y-%m-%d" s.blackouts }

/-- A store whose minute query returns two rows for the key
`2019-01-15 13:31:00` of the same category, one row of an unknown type and
one row outside the window; the other queries return nothing. -/
def sampleCounts : CountsStore :=
  { byMinute := fun _ _ =>
      some [⟨"2019-01-15 13:31:00", "heat", 3⟩, ⟨"2019-01-15 13:31:00", "heat", 5⟩,
        ⟨"2019-01-15 13:32:00", "gas", 7⟩, ⟨"2019-01-15 14:30:00", "heat", 9⟩]
    byHour := fun _ _ => some []
    byDay := fun _ _ => some [] }

/-- The rows of `sampleCounts.byMinute`. -/
def sampleRows : List CountRow :=
  [⟨"2019-01-15 13:31:00", "heat", 3⟩, ⟨"2019-01-15 13:31:00", "heat", 5⟩,
    ⟨"2019-01-15 13:32:00", "gas", 7⟩, ⟨"2019-01-15 14:30:00", "heat", 9⟩]

/-- The instant `2019-01-15 14:30:00`. -/
def sampleReference : Time := Date 2019 1 15 14 30 0

/-- A store that answers every grouped count query with the same rows. -/
def constCounts (rows : List CountRow) : CountsStore :=
  { byMinute := fun _ _ => some rows
    byHour := fun _ _ => some rows
    byDay := fun _ _ => some rows }

/-! ## Organizations -/

/-- The rows of `blackouts b JOIN blackouts_buildings bb ON b.id = bb.blackout_id`. -/
def joinLinks (s : Storage) : List (BlackoutRow × LinkRow) :=
  s.blackouts.flatMap fun b =>
    (s.blackouts_buildings.filter fun bb => decide (b.id = bb.blackout_id)).map fun bb => (b, bb)

/-- The rows of the same join, joined further with
`buildings bu ON bb.building_id = bu.id`. -/
def joinBuildings (s : Storage) : List (BlackoutRow × LinkRow × BuildingRow) :=
  (joinLinks s).flatMap fun p =>
    (s.buildings.filter fun bu => decide (p.2.building_id = bu.id)).map fun bu => (p.1, p.2, bu)

/-- The aggregate `COUNT(DISTINCT bb.building_id)` over a list of joined building ids. -/
def countDistinct (ids : List Nat) : Nat := ids.dedup.length

/-- The aggregate `COUNT(DISTINCT bb.building_id)` of the group of
`initiator_name = name` in the query of `GetOrganizations`: the buildings
table is not joined and `is_fake` is not tested. -/
def orgGroupCount (s : Storage) (currentTime : String) (name : String) : Nat :=
  countDistinct
    (((joinLinks s).filter fun p =>
      sqlWhere (activeCond currentTime currentTime p.1) && decide (p.1.initiator_name = name)).map
        fun p => p.2.building_id)

/-- The method `Storage.GetOrganizations`: the names of the initiators with a linked
event active at `currentTime`, ordered by `COUNT(DISTINCT bb.building_id)`
descending, at most 4. The reference is bound to both parameters as it is.
SQL leaves the order of groups with equal counts open, and with it which of
them a cap of 4 keeps; here they come in the order of their first row, and
the statements on this query hold for any order of the ties. -/
def GetOrganizations (s : Storage) (currentTime : String) : List String :=
  let joined := (joinLinks s).filter fun p => sqlWhere (activeCond currentTime currentTime p.1)
  let groups := (joined.map fun p => p.1.initiator_name).reverse.dedup.reverse
  let ordered := groups.insertionSort fun a b =>
    orgGroupCount s currentTime b ≤ orgGroupCount s currentTime a
  ordered.take 4

/-- The method `Storage.GetBuildingsCountByOrgName`: the number of distinct non-fake
buildings linked to an event of the initiator `name` active at `currentTime`. -/
def GetBuildingsCountByOrgName (s : Storage) (name : String) (currentTime : String) : Int :=
  countDistinct
    (((joinBuildings s).filter fun p =>
      decide (p.1.initiator_name = name) && sqlWhere (activeCond currentTime currentTime p.1) &&
        decide (p.2.2.is_fake = 0)).map fun p => p.2.1.building_id)

/-- A store in which initiator `A` has one open event on two placeholder
(fake) buildings and initiator `B` has one open event on one real building. -/
def fakeRankedStore : Storage :=
  { blackouts :=
      [ { id := "1", start_date := "2019-01-10 08:00:00", end_date := none, description := "",
          type := "heat", initiator_name := "A", source := none },
        { id := "2", start_date := "2019-01-11 08:00:00", end_date := none, description := "",
          type := "heat", initiator_name := "B", source := none } ]
    buildings := [⟨1, 1⟩, ⟨2, 1⟩, ⟨3, 0⟩]
    blackouts_buildings := [⟨"1", 1⟩, ⟨"1", 2⟩, ⟨"2", 3⟩] }

/-- Two events around 15 January 2019: the first ended the day before, the
second is still open. -/
def sampleBlackouts : List BlackoutRow :=
  [ { id := "1", start_date := "2019-01-13 08:00:00", end_date := some "2019-01-14 23:59:59",
      description := "", type := "heat", initiator_name := "A", source := none },
    { id := "2", start_date := "2019-01-15 10:00:00", end_date := none,
      description := "", type := "electricity", initiator_name := "B", source := none } ]

/-! ## `ParseQueryDate` and `IsValidDate` -/

/-- A located instant as `time.Parse` returns it for a layout with a zone:
the instant in UTC and the offset of its location, in seconds east of UTC. -/
structure ZonedTime where
  utc : Time
  offset : Int
deriving DecidableEq, Repr

/-- The call `t.Format("2006-01-02 15:04:05")` on a located instant: the
fields of the wall clock of its location are printed. -/
def ZonedTime.formatDateTime (z : ZonedTime) : String := (z.utc.Add z.offset).formatDateTime

/-- What `time.Parse` does with a fraction of a second in the value when the
layout has none after the seconds: a period or comma followed by a digit
starts a run of digits, which is consumed. -/
def skipFraction (v : List Char) : List Char :=
  match v with
  | c :: d :: rest => if (c = '.' ∨ c = ',') ∧ isDigit d = true then rest.dropWhile isDigit else v
  | _ => v

/-- The chunk `Z07:00` of `time.Parse`: the letter `Z`, or a sign, two digits
of hours, a colon and two digits of minutes. The result is the offset in
seconds. The library (from Go 1.20) rejects more than 24 hours or more than
60 minutes. -/
def parseZone (v : List Char) : Option (Int × List Char) :=
  match v with
  | [] => none
  | c :: rest =>
    if c = 'Z' then some (0, rest)
    else
      match rest with
      | a :: b :: colon :: d :: e :: rest2 =>
        if colon ≠ ':' then none
        else
          match getnum [a, b] true, getnum [d, e] true with
          | some (hr, _), some (mm, _) =>
            if hr > 24 ∨ mm > 60 then none
            else if c = '+' then some ((((hr * 60 + mm) * 60 : Nat) : Int), rest2)
            else if c = '-' then some (-(((hr * 60 + mm) * 60 : Nat) : Int), rest2)
            else none
          | _, _ => none
      | _ => none

/-- The chunks `2006-01-02` of `time.Parse`: year, month and day with their
separators. The day is checked against the month once the value is read. -/
def parseDateChunks (v : List Char) : Option ((Int × Nat × Nat) × List Char) :=
  (getYear v).bind fun yv =>
  (skip yv.2 ['-']).bind fun v1 =>
  (getnum v1 true).bind fun mv =>
  if mv.1 = 0 ∨ 12 < mv.1 then none
  else
    (skip mv.2 ['-']).bind fun v2 =>
    (getnum v2 true).bind fun dv =>
    some ((yv.1, mv.1, dv.1), dv.2)

/-- The chunks `15:04:05` of `time.Parse`: an hour of one or two digits,
minutes and seconds of two digits, each in its range. -/
def parseClockChunks (v : List Char) : Option ((Nat × Nat × Nat) × List Char) :=
  (getnum v false).bind fun hv =>
  if 24 ≤ hv.1 then none
  else
    (skip hv.2 [':']).bind fun v1 =>
    (getnum v1 true).bind fun mv =>
    if 60 ≤ mv.1 then none
    else
      (skip mv.2 [':']).bind fun v2 =>
      (getnum v2 true).bind fun sv =>
      if 60 ≤ sv.1 then none else some ((hv.1, mv.1, sv.1), sv.2)

/-- The call `time.Parse(time.RFC3339, value)`, the layout
`2006-01-02T15:04:05Z07:00`. The instant is the wall clock of the value moved
back by the offset, located at that offset. -/
def parseRFC3339 (value : String) : Option ZonedTime :=
  (parseDateChunks value.data).bind fun dv =>
  (skip dv.2 ['T']).bind fun v1 =>
  (parseClockChunks v1).bind fun cv =>
  (parseZone (skipFraction cv.2)).bind fun zv =>
  if zv.2 ≠ [] then none
  else if dv.1.2.2 < 1 ∨ dv.1.2.2 > daysIn dv.1.2.1 dv.1.1 then none
  else
    some ⟨(Date dv.1.1 dv.1.2.1 dv.1.2.2 cv.1.1 cv.1.2.1 cv.1.2.2).Add (-zv.1), zv.1⟩

/-- Go's `strings.Contains(s, c)` for a one-character ASCII text `c`. -/
def goContains (s : String) (c : Char) : Bool := s.data.any fun x => decide (x = c)

/-- Replacement of the first occurrence of `old` by `new`. -/
def replaceFirstChars (old new : Char) : List Char → List Char
  | [] => []
  | c :: cs => if c = old then new :: cs else c :: replaceFirstChars old new cs

/-- Go's `strings.Replace(s, old, new, 1)` for one-character texts. -/
def replaceFirst (s : String) (old new : Char) : String := ⟨replaceFirstChars old new s.data⟩

/-- The two errors of `ParseQueryDate`: the error of `time.Parse`, and
`failed time parsing`. -/
inductive QueryDateError where
  | invalidRFC3339
  | failedTimeParsing
deriving DecidableEq, Repr

/-- The function `date.ParseQueryDate`: the returned string and the returned
error, `none` for `nil`. -/
def ParseQueryDate (date : String) : String × Option QueryDateError :=
  if date = "" then ("2019-12-30 23:59:59", none)
  else if goContains date 'T' = true then
    match parseRFC3339 date with
    | none => ("", some QueryDateError.invalidRFC3339)
    | some t => (t.formatDateTime, none)
  else if goContains date '_' = true then (replaceFirst date '_' ' ', none)
  else ("", some QueryDateError.failedTimeParsing)

/-- The call `time.Parse("2006-01-02", value)`. -/
def parseDate (value : String) : Option Time :=
  (parseDateChunks value.data).bind fun dv =>
  if dv.2 ≠ [] then none
  else if dv.1.2.2 < 1 ∨ dv.1.2.2 > daysIn dv.1.2.1 dv.1.1 then none
  else some (Date dv.1.1 dv.1.2.1 dv.1.2.2 0 0 0)

/-- The function `date.IsValidDate`. -/
def IsValidDate (dateStr : String) : Bool :=
  match parseDate dateStr with
  | none => false
  | some _ => true

/-! ### Date and time texts in the words of the specification -/

/-- Two digits `a b` that write the number `n`. -/
def DigitPair (a b : Char) (n : Nat) : Prop :=
  isDigit a = true ∧ isDigit b = true ∧ n = digitVal a * 10 + digitVal b

/-- Four digits `a b c d` that write the number `n`. -/
def DigitQuad (a b c d : Char) (n : Nat) : Prop :=
  isDigit a = true ∧ isDigit b = true ∧ isDigit c = true ∧ isDigit d = true ∧
    n = digitVal a * 1000 + digitVal b * 100 + digitVal c * 10 + digitVal d

/-- The text `YYYY-MM-DD` of a real calendar day: four digits, a hyphen, two
digits, a hyphen, two digits; the month is `01`..`12` and the day lies within
the length of that month in that year. -/
def IsDateText (cs : List Char) (year month day : Nat) : Prop :=
  ∃ y1 y2 y3 y4 m1 m2 d1 d2 : Char,
    cs = [y1, y2, y3, y4, '-', m1, m2, '-', d1, d2] ∧
    DigitQuad y1 y2 y3 y4 year ∧ DigitPair m1 m2 month ∧ DigitPair d1 d2 day ∧
    1 ≤ month ∧ month ≤ 12 ∧ 1 ≤ day ∧ day ≤ gregorianDays year month

/-- The text `HH:MM:SS` of a time of day: hour `00`..`23`, minute and second
`00`..`59`. -/
def IsClockText (cs : List Char) (hour min sec : Nat) : Prop :=
  ∃ h1 h2 n1 n2 s1 s2 : Char,
    cs = [h1, h2, ':', n1, n2, ':', s1, s2] ∧
    DigitPair h1 h2 hour ∧ DigitPair n1 n2 min ∧ DigitPair s1 s2 sec ∧
    hour < 24 ∧ min < 60 ∧ sec < 60

/-- The string is a calendar day `YYYY-MM-DD`. -/
def IsCalendarDay (s : String) : Prop := ∃ y m d, IsDateText s.data y m d

/-- The string is canonical: `YYYY-MM-DD HH:MM:SS`, 19 characters, a real
calendar day and a time of day. -/
def IsCanonicalDateTime (s : String) : Prop :=
  ∃ (date clock : List Char) (y m d h n sec : Nat),
    s.data = date ++ [' '] ++ clock ∧ IsDateText date y m d ∧ IsClockText clock h n sec

/-- The optional fraction of a second of RFC 3339: nothing, or a period and
one or more digits. -/
def IsFractionText (cs : List Char) : Prop :=
  cs = [] ∨ ∃ d ds, cs = '.' :: d :: ds ∧ isDigit d = true ∧ ds.all isDigit = true

/-- The zone designator of RFC 3339: `Z`, or a sign, hours `00`..`23`, a
colon and minutes `00`..`59`. -/
def IsZoneText (cs : List Char) : Prop :=
  cs = ['Z'] ∨ ∃ (sg a b c d : Char) (hh mm : Nat),
    cs = [sg, a, b, ':', c, d] ∧ (sg = '+' ∨ sg = '-') ∧
    DigitPair a b hh ∧ DigitPair c d mm ∧ hh < 24 ∧ mm < 60

/-- The string is a fully qualified RFC 3339 date-time with the capital
letters `T` and `Z` of the layout `time.RFC3339` and no leap second; `date`
and `clock` are the date and the time of day written in it. -/
def IsRFC3339 (s : String) (date clock : List Char) : Prop :=
  ∃ (frac zone : List Char) (y m d h n sec : Nat),
    s.data = date ++ ['T'] ++ clock ++ frac ++ zone ∧
    IsDateText date y m d ∧ IsClockText clock h n sec ∧
    IsFractionText frac ∧ IsZoneText zone

/-! ## Counting queries with the activity predicate -/

/-- The method `Storage.GetBuildingsCountByBlackoutType`: the number of
distinct non-fake buildings linked to an event of the given type that is
active for the reference, a 10-byte reference being expanded to its day. The
three tables are joined on the same conditions as in `joinBuildings`. -/
def GetBuildingsCountByBlackoutType (s : Storage) (blackoutType currentTime : String) : Int :=
  let (queryTime, currentTime) := activityBounds currentTime
  countDistinct
    (((joinBuildings s).filter fun p =>
      decide (p.1.type = blackoutType) && decide (p.2.2.is_fake = 0) &&
        sqlWhere (activeCond queryTime currentTime p.1)).map fun p => p.2.2.id)

/-- The Go struct `models.BlackoutInfo`. `StartDate` and `EndDate` are the
results of a cut at a byte offset, which need not end with a character: they
are held as the bytes of the Go string. -/
structure BlackoutInfo where
  Type_ : String
  StartDate : List Nat
  EndDate : List Nat
  BuildingCount : Int
deriving DecidableEq, Repr

/-- The UTF-8 encoding of a character: the bytes it takes in a Go string. -/
def utf8Bytes (c : Char) : List Nat :=
  if c.toNat < 128 then [c.toNat]
  else if c.toNat < 2048 then [192 + c.toNat / 64, 128 + c.toNat % 64]
  else if c.toNat < 65536 then
    [224 + c.toNat / 4096, 128 + c.toNat / 64 % 64, 128 + c.toNat % 64]
  else
    [240 + c.toNat / 262144, 128 + c.toNat / 4096 % 64, 128 + c.toNat / 64 % 64,
      128 + c.toNat % 64]

/-- The bytes of a Go string. -/
def goBytes (s : String) : List Nat := s.data.flatMap utf8Bytes

/-- The cut `if len(x) > 16 { x[:16] } else { x }` of the scan loop of
`GetBlackoutsWithBuildingsCount` on the bytes of a Go string: `len` counts
bytes and the slice keeps bytes, whether or not byte 16 ends a character. -/
def cutBytes (x : List Nat) : List Nat := if x.length > 16 then x.take 16 else x

/-- The cut of the scan loop applied to a stored text. -/
def cutToMinute (x : String) : List Nat := cutBytes (goBytes x)

/-- The columns `bl.id, bl.type, bl.start_date, bl.end_date` of the
`GROUP BY` of `GetBlackoutsWithBuildingsCount`. -/
def detailKey (b : BlackoutRow) : String × String × String × Option String :=
  (b.id, b.type, b.start_date, b.end_date)

/-- The `rows.Scan` step of `GetBlackoutsWithBuildingsCount` on one result
row: start and end are cut to 16 bytes, a NULL end becomes the empty string. -/
def scanBlackoutInfo (row : (String × String × String × Option String) × Nat) : BlackoutInfo :=
  { Type_ := row.1.2.1
    StartDate := cutToMinute row.1.2.2.1
    EndDate := match row.1.2.2.2 with
      | some e => cutToMinute e
      | none => []
    BuildingCount := (row.2 : Int) }

/-- The rows selected by the query of `GetBlackoutsWithBuildingsCount`: one
row per group `(id, type, start_date, end_date)` of the join of events, links
and non-fake buildings restricted to the events that satisfy the activity
condition, with the number of distinct buildings of the group, ordered by
start descending. SQL leaves the order of rows with equal start open; here
they come in the order of their first row, and the statements on this query
are up to the order of the entries. -/
def blackoutInfoQuery (s : Storage) (queryTime targetDate : String) :
    List ((String × String × String × Option String) × Nat) :=
  let rows := (joinBuildings s).filter fun p =>
    decide (p.2.2.is_fake = 0) && sqlWhere (activeCond queryTime targetDate p.1)
  let groups := (rows.map fun p => detailKey p.1).reverse.dedup.reverse
  let result := groups.map fun g =>
    (g, countDistinct ((rows.filter fun p => decide (detailKey p.1 = g)).map fun p => p.2.2.id))
  result.insertionSort fun a b => textLe b.1.2.2.1 a.1.2.2.1 = true

/-- The method `Storage.GetBlackoutsWithBuildingsCount`. A 10-byte reference
is expanded to its day. -/
def GetBlackoutsWithBuildingsCount (s : Storage) (targetDate : String) : List BlackoutInfo :=
  let (queryTime, targetDate) := activityBounds targetDate
  (blackoutInfoQuery s queryTime targetDate).map scanBlackoutInfo

/-! ### The organizations and the day detail in the words of the specification -/

/-- The organizations that have at least one event active at the instant. -/
def activeOrganizations (s : Storage) (reference : String) : List String :=
  ((s.blackouts.filter fun b => decide (ActiveBetween reference reference b)).map fun b =>
    b.initiator_name).dedup

/-- The organizations that have at least one event active at the instant
which is linked to at least one building. -/
def linkedActiveOrganizations (s : Storage) (reference : String) : List String :=
  ((s.blackouts.filter fun b =>
    decide (ActiveBetween reference reference b) &&
      s.blackouts_buildings.any fun bb => decide (b.id = bb.blackout_id)).map fun b =>
    b.initiator_name).dedup

/-- The number of distinct non-fake buildings affected by an event: the
building ids linked to the event for which the buildings table has a row
that is not fake. -/
def nonFakeBuildingCount (s : Storage) (e : BlackoutRow) : Nat :=
  (((s.blackouts_buildings.filter fun bb => decide (bb.blackout_id = e.id)).map fun bb =>
    bb.building_id).dedup.filter fun id =>
      s.buildings.any fun bu => decide (bu.id = id) && decide (bu.is_fake = 0)).length

/-- The entry of the per-day detail for an event: its category, its start
and end cut to the minute, and its number of distinct non-fake buildings. -/
def dayDetailEntry (s : Storage) (e : BlackoutRow) : BlackoutInfo :=
  { Type_ := e.type
    StartDate := cutToMinute e.start_date
    EndDate := match e.end_date with
      | some x => cutToMinute x
      | none => []
    BuildingCount := (nonFakeBuildingCount s e : Int) }

/-- A store with one open event of initiator `A` that is linked to no
building. -/
def unlinkedStore : Storage :=
  { blackouts :=
      [ { id := "1", start_date := "2019-01-15 10:00:00", end_date := none, description := "",
          type := "heat", initiator_name := "A", source := none } ]
    buildings := [⟨1, 0⟩]
    blackouts_buildings := [] }

/-- A store with one open event of initiator `A`, started on the morning of
15 January 2019 and linked to one real building. -/
def dayStore : Storage :=
  { blackouts :=
      [ { id := "1", start_date := "2019-01-15 10:00:00", end_date := none, description := "",
          type := "heat", initiator_name := "A", source := none } ]
    buildings := [⟨1, 0⟩]
    blackouts_buildings := [⟨"1", 1⟩] }

/-! ## The HTTP handlers

A handler reads its query parameters, calls the methods of an interface (its
`giver`) and renders one JSON response. The interface is a record of
functions whose `none` is the error return, so that a failing store is one
more giver. -/

/-- The rendered response: `response.Error(msg)` alone, or `response.Ok()`
together with the payload of the handler. -/
inductive Response (α : Type) where
  | error (msg : String)
  | ok (payload : α)
deriving DecidableEq, Repr

/-- The response has status `ERROR`. -/
def Response.isError {α : Type} : Response α → Bool
  | Response.error _ => true
  | Response.ok _ => false

/-! ### The month calendar (`handlers/calendar/month/get`) -/

/-- The Go struct `DateInfo` of the month calendar. -/
structure DateInfo where
  Date : String
  Services : List String
deriving DecidableEq, Repr

/-- The interface `DatesGiver`. -/
structure DatesGiver where
  GetBlackouts : String → Option (List Blackout)

/-- The keys of the map `serviceTypes` after the loop over the events of a
day, as the `range` over the map appends them. Go leaves the order of that
iteration open; the keys are listed here in the order of their last
insertion. -/
def serviceKeys (blackouts : List Blackout) : List String :=
  (blackouts.map fun blackout => blackout.Type_).dedup

/-- The handler `New` of the month calendar, on the query parameter `month`. -/
def CalendarMonth.New (giver : DatesGiver) (month : String) : Response (List DateInfo) :=
  if month = "" then Response.error "month parameter is required"
  else
    match GetAllDatesInMonth month with
    | none => Response.error "failed to process month dates"
    | some monthDates =>
      Response.ok (monthDates.filterMap fun dateStr =>
        match giver.GetBlackouts dateStr with
        | none => none
        | some blackouts => some { Date := dateStr, Services := serviceKeys blackouts })

/-- The giver of a store: `GetBlackouts` answers from the tables, except on
the references in `failing`, where the store reports an error. -/
def storeDatesGiver (s : Storage) (failing : String → Bool) : DatesGiver :=
  { GetBlackouts := fun currentTime =>
      if failing currentTime = true then none else some (GetBlackouts s currentTime) }

/-! ### The organizations (`handlers/organizations/get`) -/

/-- The Go struct `OrganizationInfo`. -/
structure OrganizationInfo where
  Name : String
  CountBuildings : Int
  LastAddress : String
  TimeLastBlackout : String
deriving DecidableEq, Repr

/-- The interface `OrganizationGiver`. `GetLastAddressByOrgName` returns the
pair `(lastTime, address)`. -/
structure OrganizationGiver where
  GetOrganizations : String → Option (List String)
  GetBuildingsCountByOrgName : String → String → Option Int
  GetLastAddressByOrgName : String → String → Option (String × String)

/-- The handler `New` of the organizations, on the query parameter
`curr_time`. -/
def Organizations.New (giver : OrganizationGiver) (currTime : String) :
    Response (List OrganizationInfo) :=
  if currTime = "" then Response.error "curr_time parameter is required"
  else
    match ParseQueryDate currTime with
    | (_, some _) => Response.error "invalid time format"
    | (currTimeParse, none) =>
      match giver.GetOrganizations currTimeParse with
      | none => Response.error "failed to get organizations"
      | some orgNames =>
        Response.ok (orgNames.filterMap fun orgName =>
          match giver.GetBuildingsCountByOrgName orgName currTimeParse with
          | none => none
          | some countBuildings =>
            let last :=
              match giver.GetLastAddressByOrgName orgName currTimeParse with
              | none => ("unknown", "unknown")
              | some found => found
            some { Name := orgName, CountBuildings := countBuildings,
                   LastAddress := last.2, TimeLastBlackout := last.1 })

/-- A giver over the tables of a store for the two queries the tables
answer. The lookup of the last address reads the table of the streets, which
is outside the embedding, and is a parameter; the count of the organizations
in `failing` reports an error. -/
def sampleOrganizationGiver (s : Storage) (failing : String → Bool)
    (lastAddress : String → Option (String × String)) : OrganizationGiver :=
  { GetOrganizations := fun currentTime => some (GetOrganizations s currentTime)
    GetBuildingsCountByOrgName := fun name currentTime =>
      if failing name = true then none else some (GetBuildingsCountByOrgName s name currentTime)
    GetLastAddressByOrgName := fun name _ => lastAddress name }

/-- A store with three initiators: `A` with one open event on two
placeholder buildings, `B` and `C` with one open event on one real building
each. -/
def threeOrganizations : Storage :=
  { blackouts :=
      [ { id := "1", start_date := "2019-01-10 08:00:00", end_date := none, description := "",
          type := "heat", initiator_name := "A", source := none },
        { id := "2", start_date := "2019-01-11 08:00:00", end_date := none, description := "",
          type := "heat", initiator_name := "B", source := none },
        { id := "3", start_date := "2019-01-12 08:00:00", end_date := none, description := "",
          type := "heat", initiator_name := "C", source := none } ]
    buildings := [⟨1, 1⟩, ⟨2, 1⟩, ⟨3, 0⟩, ⟨4, 0⟩]
    blackouts_buildings := [⟨"1", 1⟩, ⟨"1", 2⟩, ⟨"2", 3⟩, ⟨"3", 4⟩] }

/-! ### The complaints (`handlers/complaints`) -/

/-- The interface `ComplaintsGiver`. -/
structure ComplaintsGiver where
  GetComplaintsLastHour : String → Option (List ComplaintData)
  GetComplaintsLastDay : String → Option (List ComplaintData)
  GetComplaintsLastWeek : String → Option (List ComplaintData)
  GetComplaintsLastMonth : String → Option (List ComplaintData)

/-- A call of a method of the `ComplaintsGiver`, with its argument. -/
inductive BuilderCall where
  | lastHour (currTimeParse : String)
  | lastDay (currTimeParse : String)
  | lastWeek (currTimeParse : String)
  | lastMonth (currTimeParse : String)
deriving DecidableEq, Repr

/-- The `switch period` of the handler: the result of the method called, and
the calls made. A period that matches no case leaves `complaints` and `err`
at their zero values. -/
def callBuilder (giver : ComplaintsGiver) (period currTimeParse : String) :
    Option (List ComplaintData) × List BuilderCall :=
  if period = "hour" then
    (giver.GetComplaintsLastHour currTimeParse, [BuilderCall.lastHour currTimeParse])
  else if period = "day" then
    (giver.GetComplaintsLastDay currTimeParse, [BuilderCall.lastDay currTimeParse])
  else if period = "week" then
    (giver.GetComplaintsLastWeek currTimeParse, [BuilderCall.lastWeek currTimeParse])
  else if period = "month" then
    (giver.GetComplaintsLastMonth currTimeParse, [BuilderCall.lastMonth currTimeParse])
  else (some [], [])

/-- The map `validPeriods` of the handler, read at `period`. -/
def validPeriods (period : String) : Bool :=
  decide (period = "hour") || decide (period = "day") || decide (period = "week") ||
    decide (period = "month")

/-- The handler `New` of the complaints, on the query parameters `period`
and `curr_time`: the rendered response, and the calls it made to the giver,
in order. -/
def Complaints.New (giver : ComplaintsGiver) (period currTime : String) :
    Response (List ComplaintData) × List BuilderCall :=
  if period = "" then (Response.error "period parameter is required", [])
  else if currTime = "" then (Response.error "curr_time parameter is required", [])
  else
    match ParseQueryDate currTime with
    | (_, some _) => (Response.error "invalid time format", [])
    | (currTimeParse, none) =>
      if validPeriods period = false then
        (Response.error "invalid period, use: hour, day, week, month", [])
      else
        match callBuilder giver period currTimeParse with
        | (none, calls) => (Response.error "failed to get complaints data", calls)
        | (some complaints, calls) => (Response.ok complaints, calls)

/-- The four builders of a store as a `ComplaintsGiver`. -/
def storeComplaintsGiver (db : CountsStore) : ComplaintsGiver :=
  { GetComplaintsLastHour := GetComplaintsLastHour db
    GetComplaintsLastDay := GetComplaintsLastDay db
    GetComplaintsLastWeek := GetComplaintsLastWeek db
    GetComplaintsLastMonth := GetComplaintsLastMonth db }

/-- The response of the complaints handler to the result of a builder. -/
def renderComplaints : Option (List ComplaintData) → Response (List ComplaintData)
  | none => Response.error "failed to get complaints data"
  | some complaints => Response.ok complaints

/-- A store with one open event on one real building whose stored start has
16 characters and 17 bytes: its last character takes two bytes. -/
def twoByteStore : Storage :=
  { blackouts :=
      [ { id := "1", start_date := "2019-01-15 10:0é", end_date := none, description := "",
          type := "heat", initiator_name := "A", source := none } ]
    buildings := [⟨1, 0⟩]
    blackouts_buildings := [⟨"1", 1⟩] }

/-- The interval predicate of the specification for a reference string: a
10-byte reference stands for its day, from `00:00:00` to `23:59:59`, any
other reference for itself. -/
def ActiveFor (reference : String) (e : BlackoutRow) : Prop :=
  if goLen reference = 10 then
    ActiveBetween (reference ++ " 00:00:00") (reference ++ " 23:59:59") e
  else ActiveBetween reference reference e

instance (reference : String) (e : BlackoutRow) : Decidable (ActiveFor reference e) := by
  unfold ActiveFor
  infer_instance

/-! ## Binary64 arithmetic and the share of the blackout summary

Go's `float64` is IEEE 754 binary64 with rounding to nearest, ties to even.
A finite value is `mant * 2 ^ exp`; the result of an operation is the exact
result rounded to 53 significant bits. The exponent is not bounded here: the
values the handler computes from two `int64` counts stay in the normal range
of binary64, so neither overflow nor a subnormal number arises. -/

/-- A finite binary64 value `mant * 2 ^ exp`. -/
structure F64 where
  mant : Int
  exp : Int
deriving DecidableEq, Repr

/-- The numerator of the value written as a fraction of integers. -/
def F64.num (x : F64) : Int := if 0 ≤ x.exp then x.mant * 2 ^ x.exp.toNat else x.mant

/-- The denominator of the value written as a fraction of integers. -/
def F64.den (x : F64) : Nat := if 0 ≤ x.exp then 1 else 2 ^ (-x.exp).toNat

/-- The value as a rational number. -/
def F64.toRat (x : F64) : ℚ := (x.num : ℚ) / (x.den : ℚ)

/-- Scaling of a positive fraction `n / d * 2 ^ e` by powers of two until its
integer quotient has exactly 53 bits: `d * 2 ^ 52 ≤ n < d * 2 ^ 53`. -/
def normalizeQuot : Nat → Nat → Nat → Int → Nat × Nat × Int
  | 0, n, d, e => (n, d, e)
  | fuel + 1, n, d, e =>
    if n < d * 2 ^ 52 then normalizeQuot fuel (2 * n) d (e - 1)
    else if d * 2 ^ 53 ≤ n then normalizeQuot fuel n (2 * d) (e + 1)
    else (n, d, e)

/-- The integer nearest to `n / d`, the even one of the two when `n / d` lies
halfway. -/
def roundQuot (n d : Nat) : Nat :=
  if 2 * (n % d) < d then n / d
  else if d < 2 * (n % d) then n / d + 1
  else if n / d % 2 = 0 then n / d
  else n / d + 1

/-- The binary64 value nearest to `num / den`, ties to even. The steps of
scaling allowed are more than any fraction needs. A zero denominator, which
no division of the handler has, gives zero. -/
def roundToF64 (num : Int) (den : Nat) : F64 :=
  if num = 0 ∨ den = 0 then ⟨0, 0⟩
  else
    let r := normalizeQuot (num.natAbs + den + 52) num.natAbs den 0
    ⟨(if num < 0 then -1 else 1) * (roundQuot r.1 r.2.1 : Int), r.2.2⟩

/-- The conversion `float64(x)` of an integer. -/
def F64.ofInt (x : Int) : F64 := roundToF64 x 1

/-- The quotient `a / b` of two `float64` values. -/
def F64.div (a b : F64) : F64 :=
  roundToF64 (a.num * b.den * Int.sign b.num) (a.den * b.num.natAbs)

/-- The product `a * b` of two `float64` values. -/
def F64.mul (a b : F64) : F64 := roundToF64 (a.num * b.num) (a.den * b.den)

/-- Go's `math.Round`: the nearest integer, halves away from zero. -/
def F64.Round (x : F64) : F64 :=
  ⟨Int.sign x.num * ((2 * x.num.natAbs + x.den) / (2 * x.den) : Nat), 0⟩

/-- The `float64` constant `100`. -/
def F64.hundred : F64 := ⟨100, 0⟩

/-- The statements of the blackout summary that compute the share
(`handlers/blackouts/get`): `fraction` is `float64(affectedBuildings) /
float64(totalBuildings)` when `totalBuildings > 0` and zero otherwise, and
the result is `math.Round(fraction * 100 * 100) / 100`. -/
def percentage (affectedBuildings totalBuildings : Int) : F64 :=
  let fraction : F64 :=
    if totalBuildings > 0 then (F64.ofInt affectedBuildings).div (F64.ofInt totalBuildings)
    else ⟨0, 0⟩
  (((fraction.mul F64.hundred).mul F64.hundred).Round).div F64.hundred

/-- The number of hundredths in `100 * A / T` rounded to the nearest
hundredth, halves away from zero: `10000 * A / T` rounded to the nearest
integer, halves up. -/
def exactHundredths (A T : Nat) : Nat := (20000 * A + T) / (2 * T)

/-- The value `10000 * A / T` lies halfway between two integers. -/
def IsHalfway (A T : Nat) : Prop := (20000 * A + T) % (2 * T) = 0

instance (A T : Nat) : Decidable (IsHalfway A T) := by
  unfold IsHalfway
  infer_instance

/-! # Theorems -/

/-! ### Lemmas on the ordering step -/

theorem orderByStartDesc_perm (l : List BlackoutRow) : (orderByStartDesc l).Perm l :=
  List.perm_insertionSort _ l

theorem sqlWhere_activeCond (hi lo : String) (e : BlackoutRow) :
    sqlWhere (activeCond hi lo e) = true ↔ ActiveBetween lo hi e := by
  unfold activeCond ActiveBetween sqlGe sqlIsNull
  cases hend : e.end_date with
  | none =>
    cases hs : textLe e.start_date hi <;> simp [sqlLe, sqlOr, sqlAnd, sqlWhere, hs]
  | some x =>
    cases hs : textLe e.start_date hi <;> cases hx : textLe lo x <;>
      simp [sqlLe, sqlOr, sqlAnd, sqlWhere, hs, hx]

theorem blackoutsQuery_perm (s : Storage) (hi lo : String) :
    (blackoutsQuery s hi lo).Perm
      (s.blackouts.filter fun e => decide (ActiveBetween lo hi e)) := by
  unfold blackoutsQuery
  refine (orderByStartDesc_perm _).trans ?_
  have : (fun r => sqlWhere (activeCond hi lo r)) = fun e => decide (ActiveBetween lo hi e) := by
    funext e
    by_cases h : ActiveBetween lo hi e
    · simp [h, (sqlWhere_activeCond hi lo e).2 h]
    · have h2 : sqlWhere (activeCond hi lo e) ≠ true := fun h3 => h ((sqlWhere_activeCond hi lo e).1 h3)
      simp [h, h2]
  rw [this]


/-! ### The interval predicate (`GetBlackouts`) -/

theorem mem_blackoutsQuery (s : Storage) (hi lo : String) (e : BlackoutRow) :
    e ∈ blackoutsQuery s hi lo ↔ e ∈ s.blackouts ∧ ActiveBetween lo hi e := by
  rw [(blackoutsQuery_perm s hi lo).mem_iff]
  simp [List.mem_filter]

/-- C1: for a 10-byte reference `d`, `GetBlackouts` returns, up to the order
of the rows, exactly the stored events with
`start <= d 23:59:59` and (`end` NULL or `end >= d 00:00:00`), each once,
and the query selects a row if and only if it is such an event. -/
theorem GetBlackouts_day_reference (s : Storage) (d : String) (h : goLen d = 10) :
    (GetBlackouts s d).Perm
        ((s.blackouts.filter fun e =>
          decide (ActiveBetween (d ++ " 00:00:00") (d ++ " 23:59:59") e)).map scanBlackout) ∧
      ∀ e, e ∈ blackoutsQuery s (activityBounds d).1 (activityBounds d).2 ↔
        e ∈ s.blackouts ∧ textLe e.start_date (d ++ " 23:59:59") = true ∧
          (e.end_date = none ∨ ∃ x, e.end_date = some x ∧ textLe (d ++ " 00:00:00") x = true) := by
  have hb : activityBounds d = (d ++ " 23:59:59", d ++ " 00:00:00") := by
    simp [activityBounds, h]
  refine ⟨?_, ?_⟩
  · unfold GetBlackouts
    rw [hb]
    exact (blackoutsQuery_perm s _ _).map scanBlackout
  · intro e
    rw [hb]
    exact mem_blackoutsQuery s _ _ e

theorem GetBlackouts_day_reference_witness :
    goLen "2019-01-15" = 10 ∧
      (GetBlackouts ⟨sampleBlackouts, [], []⟩ "2019-01-15").Perm
        ((sampleBlackouts.filter fun e =>
          decide (ActiveBetween ("2019-01-15" ++ " 00:00:00") ("2019-01-15" ++ " 23:59:59") e)).map
            scanBlackout) :=
  ⟨by decide, (GetBlackouts_day_reference ⟨sampleBlackouts, [], []⟩ "2019-01-15" (by decide)).1⟩

/-- C2: for a reference `t` that is not 10 bytes long, `GetBlackouts` returns,
up to the order of the rows, exactly the stored events with `start <= t` and
(`end` NULL or `end >= t`); an event with a NULL end is returned for every
`t` at or after its start, such as the event starting `2019-01-15 10:00:00`
at `2019-01-15 14:30:00`. -/
theorem GetBlackouts_instant_reference (s : Storage) (t : String) (h : goLen t ≠ 10) :
    (GetBlackouts s t).Perm
        ((s.blackouts.filter fun e => decide (ActiveBetween t t e)).map scanBlackout) ∧
      (∀ e, e ∈ blackoutsQuery s (activityBounds t).1 (activityBounds t).2 ↔
        e ∈ s.blackouts ∧ textLe e.start_date t = true ∧
          (e.end_date = none ∨ ∃ x, e.end_date = some x ∧ textLe t x = true)) ∧
      (∀ e ∈ s.blackouts, e.end_date = none → textLe e.start_date t = true →
        scanBlackout e ∈ GetBlackouts s t) ∧
      ∀ e : BlackoutRow, e.start_date = "2019-01-15 10:00:00" → e.end_date = none →
        scanBlackout e ∈
          GetBlackouts ⟨[e], s.buildings, s.blackouts_buildings⟩ "2019-01-15 14:30:00" := by
  have hb : activityBounds t = (t, t) := by simp [activityBounds, h]
  have hperm : (GetBlackouts s t).Perm
      ((s.blackouts.filter fun e => decide (ActiveBetween t t e)).map scanBlackout) := by
    unfold GetBlackouts
    rw [hb]
    exact (blackoutsQuery_perm s _ _).map scanBlackout
  refine ⟨hperm, ?_, ?_, ?_⟩
  · intro e
    rw [hb]
    exact mem_blackoutsQuery s _ _ e
  · intro e he hnull hstart
    rw [hperm.mem_iff]
    refine List.mem_map_of_mem _ ?_
    simp [List.mem_filter, he, ActiveBetween, hnull, hstart]
  · intro e hs hn
    have hb2 : activityBounds "2019-01-15 14:30:00" =
        ("2019-01-15 14:30:00", "2019-01-15 14:30:00") := by decide
    have hact : sqlWhere (activeCond "2019-01-15 14:30:00" "2019-01-15 14:30:00" e) = true := by
      rw [sqlWhere_activeCond]
      refine ⟨?_, Or.inl hn⟩
      rw [hs]
      decide
    simp [GetBlackouts, hb2, blackoutsQuery, List.filter, hact, orderByStartDesc]

theorem GetBlackouts_instant_reference_witness :
    goLen "2019-01-15 14:30:00" ≠ 10 ∧
      (GetBlackouts ⟨sampleBlackouts, [], []⟩ "2019-01-15 14:30:00").Perm
        ((sampleBlackouts.filter fun e =>
          decide (ActiveBetween "2019-01-15 14:30:00" "2019-01-15 14:30:00" e)).map
            scanBlackout) :=
  ⟨by decide,
    (GetBlackouts_instant_reference ⟨sampleBlackouts, [], []⟩ "2019-01-15 14:30:00" (by decide)).1⟩

/-! ### The calendar of the `time` model -/

theorem yearOfDays_cycles (a b c u yd : Int) (hb0 : 0 ≤ b) (hb : b ≤ 3) (hc0 : 0 ≤ c)
    (hc : c ≤ 24) (hu0 : 0 ≤ u) (hu : u ≤ 3) (hy0 : 0 ≤ yd)
    (hy : yd < 365 ∨ (yd = 365 ∧ u = 3 ∧ (c ≠ 24 ∨ b = 3))) :
    yearOfDays (146097 * a + 36524 * b + 1461 * c + 365 * u + yd) =
      (1 + 400 * a + 100 * b + 4 * c + u, yd.toNat) := by
  have e1 : (146097 * a + 36524 * b + 1461 * c + 365 * u + yd) / 146097 = a := by omega
  have e2 : (146097 * a + 36524 * b + 1461 * c + 365 * u + yd) % 146097
      = 36524 * b + 1461 * c + 365 * u + yd := by omega
  have e3 : (36524 * b + 1461 * c + 365 * u + yd) / 36524
      - (36524 * b + 1461 * c + 365 * u + yd) / 36524 / 4 = b := by
    have h1 : 0 ≤ 1461 * c + 365 * u + yd := by omega
    have h2 : 1461 * c + 365 * u + yd ≤ 36524 := by omega
    rcases lt_or_eq_of_le h2 with h3 | h3
    · have : (36524 * b + 1461 * c + 365 * u + yd) / 36524 = b := by omega
      rw [this]; omega
    · have h4 : b = 3 := by omega
      have : (36524 * b + 1461 * c + 365 * u + yd) / 36524 = 4 := by omega
      rw [this]; omega
  have e4 : (1461 * c + 365 * u + yd) / 1461 = c := by omega
  have e5 : (365 * u + yd) / 365 - (365 * u + yd) / 365 / 4 = u := by
    rcases hy with h | ⟨h, h', _⟩
    · have : (365 * u + yd) / 365 = u := by omega
      rw [this]; omega
    · have : (365 * u + yd) / 365 = 4 := by omega
      rw [this]; omega
  simp only [yearOfDays, e1, e2, e3]
  have e6 : 36524 * b + 1461 * c + 365 * u + yd - 36524 * b = 1461 * c + 365 * u + yd := by
    omega
  simp only [e6, e4]
  have e7 : 1461 * c + 365 * u + yd - 1461 * c = 365 * u + yd := by omega
  simp only [e7, e5]
  have e8 : 365 * u + yd - 365 * u = yd := by omega
  simp only [e8]

theorem daysSinceEpoch_cycles (y : Int) :
    daysSinceEpoch y = 146097 * ((y - 1) / 400) + 36524 * ((y - 1) % 400 / 100)
      + 1461 * ((y - 1) % 100 / 4) + 365 * ((y - 1) % 4) := by
  simp only [daysSinceEpoch]
  omega

theorem isLeap_iff (y : Int) :
    isLeap y = true ↔ (y % 4 = 0 ∧ (y % 100 ≠ 0 ∨ y % 400 = 0)) := by
  simp [isLeap]

/-- Number of days of a year. -/
theorem daysSinceEpoch_succ (y : Int) :
    daysSinceEpoch (y + 1) = daysSinceEpoch y + 365 + (if isLeap y = true then 1 else 0) := by
  by_cases hl : isLeap y = true
  · rw [if_pos hl]
    have := (isLeap_iff y).1 hl
    simp only [daysSinceEpoch]
    omega
  · rw [if_neg hl]
    have := mt (isLeap_iff y).2 hl
    simp only [daysSinceEpoch]
    omega

theorem yearOfDays_daysSinceEpoch (y yd : Int) (h0 : 0 ≤ yd)
    (h1 : yd < 365 + (if isLeap y = true then 1 else 0)) :
    yearOfDays (daysSinceEpoch y + yd) = (y, yd.toNat) := by
  rw [daysSinceEpoch_cycles]
  have := yearOfDays_cycles ((y - 1) / 400) ((y - 1) % 400 / 100) ((y - 1) % 100 / 4)
    ((y - 1) % 4) yd
    (by omega) (by omega) (by omega) (by omega) (by omega) (by omega) h0
    (by
      by_cases hl : isLeap y = true
      · rw [if_pos hl] at h1
        have := (isLeap_iff y).1 hl
        omega
      · rw [if_neg hl] at h1
        omega)
  rw [this]
  congr 1
  omega

/-- Days before month `m` (from 1) of a year, leap day included. -/
theorem monthDay_table :
    ∀ leap : Bool, ∀ m : Fin 12, ∀ d : Fin 31,
      d.val < (if m.val + 1 = 2 ∧ leap = true then 29
          else daysBefore (m.val + 1) - daysBefore m.val) →
        monthDay leap (daysBefore m.val + (if leap = true ∧ m.val + 1 ≥ 3 then 1 else 0) + d.val)
          = (m.val + 1, d.val + 1) := by
  decide

/-! ### `Date` and `civil` are inverse on calendar dates -/

/-- Day number of a calendar date (proof-side normal form of `Date`). -/
theorem Date_sec (y : Int) (m d h mi s : Nat) (hm1 : 1 ≤ m) (hm : m ≤ 12)
    (hh : h < 24) (hmi : mi < 60) (hs : s < 60) :
    (Date y m d h mi s).sec =
      (daysSinceEpoch y + daysBefore (m - 1) + (if isLeap y = true ∧ m ≥ 3 then 1 else 0)
        + ((d : Int) - 1)) * 86400 + (h * 3600 + mi * 60 + s : Nat) := by
  have e1 : ((m : Int) - 1) / 12 = 0 := by omega
  have e2 : ((m : Int) - 1) % 12 = (m : Int) - 1 := by omega
  have e3 : (s : Int) / 60 = 0 := by omega
  have e4 : (s : Int) % 60 = s := by omega
  have e5 : (mi : Int) / 60 = 0 := by omega
  have e6 : (mi : Int) % 60 = mi := by omega
  have e7 : (h : Int) / 24 = 0 := by omega
  have e8 : (h : Int) % 24 = h := by omega
  have e9 : ((m : Int) - 1).toNat = m - 1 := by omega
  have e10 : ((m : Int) - 1 + 1 ≥ 3) ↔ m ≥ 3 := by omega
  simp only [Date, norm, e1, e2, e3, e4, e5, e6, e7, e8, e9, e10, add_zero]
  push_cast
  ring

theorem yday_bound (leap : Bool) (m d : Nat) (hm1 : 1 ≤ m) (hm : m ≤ 12) (hd1 : 1 ≤ d)
    (hd : d ≤ (if m = 2 ∧ leap = true then 29 else daysBefore m - daysBefore (m - 1))) :
    daysBefore (m - 1) + (if leap = true ∧ m ≥ 3 then 1 else 0) + (d - 1)
      < 365 + (if leap = true then 1 else 0) := by
  have h : ∀ leap : Bool, ∀ m : Fin 13, ∀ d : Fin 32, 1 ≤ m.val → 1 ≤ d.val →
      d.val ≤ (if m.val = 2 ∧ leap = true then 29
        else daysBefore m.val - daysBefore (m.val - 1)) →
      daysBefore (m.val - 1) + (if leap = true ∧ m.val ≥ 3 then 1 else 0) + (d.val - 1)
        < 365 + (if leap = true then 1 else 0) := by decide
  have hd32 : d < 32 := by
    have : ∀ leap : Bool, ∀ m : Fin 13,
        (if m.val = 2 ∧ leap = true then 29
          else daysBefore m.val - daysBefore (m.val - 1)) < 32 := by decide
    have := this leap ⟨m, by omega⟩
    simp only at this
    omega
  exact h leap ⟨m, by omega⟩ ⟨d, hd32⟩ hm1 hd1 hd

theorem monthDay_yday (leap : Bool) (m d : Nat) (hm1 : 1 ≤ m) (hm : m ≤ 12) (hd1 : 1 ≤ d)
    (hd : d ≤ (if m = 2 ∧ leap = true then 29 else daysBefore m - daysBefore (m - 1))) :
    monthDay leap (daysBefore (m - 1) + (if leap = true ∧ m ≥ 3 then 1 else 0) + (d - 1))
      = (m, d) := by
  have hd31 : d - 1 < 31 := by
    have : ∀ leap : Bool, ∀ m : Fin 13,
        (if m.val = 2 ∧ leap = true then 29
          else daysBefore m.val - daysBefore (m.val - 1)) < 32 := by decide
    have := this leap ⟨m, by omega⟩
    simp only at this
    omega
  have := monthDay_table leap ⟨m - 1, by omega⟩ ⟨d - 1, hd31⟩
  simp only at this
  have e1 : m - 1 + 1 = m := by omega
  have e2 : d - 1 + 1 = d := by omega
  rw [e1, e2] at this
  exact this (by omega)

theorem Date_civil (y : Int) (m d h mi s : Nat) (hm1 : 1 ≤ m) (hm : m ≤ 12) (hd1 : 1 ≤ d)
    (hd : d ≤ daysIn m y) (hh : h < 24) (hmi : mi < 60) (hs : s < 60) :
    (Date y m d h mi s).civil =
      { year := y, month := m, day := d, hour := h, minute := mi, second := s } := by
  have hd' : d ≤ (if m = 2 ∧ isLeap y = true then 29 else daysBefore m - daysBefore (m - 1)) :=
    hd
  have hb := yday_bound (isLeap y) m d hm1 hm hd1 hd'
  have hmd := monthDay_yday (isLeap y) m d hm1 hm hd1 hd'
  have hsec := Date_sec y m d h mi s hm1 hm hh hmi hs
  set yd : Nat := daysBefore (m - 1) + (if isLeap y = true ∧ m ≥ 3 then 1 else 0) + (d - 1)
    with hyd
  have hsec2 : (Date y m d h mi s).sec =
      (daysSinceEpoch y + (yd : Int)) * 86400 + (h * 3600 + mi * 60 + s : Nat) := by
    rw [hsec, hyd]
    push_cast
    have : ((d - 1 : Nat) : Int) = (d : Int) - 1 := by omega
    rw [this]
    split_ifs <;> ring
  have hq : (Date y m d h mi s).sec / 86400 = daysSinceEpoch y + (yd : Int) := by
    rw [hsec2]; omega
  have hr : ((Date y m d h mi s).sec % 86400).toNat = h * 3600 + mi * 60 + s := by
    rw [hsec2]; omega
  have hy := yearOfDays_daysSinceEpoch y yd (by omega) (by
    have : ((if isLeap y = true then 1 else 0 : Nat) : Int) = (if isLeap y = true then 1 else 0) := by
      split_ifs <;> rfl
    omega)
  simp only [Time.civil, hq, hr, hy, Int.toNat_ofNat, hmd]
  have a1 : (h * 3600 + mi * 60 + s) / 3600 = h := by omega
  have a2 : (h * 3600 + mi * 60 + s) % 3600 / 60 = mi := by omega
  have a3 : (h * 3600 + mi * 60 + s) % 60 = s := by omega
  rw [a1, a2, a3]

/-! ### Digits, month lengths and the year-month parser -/

theorem utod_digitVal (c : Char) (h : isDigit c = true) : utod (digitVal c) = c := by
  simp only [isDigit, Bool.and_eq_true, decide_eq_true_eq] at h
  unfold utod digitVal
  have : 48 + (c.toNat - 48) = c.toNat := by omega
  rw [this]
  exact Char.ofNat_toNat c

theorem digitVal_lt (c : Char) (h : isDigit c = true) : digitVal c < 10 := by
  simp only [isDigit, Bool.and_eq_true, decide_eq_true_eq] at h
  unfold digitVal
  omega

theorem appendInt_four (a b c d : Char) (ha : isDigit a = true) (hb : isDigit b = true)
    (hc : isDigit c = true) (hd : isDigit d = true) :
    appendInt ((digitVal a * 1000 + digitVal b * 100 + digitVal c * 10 + digitVal d : Nat) : Int) 4
      = [a, b, c, d] := by
  have := digitVal_lt a ha
  have := digitVal_lt b hb
  have := digitVal_lt c hc
  have := digitVal_lt d hd
  have h1 : (digitVal a * 1000 + digitVal b * 100 + digitVal c * 10 + digitVal d) / 1000
      = digitVal a := by omega
  have h2 : (digitVal a * 1000 + digitVal b * 100 + digitVal c * 10 + digitVal d) / 100 % 10
      = digitVal b := by omega
  have h3 : (digitVal a * 1000 + digitVal b * 100 + digitVal c * 10 + digitVal d) / 10 % 10
      = digitVal c := by omega
  have h4 : (digitVal a * 1000 + digitVal b * 100 + digitVal c * 10 + digitVal d) % 10
      = digitVal d := by omega
  have h5 : (digitVal a * 1000 + digitVal b * 100 + digitVal c * 10 + digitVal d) < 10000 := by
    omega
  have h6 : ¬ (((digitVal a * 1000 + digitVal b * 100 + digitVal c * 10 + digitVal d : Nat) : Int)
      < 0) := by omega
  simp only [appendInt, Int.natAbs_ofNat, h1, h2, h3, h4, h5, h6, if_false, if_true,
    and_true, List.nil_append, utod_digitVal, ha, hb, hc, hd]
  simp

theorem appendInt_two (n : Nat) (h : n < 100) :
    appendInt (n : Int) 2 = [utod (n / 10), utod (n % 10)] := by
  have h6 : ¬ ((n : Int) < 0) := by omega
  simp [appendInt, h, h6]

theorem appendInt_two_digits (e f : Char) (he : isDigit e = true) (hf : isDigit f = true) :
    appendInt ((digitVal e * 10 + digitVal f : Nat) : Int) 2 = [e, f] := by
  have := digitVal_lt e he
  have := digitVal_lt f hf
  rw [appendInt_two _ (by omega)]
  have h1 : (digitVal e * 10 + digitVal f) / 10 = digitVal e := by omega
  have h2 : (digitVal e * 10 + digitVal f) % 10 = digitVal f := by omega
  rw [h1, h2, utod_digitVal e he, utod_digitVal f hf]

theorem daysIn_eq_gregorianDays (y m : Nat) (hm1 : 1 ≤ m) (hm : m ≤ 12) :
    daysIn m (y : Int) = gregorianDays y m := by
  have hl : isLeap (y : Int) = true ↔ ((y % 4 = 0 ∧ y % 100 ≠ 0) ∨ y % 400 = 0) := by
    rw [isLeap_iff]
    omega
  unfold daysIn gregorianDays
  by_cases h2 : m = 2
  · subst h2
    by_cases hleap : isLeap (y : Int) = true
    · simp [hleap, hl.1 hleap]
    · have := mt hl.2 hleap
      simp [hleap, this, daysBefore]
  · have : ∀ m : Fin 13, 1 ≤ m.val → m.val ≠ 2 →
        daysBefore m.val - daysBefore (m.val - 1) =
          if m.val = 4 ∨ m.val = 6 ∨ m.val = 9 ∨ m.val = 11 then 30 else 31 := by decide
    have := this ⟨m, by omega⟩ hm1 h2
    simp only at this
    simp [h2, this]

theorem parseYearMonth_of_isYearMonth (s : String) (y m : Nat) (h : IsYearMonth s y m) :
    parseYearMonth s = some (Date y m 1 0 0 0) := by
  obtain ⟨a, b, c, d, e, f, hs, ha, hb, hc, hd, he, hf, hy, hm, hm1, hm12⟩ := h
  have hdays : ¬ (1 > daysIn m (y : Int)) := by
    rw [daysIn_eq_gregorianDays y m hm1 hm12]
    unfold gregorianDays
    split_ifs <;> omega
  have hm0 : ¬ (m = 0 ∨ 12 < m) := by omega
  simp only [parseYearMonth, hs, getYear, ha, hb, hc, hd, he, hf, skip, skipFrom, getnum,
    Bool.and_self, if_true, Bool.not_true, Bool.false_eq_true, if_false, ← hy, ← hm]
  have hdays2 : daysIn m (y : Int) ≠ 0 := by omega
  simp [he, hf, ← hm, hm0, hdays2]

/-! ### Month arithmetic of `GetAllDatesInMonth` -/

/-- At midnight `Date` carries any day field, in range or not, into the day count. -/
theorem Date_midnight (y : Int) (m : Nat) (d : Int) (hm1 : 1 ≤ m) (hm : m ≤ 12) :
    Date y m d 0 0 0 = ⟨(monthStart y m + (d - 1)) * 86400⟩ := by
  have e1 : ((m : Int) - 1) / 12 = 0 := by omega
  have e2 : ((m : Int) - 1) % 12 = (m : Int) - 1 := by omega
  have e9 : ((m : Int) - 1).toNat = m - 1 := by omega
  have e10 : ((m : Int) - 1 + 1 ≥ 3) ↔ m ≥ 3 := by omega
  simp [Date, norm, monthStart, e1, e2, e9, e10]

theorem Date_month_carry (y : Int) (d : Int) :
    Date y 13 d 0 0 0 = Date (y + 1) 1 d 0 0 0 := by
  simp [Date, norm]

theorem monthStart_next (y : Int) (m : Nat) (hm1 : 1 ≤ m) (hm : m < 12) :
    monthStart y (m + 1) = monthStart y m + daysIn m y := by
  have h : ∀ leap : Bool, ∀ m : Fin 12, 1 ≤ m.val →
      daysBefore (m.val + 1 - 1) + (if leap = true ∧ m.val + 1 ≥ 3 then 1 else 0) =
        daysBefore (m.val - 1) + (if leap = true ∧ m.val ≥ 3 then 1 else 0) +
          (if m.val = 2 ∧ leap = true then 29 else daysBefore m.val - daysBefore (m.val - 1)) := by
    decide
  have := h (isLeap y) ⟨m, hm⟩ hm1
  simp only at this
  unfold monthStart daysIn
  have c1 : ((if isLeap y = true ∧ m + 1 ≥ 3 then 1 else 0 : Int)) =
      ((if isLeap y = true ∧ m + 1 ≥ 3 then 1 else 0 : Nat) : Int) := by split_ifs <;> rfl
  have c2 : ((if isLeap y = true ∧ m ≥ 3 then 1 else 0 : Int)) =
      ((if isLeap y = true ∧ m ≥ 3 then 1 else 0 : Nat) : Int) := by split_ifs <;> rfl
  rw [c1, c2]
  omega

theorem monthStart_december (y : Int) :
    monthStart (y + 1) 1 = monthStart y 12 + daysIn 12 y := by
  unfold monthStart daysIn
  rw [daysSinceEpoch_succ]
  simp only [daysBefore]
  split_ifs <;> simp_all <;> omega

theorem daysIn_pos (y : Int) (m : Nat) (hm1 : 1 ≤ m) (hm : m ≤ 12) : 1 ≤ daysIn m y := by
  have h : ∀ leap : Bool, ∀ m : Fin 13, 1 ≤ m.val →
      1 ≤ (if m.val = 2 ∧ leap = true then 29 else daysBefore m.val - daysBefore (m.val - 1)) := by
    decide
  exact h (isLeap y) ⟨m, by omega⟩ hm1

/-- The last day of a month, as the code computes it: one month after the
first day, then one day back. -/
theorem lastDayOfMonth_day (y : Int) (m : Nat) (hm1 : 1 ≤ m) (hm : m ≤ 12) :
    ((((Date y m 1 0 0 0).AddDate 0 1 0).AddDate 0 0 (-1)).civil).day = daysIn m y := by
  have hpos := daysIn_pos y m hm1 hm
  have hc := Date_civil y m 1 0 0 0 hm1 hm (le_refl 1) hpos (by decide) (by decide) (by decide)
  have hlast : ∀ (y2 : Int) (m2 : Nat), 1 ≤ m2 → m2 ≤ 12 →
      monthStart y2 m2 = monthStart y m + daysIn m y →
      (((Date y2 m2 1 0 0 0).AddDate 0 0 (-1)).civil).day = daysIn m y := by
    intro y2 m2 h1 h2 hstart
    have hc2 := Date_civil y2 m2 1 0 0 0 h1 h2 (le_refl 1) (daysIn_pos y2 m2 h1 h2)
      (by decide) (by decide) (by decide)
    have hc2' : (Date y2 (m2 : Int) ((1 : Nat) : Int) ((0 : Nat) : Int) ((0 : Nat) : Int)
        ((0 : Nat) : Int)).civil = _ := hc2
    simp only [Nat.cast_one, Nat.cast_zero] at hc2'
    have e : (Date y2 m2 1 0 0 0).AddDate 0 0 (-1) = Date y m (daysIn m y : Nat) 0 0 0 := by
      simp only [Time.AddDate, hc2', add_zero, Nat.cast_one, Nat.cast_zero]
      rw [Date_midnight y2 m2 _ h1 h2, Date_midnight y m _ hm1 hm, hstart]
      congr 1
      ring
    rw [e]
    have := Date_civil y m (daysIn m y) 0 0 0 hm1 hm hpos (le_refl _) (by decide) (by decide)
      (by decide)
    simp only [Nat.cast_zero] at this
    rw [this]
  have hc' : (Date y (m : Int) ((1 : Nat) : Int) ((0 : Nat) : Int) ((0 : Nat) : Int)
      ((0 : Nat) : Int)).civil = _ := hc
  simp only [Nat.cast_one, Nat.cast_zero] at hc'
  have hnext : (Date y m 1 0 0 0).AddDate 0 1 0 = Date y ((m + 1 : Nat) : Int) 1 0 0 0 := by
    simp only [Time.AddDate, hc', add_zero, Nat.cast_one, Nat.cast_zero, Nat.cast_add]
  rw [hnext]
  by_cases h12 : m = 12
  · subst h12
    have e13 : (((12 + 1 : Nat) : Int)) = 13 := rfl
    rw [e13, Date_month_carry]
    have := hlast (y + 1) 1 (le_refl 1) (by decide) (monthStart_december y)
    simpa using this
  · exact hlast y (m + 1) (by omega) (by omega) (monthStart_next y m hm1 (by omega))

theorem gregorianDays_bounds (y m : Nat) : 28 ≤ gregorianDays y m ∧ gregorianDays y m ≤ 31 := by
  unfold gregorianDays
  split_ifs <;> omega

/-- The list `GetAllDatesInMonth` returns on a year-month, in closed form. -/
theorem GetAllDatesInMonth_eq (s : String) (y m : Nat) (h : IsYearMonth s y m) :
    GetAllDatesInMonth s =
      some ((List.range (gregorianDays y m)).map fun i => s ++ "-" ++ twoDigits (i + 1)) := by
  have hp := parseYearMonth_of_isYearMonth s y m h
  obtain ⟨a, b, c, d, e, f, hs, ha, hb, hc, hd, he, hf, hy, hm, hm1, hm12⟩ := h
  have hpos := daysIn_pos y m hm1 hm12
  have hc0 := Date_civil y m 1 0 0 0 hm1 hm12 (le_refl 1) hpos (by decide) (by decide)
    (by decide)
  have hc1 : (Date y (m : Int) ((1 : Nat) : Int) ((0 : Nat) : Int) ((0 : Nat) : Int)
      ((0 : Nat) : Int)).civil = _ := hc0
  simp only [Nat.cast_one, Nat.cast_zero] at hc1
  have hlast := lastDayOfMonth_day y m hm1 hm12
  unfold GetAllDatesInMonth
  rw [hp]
  simp only [hc1, hlast, daysIn_eq_gregorianDays y m hm1 hm12]
  congr 1
  apply List.map_congr_left
  intro i hi
  have hi' : i < gregorianDays y m := List.mem_range.1 hi
  have hb31 := (gregorianDays_bounds y m).2
  have hday := Date_civil y m (i + 1) 0 0 0 hm1 hm12 (by omega)
    (by rw [daysIn_eq_gregorianDays y m hm1 hm12]; omega) (by decide) (by decide) (by decide)
  have hday' : (Date y (m : Int) ((i + 1 : Nat) : Int) ((0 : Nat) : Int) ((0 : Nat) : Int)
      ((0 : Nat) : Int)).civil = _ := hday
  simp only [Nat.cast_zero] at hday'
  have hyear : appendInt (y : Int) 4 = [a, b, c, d] := by
    rw [hy]; exact appendInt_four a b c d ha hb hc hd
  have hmonth : appendInt ((m : Nat) : Int) 2 = [e, f] := by
    rw [hm]; exact appendInt_two_digits e f he hf
  have hdd : appendInt ((i + 1 : Nat) : Int) 2 = [utod ((i + 1) / 10), utod ((i + 1) % 10)] :=
    appendInt_two (i + 1) (by omega)
  apply String.ext
  simp only [Time.formatDay, hday', Civil.dateChars, hyear, hmonth, hdd, String.data_append, hs,
    twoDigits]
  rfl

theorem isYearMonth_of_parseYearMonth (s : String) (t : Time) (h : parseYearMonth s = some t) :
    ∃ y m, IsYearMonth s y m := by
  unfold parseYearMonth at h
  rcases hl : s.data with _ | ⟨a, _ | ⟨b, _ | ⟨c, _ | ⟨d, rest⟩⟩⟩⟩
  · simp [hl, getYear] at h
  · simp [hl, getYear] at h
  · simp [hl, getYear] at h
  · simp [hl, getYear] at h
  · rw [hl] at h
    by_cases hdig : (isDigit a && isDigit b && isDigit c && isDigit d) = true
    · simp only [getYear, hdig, if_true] at h
      simp only [Bool.and_eq_true] at hdig
      obtain ⟨⟨⟨ha, hb⟩, hc⟩, hd⟩ := hdig
      rcases rest with _ | ⟨p, r2⟩
      · simp [skip, skipFrom] at h
      · by_cases hp : p = '-'
        · subst hp
          rcases r2 with _ | ⟨e, _ | ⟨f, r3⟩⟩
          · simp [skip, skipFrom, getnum] at h
          · simp [skip, skipFrom, getnum] at h
          · by_cases he : isDigit e = true
            · by_cases hf : isDigit f = true
              · by_cases hm : digitVal e * 10 + digitVal f = 0 ∨ 12 < digitVal e * 10 + digitVal f
                · simp [skip, skipFrom, getnum, he, hf] at h
                  omega
                · by_cases hr : r3 = []
                  · subst hr
                    exact ⟨_, _, a, b, c, d, e, f, hl, ha, hb, hc, hd, he, hf, rfl, rfl,
                      by omega, by omega⟩
                  · simp [skip, skipFrom, getnum, he, hf, hm, hr] at h
              · simp [skip, skipFrom, getnum, he, hf] at h
            · simp [skip, skipFrom, getnum, he] at h
        · have hp2 : ¬ ('-' = p) := fun h' => hp h'.symm
          simp [skip, skipFrom, hp, hp2] at h
    · simp [getYear, hdig] at h

theorem charsLe_append_left (p x y : List Char) :
    charsLe (p ++ x) (p ++ y) = charsLe x y := by
  induction p with
  | nil => rfl
  | cons a as ih => simp [charsLe, ih]

theorem twoDigits_lt :
    ∀ i j : Fin 32, i.val < j.val →
      charsLe [utod (j.val / 10), utod (j.val % 10)] [utod (i.val / 10), utod (i.val % 10)]
        = false := by
  decide

theorem dates_ascending (s : String) (n : Nat) (hn : n ≤ 31) :
    ((List.range n).map fun i => s ++ "-" ++ twoDigits (i + 1)).Pairwise
      (fun a b => textLt a b = true) := by
  rw [List.pairwise_map]
  refine List.Pairwise.imp_of_mem ?_ (List.pairwise_lt_range n)
  intro i j hi hj hij
  have hi' := List.mem_range.1 hi
  have hj' := List.mem_range.1 hj
  have := twoDigits_lt ⟨i + 1, by omega⟩ ⟨j + 1, by omega⟩ (by simp; omega)
  simp only at this
  simp only [textLt, textLe, String.data_append, twoDigits, charsLe_append_left, this,
    Bool.not_false]

set_option maxRecDepth 100000 in
/-- C8: on a year-month `s` (four digits, hyphen, month `01`..`12`)
`GetAllDatesInMonth` returns a list whose length is the Gregorian length of
that month and whose `i`-th entry (from 1) is `s`, a hyphen and the two-digit
day `i`; the list is strictly ascending. `2019-01` gives the 31 entries
`2019-01-01` to `2019-01-31`, and `2020-02` gives 29 entries. -/
theorem GetAllDatesInMonth_calendar (s : String) (y m : Nat) (h : IsYearMonth s y m) :
    (∃ l, GetAllDatesInMonth s = some l ∧
      l.length = gregorianDays y m ∧
      (∀ i, (hi : i < l.length) → l.get ⟨i, hi⟩ = s ++ "-" ++ twoDigits (i + 1)) ∧
      l.Pairwise (fun a b => textLt a b = true)) ∧
    (GetAllDatesInMonth "2019-01").map (fun l => (l.length, l.head?, l.getLast?)) =
      some (31, some "2019-01-01", some "2019-01-31") ∧
    (GetAllDatesInMonth "2020-02").map List.length = some 29 := by
  refine ⟨⟨_, GetAllDatesInMonth_eq s y m h, by simp, ?_, ?_⟩, by decide, by decide⟩
  · intro i hi
    simp
  · exact dates_ascending s _ (gregorianDays_bounds y m).2

theorem GetAllDatesInMonth_calendar_witness :
    IsYearMonth "2020-02" 2020 2 ∧
      ∃ l, GetAllDatesInMonth "2020-02" = some l ∧
        l.length = gregorianDays 2020 2 ∧
        (∀ i, (hi : i < l.length) → l.get ⟨i, hi⟩ = "2020-02" ++ "-" ++ twoDigits (i + 1)) ∧
        l.Pairwise (fun a b => textLt a b = true) :=
  have h : IsYearMonth "2020-02" 2020 2 :=
    ⟨'2', '0', '2', '0', '0', '2', rfl, by decide, by decide, by decide, by decide, by decide,
      by decide, by decide, by decide, by decide, by decide⟩
  ⟨h, (GetAllDatesInMonth_calendar "2020-02" 2020 2 h).1⟩

/-- C9: `GetAllDatesInMonth` returns the error exactly on the inputs that
are not a year-month (four digits, hyphen, month `01`..`12`); on a
year-month it returns a non-empty list. -/
theorem GetAllDatesInMonth_error_iff (s : String) :
    (GetAllDatesInMonth s = none ↔ ¬ ∃ y m, IsYearMonth s y m) ∧
      ((∃ y m, IsYearMonth s y m) ↔ ∃ l, GetAllDatesInMonth s = some l ∧ l ≠ []) := by
  have hsome : (∃ y m, IsYearMonth s y m) → ∃ l, GetAllDatesInMonth s = some l ∧ l ≠ [] := by
    rintro ⟨y, m, h⟩
    refine ⟨_, GetAllDatesInMonth_eq s y m h, ?_⟩
    have := (gregorianDays_bounds y m).1
    intro hnil
    have hlen := congrArg List.length hnil
    simp at hlen
    omega
  have hnone : (¬ ∃ y m, IsYearMonth s y m) → GetAllDatesInMonth s = none := by
    intro hno
    cases hp : parseYearMonth s with
    | none => simp [GetAllDatesInMonth, hp]
    | some t => exact absurd (isYearMonth_of_parseYearMonth s t hp) hno
  refine ⟨⟨?_, hnone⟩, ⟨hsome, ?_⟩⟩
  · intro hn hex
    obtain ⟨l, hl, _⟩ := hsome hex
    rw [hn] at hl
    exact Option.noConfusion hl
  · rintro ⟨l, hl, _⟩
    by_contra hno
    rw [hnone hno] at hl
    exact Option.noConfusion hl

/-! ### Seed, merge and emit -/

theorem setCount_Time (d : ComplaintData) (t : String) (c : Int) :
    (setCount d t c).Time = d.Time := by
  unfold setCount
  split_ifs <;> rfl

theorem setCount_HotWater (d : ComplaintData) (t : String) (c : Int) :
    (setCount d t c).HotWater = if t = "hot_water" then c else d.HotWater := by
  unfold setCount
  split_ifs <;> simp_all

theorem setCount_ColdWater (d : ComplaintData) (t : String) (c : Int) :
    (setCount d t c).ColdWater = if t = "cold_water" then c else d.ColdWater := by
  unfold setCount
  split_ifs <;> simp_all

theorem setCount_Electricity (d : ComplaintData) (t : String) (c : Int) :
    (setCount d t c).Electricity = if t = "electricity" then c else d.Electricity := by
  unfold setCount
  split_ifs <;> simp_all

theorem setCount_Heating (d : ComplaintData) (t : String) (c : Int) :
    (setCount d t c).Heating = if t = "heat" then c else d.Heating := by
  unfold setCount
  split_ifs <;> simp_all

theorem setCount_other (d : ComplaintData) (t : String) (c : Int) (h1 : t ≠ "hot_water")
    (h2 : t ≠ "cold_water") (h3 : t ≠ "electricity") (h4 : t ≠ "heat") : setCount d t c = d := by
  simp [setCount, h1, h2, h3, h4]

/-- The value a field has after a run of updates: the last assigned count. -/
theorem foldl_setCount (rows : List CountRow) (d : ComplaintData) :
    let e := rows.foldl (fun d r => setCount d r.blackoutType r.count) d
    let last := fun (cat : String) (dflt : Int) =>
      match (rows.filter fun r => decide (r.blackoutType = cat)).getLast? with
      | some r => r.count
      | none => dflt
    e.Time = d.Time ∧ e.HotWater = last "hot_water" d.HotWater ∧
      e.ColdWater = last "cold_water" d.ColdWater ∧
      e.Electricity = last "electricity" d.Electricity ∧ e.Heating = last "heat" d.Heating := by
  induction rows using List.reverseRecOn with
  | nil => simp
  | append_singleton rs r ih =>
    simp only [List.foldl_append, List.foldl_cons, List.foldl_nil, List.filter_append,
      setCount_Time, setCount_HotWater, setCount_ColdWater, setCount_Electricity,
      setCount_Heating] at ih ⊢
    obtain ⟨i1, i2, i3, i4, i5⟩ := ih
    refine ⟨i1, ?_, ?_, ?_, ?_⟩
    · by_cases h : r.blackoutType = "hot_water" <;> simp [List.filter, h, i2]
    · by_cases h : r.blackoutType = "cold_water" <;> simp [List.filter, h, i3]
    · by_cases h : r.blackoutType = "electricity" <;> simp [List.filter, h, i4]
    · by_cases h : r.blackoutType = "heat" <;> simp [List.filter, h, i5]

theorem mergeRows_apply (rows : List CountRow) (m : DataMap) (k : String) :
    mergeRows m rows k =
      (m k).map fun d =>
        (rows.filter fun r => decide (r.bucket = k)).foldl
          (fun d r => setCount d r.blackoutType r.count) d := by
  induction rows generalizing m with
  | nil => simp [mergeRows]
  | cons r rs ih =>
    have hstep : mergeRows m (r :: rs) = mergeRows (mergeRow m r) rs := rfl
    rw [hstep, ih]
    by_cases hk : r.bucket = k
    · subst hk
      cases hm : m r.bucket with
      | none => simp [mergeRow, hm]
      | some data => simp [mergeRow, hm, DataMap.insert, List.filter]
    · have : mergeRow m r k = m k := by
        unfold mergeRow
        cases hm : m r.bucket with
        | none => rfl
        | some data =>
          have hk' : ¬ k = r.bucket := fun h => hk h.symm
          simp [DataMap.insert, hk']
      simp [this, List.filter, hk]

theorem mergeRows_expected (rows : List CountRow) (m : DataMap) (k label : String)
    (h : m k = some ⟨label, 0, 0, 0, 0⟩) :
    mergeRows m rows k = some (expectedBucket rows k label) := by
  rw [mergeRows_apply, h]
  have := foldl_setCount (rows.filter fun r => decide (r.bucket = k))
    ⟨label, 0, 0, 0, 0⟩
  simp only [List.filter_filter] at this
  obtain ⟨h1, h2, h3, h4, h5⟩ := this
  have hf : ∀ cat : String, (fun a : CountRow => decide (a.blackoutType = cat) && decide (a.bucket = k))
      = fun r => decide (r.bucket = k ∧ r.blackoutType = cat) := by
    intro cat
    funext a
    by_cases ha : a.bucket = k <;> by_cases hb : a.blackoutType = cat <;> simp [ha, hb]
  simp only [hf] at h2 h3 h4 h5
  simp only [Option.map_some', expectedBucket, lastCount, Option.some.injEq]
  cases hd : (rows.filter fun r => decide (r.bucket = k)).foldl
    (fun d r => setCount d r.blackoutType r.count)
    ⟨label, 0, 0, 0, 0⟩ with
  | mk t a b c d =>
    rw [hd] at h1 h2 h3 h4 h5
    simp only at h1 h2 h3 h4 h5
    rw [h1, h2, h3, h4, h5]

theorem seedBuckets_succ (n : Nat) (unit : Int) (key label : Time → String) (start : Time) :
    seedBuckets (n + 1) unit key label start =
      (seedBuckets n unit key label start).insert (key (bucketTime start unit n))
        ⟨label (bucketTime start unit n), 0, 0, 0, 0⟩ := by
  simp [seedBuckets, List.range_succ, List.foldl_append]

theorem seedBuckets_key (n : Nat) (unit : Int) (key label : Time → String) (start : Time)
    (compat : ∀ i j, key (bucketTime start unit i) = key (bucketTime start unit j) →
      label (bucketTime start unit i) = label (bucketTime start unit j))
    (i : Nat) (hi : i < n) :
    seedBuckets n unit key label start (key (bucketTime start unit i)) =
      some ⟨label (bucketTime start unit i), 0, 0, 0, 0⟩ := by
  induction n with
  | zero => omega
  | succ n ih =>
    rw [seedBuckets_succ]
    unfold DataMap.insert
    by_cases hk : key (bucketTime start unit i) = key (bucketTime start unit n)
    · rw [if_pos hk, compat i n hk]
    · rw [if_neg hk]
      have hin : i < n := by
        rcases Nat.lt_succ_iff_lt_or_eq.1 hi with h | h
        · exact h
        · subst h; exact absurd rfl hk
      exact ih hin

theorem seedBuckets_none (n : Nat) (unit : Int) (key label : Time → String) (start : Time)
    (k : String) (hk : ∀ i, i < n → key (bucketTime start unit i) ≠ k) :
    seedBuckets n unit key label start k = none := by
  induction n with
  | zero => rfl
  | succ n ih =>
    rw [seedBuckets_succ]
    unfold DataMap.insert
    have h1 : ¬ k = key (bucketTime start unit n) := fun h => hk n (Nat.lt_succ_self n) h.symm
    rw [if_neg h1]
    exact ih fun i hi => hk i (Nat.lt_succ_of_lt hi)

/-- The output of a builder in closed form: bucket `i` carries the label of
offset `i` and, per category, the last count returned for its key. -/
theorem buildSeries_eq (n : Nat) (unit : Int) (key label : Time → String) (start : Time)
    (compat : ∀ i j, key (bucketTime start unit i) = key (bucketTime start unit j) →
      label (bucketTime start unit i) = label (bucketTime start unit j))
    (rows : List CountRow) :
    buildSeries n unit key label start rows =
      (List.range n).map fun i =>
        expectedBucket rows (key (bucketTime start unit i)) (label (bucketTime start unit i)) := by
  unfold buildSeries emitBuckets
  rw [← List.filterMap_eq_map]
  apply List.filterMap_congr
  intro i hi
  have hi' := List.mem_range.1 hi
  exact mergeRows_expected rows _ _ _ (seedBuckets_key n unit key label start compat i hi')

theorem yearOfDays_yday_le (d : Int) : (yearOfDays d).2 ≤ 365 := by
  simp only [yearOfDays]
  have h : ∀ x : Int, 0 ≤ x - 1461 * (x / 1461) ∧ x - 1461 * (x / 1461) < 1461 := by
    intro x; omega
  generalize d % 146097 - 36524 * (d % 146097 / 36524 - d % 146097 / 36524 / 4) = x
  have hx := h x
  generalize x - 1461 * (x / 1461) = z at hx ⊢
  omega

set_option maxRecDepth 100000 in
theorem monthDay_lt : ∀ leap : Bool, ∀ yd : Fin 366,
    (monthDay leap yd.val).1 < 100 ∧ (monthDay leap yd.val).2 < 100 := by
  decide

theorem civil_bounds (t : Time) :
    t.civil.month < 100 ∧ t.civil.day < 100 ∧ t.civil.hour < 24 ∧ t.civil.minute < 60 ∧
      t.civil.second < 60 := by
  have hy := yearOfDays_yday_le (t.sec / 86400)
  have hm := monthDay_lt (isLeap (yearOfDays (t.sec / 86400)).1)
    ⟨(yearOfDays (t.sec / 86400)).2, by omega⟩
  simp only at hm
  have hs : (t.sec % 86400).toNat < 86400 := by omega
  simp only [Time.civil]
  refine ⟨hm.1, hm.2, ?_, ?_, ?_⟩ <;> omega

/-! ### Labels are determined by keys -/

theorem appendInt_hour (t : Time) :
    appendInt (t.civil.hour : Int) 2 = [utod (t.civil.hour / 10), utod (t.civil.hour % 10)] :=
  appendInt_two _ (by have := civil_bounds t; omega)

theorem appendInt_minute (t : Time) :
    appendInt (t.civil.minute : Int) 2 =
      [utod (t.civil.minute / 10), utod (t.civil.minute % 10)] :=
  appendInt_two _ (by have := civil_bounds t; omega)

theorem appendInt_month (t : Time) :
    appendInt (t.civil.month : Int) 2 = [utod (t.civil.month / 10), utod (t.civil.month % 10)] :=
  appendInt_two _ (civil_bounds t).1

theorem appendInt_day (t : Time) :
    appendInt (t.civil.day : Int) 2 = [utod (t.civil.day / 10), utod (t.civil.day % 10)] :=
  appendInt_two _ (civil_bounds t).2.1

/-- The label of a minute bucket can be read off its key. -/
theorem formatClock_of_minuteKey (t u : Time) (h : t.formatMinuteKey = u.formatMinuteKey) :
    t.formatClock = u.formatClock := by
  simp only [Time.formatMinuteKey, Time.formatClock, appendInt_hour, appendInt_minute,
    List.append_assoc, List.cons_append, List.nil_append] at h ⊢
  have := (List.append_inj' (congrArg String.data h) (by simp)).2
  simp only [List.cons.injEq] at this
  obtain ⟨-, h1, h2, -, h3, h4, -⟩ := this
  rw [h1, h2, h3, h4]

/-- The hour of an hour bucket can be read off its key. -/
theorem hour_of_hourKey (t u : Time) (h : t.formatHourKey = u.formatHourKey) :
    appendInt (t.civil.hour : Int) 2 = appendInt (u.civil.hour : Int) 2 := by
  simp only [Time.formatHourKey, appendInt_hour, List.append_assoc,
    List.cons_append, List.nil_append] at h ⊢
  have := (List.append_inj' (congrArg String.data h) (by simp)).2
  simp only [List.cons.injEq] at this
  obtain ⟨-, h1, h2, -⟩ := this
  rw [h1, h2]

/-- The label of a day bucket can be read off its key. -/
theorem formatDayMonth_of_formatDay (t u : Time) (h : t.formatDay = u.formatDay) :
    t.formatDayMonth = u.formatDayMonth := by
  simp only [Time.formatDay, Time.formatDayMonth, Civil.dateChars, appendInt_month,
    appendInt_day, List.append_assoc, List.cons_append, List.nil_append] at h ⊢
  have := (List.append_inj' (congrArg String.data h) (by simp)).2
  simp only [List.cons.injEq] at this
  obtain ⟨-, h1, h2, -, h3, h4, -⟩ := this
  rw [h1, h2, h3, h4]

/-- Adding whole hours keeps the minute of the hour. -/
theorem minute_add_hours (t : Time) (i : Nat) :
    (bucketTime t Hour i).civil.minute = t.civil.minute := by
  simp only [bucketTime, Time.Add, Time.civil, Hour]
  omega

theorem formatClock_of_hourKey (t : Time) (i j : Nat)
    (h : (bucketTime t Hour i).formatHourKey = (bucketTime t Hour j).formatHourKey) :
    (bucketTime t Hour i).formatClock = (bucketTime t Hour j).formatClock := by
  have hh := hour_of_hourKey _ _ h
  simp only [Time.formatClock, hh, minute_add_hours]

/-! ### The four builders in closed form -/

theorem windows_compat (w : Window) (hw : w ∈ windows) (start : Time) (i j : Nat)
    (h : w.key (bucketTime start w.unit i) = w.key (bucketTime start w.unit j)) :
    w.label (bucketTime start w.unit i) = w.label (bucketTime start w.unit j) := by
  simp only [windows, List.mem_cons, List.mem_singleton, List.not_mem_nil, or_false] at hw
  rcases hw with rfl | rfl | rfl | rfl
  · exact formatClock_of_minuteKey _ _ h
  · exact formatClock_of_hourKey start i j h
  · exact formatDayMonth_of_formatDay _ _ h
  · exact formatDayMonth_of_formatDay _ _ h

/-- Each builder in closed form: it fails when the reference does not parse
or the query fails, and otherwise returns, for each offset in order, the
label of the offset and the last count returned for its key. -/
theorem run_eq (w : Window) (hw : w ∈ windows) (db : CountsStore) (endTime : String) (t : Time)
    (hp : parseDateTime endTime = some t) :
    w.run db endTime =
      (w.rowsOf db (w.lower t).formatDateTime t.formatDateTime).map fun rows =>
        (List.range w.count).map fun i =>
          expectedBucket rows (w.key (w.instant t i)) (w.label (w.instant t i)) := by
  have hc := windows_compat w hw (w.lower t)
  simp only [windows, List.mem_cons, List.mem_singleton, List.not_mem_nil, or_false] at hw
  rcases hw with rfl | rfl | rfl | rfl
  · have e : t.Add (-1 * Hour) = hourWindow.lower t := rfl
    change GetComplaintsLastHour db endTime =
      Option.map _ (db.byMinute (hourWindow.lower t).formatDateTime t.formatDateTime)
    unfold GetComplaintsLastHour
    rw [hp]
    dsimp only
    rw [e]
    cases db.byMinute (hourWindow.lower t).formatDateTime t.formatDateTime with
    | none => rfl
    | some rows =>
      simp only [Option.map_some', Option.some.injEq]
      exact buildSeries_eq 60 Minute _ _ _ hc rows
  · have e : t.Add (-24 * Hour) = dayWindow.lower t := rfl
    change GetComplaintsLastDay db endTime =
      Option.map _ (db.byHour (dayWindow.lower t).formatDateTime t.formatDateTime)
    unfold GetComplaintsLastDay
    rw [hp]
    dsimp only
    rw [e]
    cases db.byHour (dayWindow.lower t).formatDateTime t.formatDateTime with
    | none => rfl
    | some rows =>
      simp only [Option.map_some', Option.some.injEq]
      exact buildSeries_eq 24 Hour _ _ _ hc rows
  · have e : t.Add (-7 * 24 * Hour) = weekWindow.lower t := rfl
    change GetComplaintsLastWeek db endTime =
      Option.map _ (db.byDay (weekWindow.lower t).formatDateTime t.formatDateTime)
    unfold GetComplaintsLastWeek
    rw [hp]
    dsimp only
    rw [e]
    cases db.byDay (weekWindow.lower t).formatDateTime t.formatDateTime with
    | none => rfl
    | some rows =>
      simp only [Option.map_some', Option.some.injEq]
      exact buildSeries_eq 7 (24 * Hour) _ _ _ hc rows
  · have e : t.Add (-30 * 24 * Hour) = monthWindow.lower t := rfl
    change GetComplaintsLastMonth db endTime =
      Option.map _ (db.byDay (monthWindow.lower t).formatDateTime t.formatDateTime)
    unfold GetComplaintsLastMonth
    rw [hp]
    dsimp only
    rw [e]
    cases db.byDay (monthWindow.lower t).formatDateTime t.formatDateTime with
    | none => rfl
    | some rows =>
      simp only [Option.map_some', Option.some.injEq]
      exact buildSeries_eq 30 (24 * Hour) _ _ _ hc rows

theorem lastCount_of_no_match (rows : List CountRow) (k cat : String)
    (h : ∀ r ∈ rows, ¬ (r.bucket = k ∧ r.blackoutType = cat)) : lastCount rows k cat = 0 := by
  unfold lastCount
  have : (rows.filter fun r => decide (r.bucket = k ∧ r.blackoutType = cat)) = [] := by
    rw [List.filter_eq_nil_iff]
    intro r hr
    simpa using h r hr
  rw [this]
  rfl

theorem expectedBucket_of_no_match (rows : List CountRow) (k label : String)
    (h : ∀ r ∈ rows, r.bucket ≠ k) : expectedBucket rows k label = zeroBucket label := by
  unfold expectedBucket zeroBucket
  rw [lastCount_of_no_match, lastCount_of_no_match, lastCount_of_no_match,
    lastCount_of_no_match] <;> exact fun r hr hh => h r hr hh.1

/-! ### Order of the buckets and of the rows -/

theorem windows_unit_pos (w : Window) (hw : w ∈ windows) : 0 < w.unit := by
  simp only [windows, List.mem_cons, List.mem_singleton, List.not_mem_nil, or_false] at hw
  rcases hw with rfl | rfl | rfl | rfl <;> decide

theorem instant_lt (w : Window) (hw : w ∈ windows) (t : Time) (i j : Nat) (h : i < j) :
    (w.instant t i).sec < (w.instant t j).sec := by
  have hu := windows_unit_pos w hw
  simp only [Window.instant, bucketTime, Time.Add]
  have : (i : Int) * w.unit < (j : Int) * w.unit :=
    mul_lt_mul_of_pos_right (by exact_mod_cast h) hu
  omega

theorem filter_same_pair_length (rows : List CountRow) (k cat : String)
    (hnd : (rows.map fun r => (r.bucket, r.blackoutType)).Nodup) :
    (rows.filter fun r => decide (r.bucket = k ∧ r.blackoutType = cat)).length ≤ 1 := by
  induction rows with
  | nil => simp
  | cons r rs ih =>
    rw [List.map_cons, List.nodup_cons] at hnd
    by_cases hr : r.bucket = k ∧ r.blackoutType = cat
    · have hnil : (rs.filter fun r => decide (r.bucket = k ∧ r.blackoutType = cat)) = [] := by
        rw [List.filter_eq_nil_iff]
        intro x hx hpx
        simp only [decide_eq_true_eq] at hpx
        apply hnd.1
        rw [List.mem_map]
        exact ⟨x, hx, by rw [hpx.1, hpx.2, hr.1, hr.2]⟩
      rw [List.filter_cons_of_pos (by simpa using hr), hnil]
      simp
    · rw [List.filter_cons_of_neg (by simpa using hr)]
      exact ih hnd.2

theorem lastCount_perm (rows rows' : List CountRow) (k cat : String) (hperm : rows.Perm rows')
    (hnd : (rows.map fun r => (r.bucket, r.blackoutType)).Nodup) :
    lastCount rows k cat = lastCount rows' k cat := by
  have hp := hperm.filter fun r => decide (r.bucket = k ∧ r.blackoutType = cat)
  have hl := filter_same_pair_length rows k cat hnd
  have heq : (rows.filter fun r => decide (r.bucket = k ∧ r.blackoutType = cat)) =
      rows'.filter fun r => decide (r.bucket = k ∧ r.blackoutType = cat) := by
    rcases hf : rows.filter (fun r => decide (r.bucket = k ∧ r.blackoutType = cat)) with
      _ | ⟨a, _ | ⟨b, l⟩⟩
    · rw [hf] at hp
      exact hf.trans (List.nil_perm.1 hp).symm
    · rw [hf] at hp
      exact hf.trans (List.singleton_perm.1 hp)
    · rw [hf] at hl
      simp at hl
  unfold lastCount
  rw [heq]

theorem expectedBucket_perm (rows rows' : List CountRow) (k label : String)
    (hperm : rows.Perm rows')
    (hnd : (rows.map fun r => (r.bucket, r.blackoutType)).Nodup) :
    expectedBucket rows k label = expectedBucket rows' k label := by
  unfold expectedBucket
  rw [lastCount_perm rows rows' k "hot_water" hperm hnd,
    lastCount_perm rows rows' k "cold_water" hperm hnd,
    lastCount_perm rows rows' k "electricity" hperm hnd,
    lastCount_perm rows rows' k "heat" hperm hnd]

theorem lastCount_remove (rows1 rows2 : List CountRow) (r : CountRow) (k cat : String)
    (h : ¬ (r.bucket = k ∧ r.blackoutType = cat)) :
    lastCount (rows1 ++ r :: rows2) k cat = lastCount (rows1 ++ rows2) k cat := by
  unfold lastCount
  rw [List.filter_append, List.filter_append, List.filter_cons_of_neg (by simpa using h)]

theorem mergeRow_skip (m : DataMap) (r : CountRow)
    (h : m r.bucket = none ∨
      (r.blackoutType ≠ "hot_water" ∧ r.blackoutType ≠ "cold_water" ∧
        r.blackoutType ≠ "electricity" ∧ r.blackoutType ≠ "heat")) :
    mergeRow m r = m := by
  unfold mergeRow
  cases hm : m r.bucket with
  | none => rfl
  | some data =>
    rcases h with h | ⟨h1, h2, h3, h4⟩
    · rw [hm] at h
      exact Option.noConfusion h
    · funext k
      simp only [DataMap.insert, setCount_other data _ _ h1 h2 h3 h4]
      split_ifs with hk
      · rw [hk, hm]
      · rfl

/-! ### The series builders: bucket count and merge -/

set_option maxRecDepth 100000 in
theorem parse_sampleReference : parseDateTime "2019-01-15 14:30:00" = some sampleReference := by
  decide

/-- C3: for a reference that parses and any rows the store returns, each
builder returns exactly its bucket count of entries (60, 24, 7, 30), and a
bucket whose key no returned row of one of the four categories carries has
its label and four zero counts. -/
theorem series_bucket_count (w : Window) (hw : w ∈ windows) (db : CountsStore)
    (endTime : String) (t : Time) (rows : List CountRow)
    (hp : parseDateTime endTime = some t)
    (hq : w.rowsOf db (w.lower t).formatDateTime t.formatDateTime = some rows) :
    (∃ l, w.run db endTime = some l ∧ l.length = w.count ∧
      ∀ i, (hi : i < l.length) →
        (∀ r ∈ rows, r.bucket = w.key (w.instant t i) →
          r.blackoutType ≠ "hot_water" ∧ r.blackoutType ≠ "cold_water" ∧
            r.blackoutType ≠ "electricity" ∧ r.blackoutType ≠ "heat") →
        l.get ⟨i, hi⟩ = zeroBucket (w.label (w.instant t i))) ∧
      windows.map Window.count = [60, 24, 7, 30] ∧
      windows.map Window.run = [GetComplaintsLastHour, GetComplaintsLastDay,
        GetComplaintsLastWeek, GetComplaintsLastMonth] := by
  refine ⟨⟨_, by rw [run_eq w hw db endTime t hp, hq]; rfl, by simp, ?_⟩, rfl, rfl⟩
  intro i hi hno
  simp only [List.get_eq_getElem, List.getElem_map, List.getElem_range]
  unfold expectedBucket zeroBucket
  rw [lastCount_of_no_match, lastCount_of_no_match, lastCount_of_no_match,
    lastCount_of_no_match]
  · exact fun r hr hh => (hno r hr hh.1).2.2.2 hh.2
  · exact fun r hr hh => (hno r hr hh.1).2.2.1 hh.2
  · exact fun r hr hh => (hno r hr hh.1).2.1 hh.2
  · exact fun r hr hh => (hno r hr hh.1).1 hh.2

theorem series_bucket_count_witness :
    hourWindow ∈ windows ∧
      parseDateTime "2019-01-15 14:30:00" = some sampleReference ∧
      hourWindow.rowsOf sampleCounts (hourWindow.lower sampleReference).formatDateTime
        sampleReference.formatDateTime = some sampleRows ∧
      ∃ l, hourWindow.run sampleCounts "2019-01-15 14:30:00" = some l ∧
        l.length = hourWindow.count :=
  have hw : hourWindow ∈ windows := List.mem_cons_self _ _
  ⟨hw, parse_sampleReference, rfl,
    let ⟨l, h1, h2, _⟩ := (series_bucket_count hourWindow hw sampleCounts "2019-01-15 14:30:00"
      sampleReference sampleRows parse_sampleReference rfl).1
    ⟨l, h1, h2⟩⟩

/-- C4: the merge assigns and never adds. In the output of each builder the
count of each category of bucket `i` is the count of the last returned row
with the key of bucket `i` and that type, or 0 without such a row; a row
whose key is not seeded or whose type is none of the four leaves the map as
it is, and removing it from the returned rows leaves the output as it is. -/
theorem merge_overwrites (w : Window) (hw : w ∈ windows) (db : CountsStore)
    (endTime : String) (t : Time) (rows : List CountRow)
    (hp : parseDateTime endTime = some t)
    (hq : w.rowsOf db (w.lower t).formatDateTime t.formatDateTime = some rows) :
    (∃ l, w.run db endTime = some l ∧ l.length = w.count ∧
      ∀ i, (hi : i < l.length) →
        (l.get ⟨i, hi⟩).HotWater = lastCount rows (w.key (w.instant t i)) "hot_water" ∧
        (l.get ⟨i, hi⟩).ColdWater = lastCount rows (w.key (w.instant t i)) "cold_water" ∧
        (l.get ⟨i, hi⟩).Electricity = lastCount rows (w.key (w.instant t i)) "electricity" ∧
        (l.get ⟨i, hi⟩).Heating = lastCount rows (w.key (w.instant t i)) "heat") ∧
      (∀ (m : DataMap) (r : CountRow),
        (m r.bucket = none ∨
          (r.blackoutType ≠ "hot_water" ∧ r.blackoutType ≠ "cold_water" ∧
            r.blackoutType ≠ "electricity" ∧ r.blackoutType ≠ "heat")) →
        mergeRow m r = m) ∧
      (∀ (db2 : CountsStore) (rows1 rows2 : List CountRow) (r : CountRow),
        rows = rows1 ++ r :: rows2 →
        ((∀ i, i < w.count → r.bucket ≠ w.key (w.instant t i)) ∨
          (r.blackoutType ≠ "hot_water" ∧ r.blackoutType ≠ "cold_water" ∧
            r.blackoutType ≠ "electricity" ∧ r.blackoutType ≠ "heat")) →
        w.rowsOf db2 (w.lower t).formatDateTime t.formatDateTime = some (rows1 ++ rows2) →
        w.run db2 endTime = w.run db endTime) := by
  refine ⟨⟨_, by rw [run_eq w hw db endTime t hp, hq]; rfl, by simp, ?_⟩, mergeRow_skip, ?_⟩
  · intro i hi
    simp only [List.get_eq_getElem, List.getElem_map, List.getElem_range, expectedBucket,
      and_self]
  · intro db2 rows1 rows2 r hrows hr hq2
    rw [run_eq w hw db endTime t hp, run_eq w hw db2 endTime t hp, hq, hq2, hrows]
    simp only [Option.map_some', Option.some.injEq]
    apply List.map_congr_left
    intro i hi
    have hi' := List.mem_range.1 hi
    have hne : ∀ cat : String, cat = "hot_water" ∨ cat = "cold_water" ∨ cat = "electricity" ∨
        cat = "heat" → ¬ (r.bucket = w.key (w.instant t i) ∧ r.blackoutType = cat) := by
      intro cat hcat hh
      rcases hr with hr | ⟨h1, h2, h3, h4⟩
      · exact hr i hi' hh.1
      · rcases hcat with rfl | rfl | rfl | rfl
        · exact h1 hh.2
        · exact h2 hh.2
        · exact h3 hh.2
        · exact h4 hh.2
    unfold expectedBucket
    rw [lastCount_remove rows1 rows2 r _ _ (hne _ (Or.inl rfl)),
      lastCount_remove rows1 rows2 r _ _ (hne _ (Or.inr (Or.inl rfl))),
      lastCount_remove rows1 rows2 r _ _ (hne _ (Or.inr (Or.inr (Or.inl rfl)))),
      lastCount_remove rows1 rows2 r _ _ (hne _ (Or.inr (Or.inr (Or.inr rfl))))]

set_option maxRecDepth 100000 in
theorem merge_overwrites_witness :
    hourWindow ∈ windows ∧
      parseDateTime "2019-01-15 14:30:00" = some sampleReference ∧
      hourWindow.rowsOf sampleCounts (hourWindow.lower sampleReference).formatDateTime
        sampleReference.formatDateTime = some sampleRows ∧
      (∃ l, hourWindow.run sampleCounts "2019-01-15 14:30:00" = some l ∧
        l.length = hourWindow.count ∧
        ∀ i, (hi : i < l.length) →
          (l.get ⟨i, hi⟩).Heating =
            lastCount sampleRows (hourWindow.key (hourWindow.instant sampleReference i)) "heat") ∧
      lastCount sampleRows (hourWindow.key (hourWindow.instant sampleReference 1)) "heat" = 5 :=
  have hw : hourWindow ∈ windows := List.mem_cons_self _ _
  ⟨hw, parse_sampleReference, rfl,
    let ⟨l, h1, h2, h3⟩ := (merge_overwrites hourWindow hw sampleCounts "2019-01-15 14:30:00"
      sampleReference sampleRows parse_sampleReference rfl).1
    ⟨l, h1, h2, fun i hi => (h3 i hi).2.2.2⟩,
    by decide⟩

/-! ### The series builders: empty result and row order -/

theorem formatClock_eq (t : Time) :
    t.formatClock = twoDigits t.civil.hour ++ ":" ++ twoDigits t.civil.minute := by
  apply String.ext
  simp only [Time.formatClock, appendInt_hour, appendInt_minute, twoDigits, String.data_append]

theorem formatDayMonth_eq (t : Time) :
    t.formatDayMonth = twoDigits t.civil.day ++ "." ++ twoDigits t.civil.month := by
  apply String.ext
  simp only [Time.formatDayMonth, appendInt_day, appendInt_month, twoDigits, String.data_append]

/-- C6: when the store returns no row, each builder returns, for the offsets
`0 .. count - 1` in this order, an entry with four zero counts whose label is
the label of the instant `lower bound + i units`: hour and minute (`HH:MM`)
in the hour and day windows, day and month (`DD.MM`) in the week and month
windows. The instants of the offsets are strictly increasing. -/
theorem empty_rows_series (w : Window) (hw : w ∈ windows) (db : CountsStore)
    (endTime : String) (t : Time)
    (hp : parseDateTime endTime = some t)
    (hq : w.rowsOf db (w.lower t).formatDateTime t.formatDateTime = some []) :
    w.run db endTime =
        some ((List.range w.count).map fun i => zeroBucket (w.label (w.instant t i))) ∧
      (∀ i, w.instant t i = (w.lower t).Add ((i : Int) * w.unit)) ∧
      (∀ i j, i < j → (w.instant t i).sec < (w.instant t j).sec) ∧
      ((w = hourWindow ∨ w = dayWindow) → ∀ u : Time,
        w.label u = twoDigits u.civil.hour ++ ":" ++ twoDigits u.civil.minute) ∧
      ((w = weekWindow ∨ w = monthWindow) → ∀ u : Time,
        w.label u = twoDigits u.civil.day ++ "." ++ twoDigits u.civil.month) ∧
      windows.map Window.unit = [60, 3600, 86400, 86400] := by
  refine ⟨?_, fun _ => rfl, instant_lt w hw t, ?_, ?_, by decide⟩
  · rw [run_eq w hw db endTime t hp, hq]
    simp only [Option.map_some', Option.some.injEq]
    apply List.map_congr_left
    intro i _
    exact expectedBucket_of_no_match [] _ _ (fun r hr => by simp at hr)
  · rintro (rfl | rfl) u <;> exact formatClock_eq u
  · rintro (rfl | rfl) u <;> exact formatDayMonth_eq u

set_option maxRecDepth 100000 in
theorem empty_rows_series_witness :
    dayWindow ∈ windows ∧
      parseDateTime "2019-01-15 14:30:00" = some sampleReference ∧
      dayWindow.rowsOf sampleCounts (dayWindow.lower sampleReference).formatDateTime
        sampleReference.formatDateTime = some [] ∧
      dayWindow.run sampleCounts "2019-01-15 14:30:00" =
        some ((List.range dayWindow.count).map fun i =>
          zeroBucket (dayWindow.label (dayWindow.instant sampleReference i))) ∧
      ((List.range dayWindow.count).map fun i =>
          dayWindow.label (dayWindow.instant sampleReference i)).take 3 =
        ["14:30", "15:30", "16:30"] :=
  have hw : dayWindow ∈ windows := List.mem_cons_of_mem _ (List.mem_cons_self _ _)
  ⟨hw, parse_sampleReference, rfl,
    (empty_rows_series dayWindow hw sampleCounts "2019-01-15 14:30:00" sampleReference
      parse_sampleReference rfl).1,
    by decide⟩

/-- C7: when every pair of key and type occurs at most once among the
returned rows, each builder returns the same output for every permutation of
the rows; entry `i` of the output belongs to the instant
`lower bound + i units`, and these instants are strictly increasing. -/
theorem series_order_independent (w : Window) (hw : w ∈ windows) (db db2 : CountsStore)
    (endTime : String) (t : Time) (rows rows2 : List CountRow)
    (hp : parseDateTime endTime = some t)
    (hq : w.rowsOf db (w.lower t).formatDateTime t.formatDateTime = some rows)
    (hq2 : w.rowsOf db2 (w.lower t).formatDateTime t.formatDateTime = some rows2)
    (hperm : rows.Perm rows2)
    (hnd : (rows.map fun r => (r.bucket, r.blackoutType)).Nodup) :
    w.run db2 endTime = w.run db endTime ∧
      (∃ l, w.run db endTime = some l ∧ l.length = w.count ∧
        ∀ i, (hi : i < l.length) →
          l.get ⟨i, hi⟩ = expectedBucket rows (w.key (w.instant t i)) (w.label (w.instant t i))) ∧
      ∀ i j, i < j → (w.instant t i).sec < (w.instant t j).sec := by
  refine ⟨?_, ⟨_, by rw [run_eq w hw db endTime t hp, hq]; rfl, by simp, ?_⟩, instant_lt w hw t⟩
  · rw [run_eq w hw db endTime t hp, run_eq w hw db2 endTime t hp, hq, hq2]
    simp only [Option.map_some', Option.some.injEq]
    apply List.map_congr_left
    intro i _
    exact (expectedBucket_perm rows rows2 _ _ hperm hnd).symm
  · intro i hi
    simp only [List.get_eq_getElem, List.getElem_map, List.getElem_range]

set_option maxRecDepth 100000 in
theorem series_order_independent_witness :
    weekWindow ∈ windows ∧
      parseDateTime "2019-01-15 14:30:00" = some sampleReference ∧
      [(⟨"2019-01-10", "heat", 3⟩ : CountRow), ⟨"2019-01-10", "hot_water", 2⟩].Perm
        [⟨"2019-01-10", "hot_water", 2⟩, ⟨"2019-01-10", "heat", 3⟩] ∧
      ([(⟨"2019-01-10", "heat", 3⟩ : CountRow), ⟨"2019-01-10", "hot_water", 2⟩].map fun r =>
        (r.bucket, r.blackoutType)).Nodup ∧
      weekWindow.run (constCounts [⟨"2019-01-10", "hot_water", 2⟩, ⟨"2019-01-10", "heat", 3⟩])
          "2019-01-15 14:30:00" =
        weekWindow.run (constCounts [⟨"2019-01-10", "heat", 3⟩, ⟨"2019-01-10", "hot_water", 2⟩])
          "2019-01-15 14:30:00" :=
  have hw : weekWindow ∈ windows :=
    List.mem_cons_of_mem _ (List.mem_cons_of_mem _ (List.mem_cons_self _ _))
  have hperm : [(⟨"2019-01-10", "heat", 3⟩ : CountRow), ⟨"2019-01-10", "hot_water", 2⟩].Perm
      [⟨"2019-01-10", "hot_water", 2⟩, ⟨"2019-01-10", "heat", 3⟩] := List.Perm.swap _ _ _
  have hnd : ([(⟨"2019-01-10", "heat", 3⟩ : CountRow), ⟨"2019-01-10", "hot_water", 2⟩].map
      fun r => (r.bucket, r.blackoutType)).Nodup := by decide
  ⟨hw, parse_sampleReference, hperm, hnd,
    (series_order_independent weekWindow hw
      (constCounts [⟨"2019-01-10", "heat", 3⟩, ⟨"2019-01-10", "hot_water", 2⟩])
      (constCounts [⟨"2019-01-10", "hot_water", 2⟩, ⟨"2019-01-10", "heat", 3⟩])
      "2019-01-15 14:30:00" sampleReference _ _ parse_sampleReference rfl rfl hperm hnd).1⟩

/-! ### Keys are truncated instants -/

theorem civil_truncate_minute (u : Time) :
    (truncateTo u 60).civil = { u.civil with second := 0 } := by
  have hd : (u.sec - u.sec % 60) / 86400 = u.sec / 86400 := by omega
  have hs : ((u.sec - u.sec % 60) % 86400).toNat =
      (u.sec % 86400).toNat - (u.sec % 86400).toNat % 60 := by omega
  simp only [Time.civil, truncateTo, hd, hs]
  congr 1 <;> omega

theorem civil_truncate_hour (u : Time) :
    (truncateTo u 3600).civil = { u.civil with minute := 0, second := 0 } := by
  have hd : (u.sec - u.sec % 3600) / 86400 = u.sec / 86400 := by omega
  have hs : ((u.sec - u.sec % 3600) % 86400).toNat =
      (u.sec % 86400).toNat - (u.sec % 86400).toNat % 3600 := by omega
  simp only [Time.civil, truncateTo, hd, hs]
  congr 1 <;> omega

theorem civil_truncate_day (u : Time) :
    (truncateTo u 86400).civil = { u.civil with hour := 0, minute := 0, second := 0 } := by
  have hd : (u.sec - u.sec % 86400) / 86400 = u.sec / 86400 := by omega
  have hs : ((u.sec - u.sec % 86400) % 86400).toNat = 0 := by omega
  simp only [Time.civil, truncateTo, hd, hs]

theorem appendInt_zero : appendInt ((0 : Nat) : Int) 2 = ['0', '0'] := by decide

/-- A minute key is the canonical form of the instant truncated to the minute. -/
theorem formatMinuteKey_eq (u : Time) :
    u.formatMinuteKey = (truncateTo u 60).formatDateTime := by
  simp only [Time.formatMinuteKey, Time.formatDateTime, civil_truncate_minute, appendInt_zero,
    Civil.dateChars, List.append_assoc, List.cons_append, List.nil_append]

/-- An hour key is the canonical form of the instant truncated to the hour. -/
theorem formatHourKey_eq (u : Time) :
    u.formatHourKey = (truncateTo u 3600).formatDateTime := by
  simp only [Time.formatHourKey, Time.formatDateTime, civil_truncate_hour, appendInt_zero,
    Civil.dateChars, List.append_assoc, List.cons_append, List.nil_append]

/-- A day key is the date of the canonical form of the instant truncated to
the day. -/
theorem formatDay_eq (u : Time) :
    u.formatDay ++ " 00:00:00" = (truncateTo u 86400).formatDateTime := by
  apply String.ext
  simp only [Time.formatDay, Time.formatDateTime, civil_truncate_day, appendInt_zero,
    Civil.dateChars, List.append_assoc, List.cons_append, List.nil_append, String.data_append]

theorem seedBuckets_isSome (n : Nat) (unit : Int) (key label : Time → String) (start : Time)
    (k : String) :
    seedBuckets n unit key label start k ≠ none ↔
      ∃ i, i < n ∧ k = key (bucketTime start unit i) := by
  induction n with
  | zero => simp [seedBuckets, DataMap.empty]
  | succ n ih =>
    rw [seedBuckets_succ]
    unfold DataMap.insert
    by_cases hk : k = key (bucketTime start unit n)
    · simp only [if_pos hk, ne_eq, reduceCtorEq, not_false_eq_true, true_iff]
      exact ⟨n, Nat.lt_succ_self n, hk⟩
    · rw [if_neg hk, ih]
      constructor
      · rintro ⟨i, hi, h⟩
        exact ⟨i, Nat.lt_succ_of_lt hi, h⟩
      · rintro ⟨i, hi, h⟩
        rcases Nat.lt_succ_iff_lt_or_eq.1 hi with h' | h'
        · exact ⟨i, h', h⟩
        · subst h'; exact absurd h hk

/-! ### The grouped count query -/

theorem scanCountRows_counts :
    ∀ (l : List (Option String × String × Int)) (rows : List CountRow),
      scanCountRows l = some rows → rows.map (fun r => r.count) = l.map fun row => row.2.2 := by
  intro l
  induction l with
  | nil =>
    intro rows h
    simp only [scanCountRows, Option.some.injEq] at h
    subst h
    rfl
  | cons a as ih =>
    intro rows h
    unfold scanCountRows at h
    cases ha : a.1 with
    | none => simp [ha] at h
    | some k =>
      cases hrest : scanCountRows as with
      | none => simp [ha, hrest] at h
      | some rs =>
        simp only [ha, hrest, Option.some.injEq] at h
        subst h
        simp [ih rs hrest]

theorem sqlWhere_rangeCond (lo hi : String) (e : BlackoutRow) :
    sqlWhere (rangeCond lo hi e) = (textLe lo e.start_date && textLt e.start_date hi) := by
  simp only [rangeCond, sqlGe, sqlLe, textLt]
  cases textLe lo e.start_date <;> cases textLe hi e.start_date <;> rfl

/-- The counts of the grouped query add up to the number of events whose
start lies in the half-open range `[lo, hi)`. -/
theorem groupedCounts_sum (strftime : String → String → Option String) (sel grp : String)
    (events : List BlackoutRow) (lo hi : String) (rows : List CountRow)
    (h : groupedCounts strftime sel grp events lo hi = some rows) :
    (rows.map fun r => r.count).sum =
      ((events.filter fun e =>
        textLe lo e.start_date && textLt e.start_date hi).length : Int) := by
  unfold groupedCounts at h
  have hcond : (fun r : BlackoutRow => sqlWhere (rangeCond lo hi r)) =
      fun e => textLe lo e.start_date && textLt e.start_date hi :=
    funext (sqlWhere_rangeCond lo hi)
  simp only [hcond] at h
  generalize (events.filter fun e => textLe lo e.start_date && textLt e.start_date hi)
    = selected at h ⊢
  have hmap := scanCountRows_counts _ _ h
  rw [hmap, ((List.perm_insertionSort _ _).map _).sum_eq, List.map_map]
  have hlen : (selected.map fun r => (strftime grp r.start_date, r.type)).length
      = selected.length := List.length_map _ _
  generalize (selected.map fun r => (strftime grp r.start_date, r.type)) = pairs at hlen ⊢
  have hsum := List.sum_map_count_dedup_eq_length pairs.reverse
  rw [← hlen, ← List.length_reverse pairs, ← hsum, List.map_reverse, List.sum_reverse]
  simp only [List.count_reverse, Function.comp_def, occurrences]
  induction pairs.reverse.dedup with
  | nil => rfl
  | cons a l ih => simp [ih]

/-! ### The series builders: range and keys -/

theorem run_eq_buildSeries (w : Window) (hw : w ∈ windows) (db : CountsStore)
    (endTime : String) (t : Time) (hp : parseDateTime endTime = some t) :
    w.run db endTime =
      (w.rowsOf db (w.lower t).formatDateTime t.formatDateTime).map
        (buildSeries w.count w.unit w.key w.label (w.lower t)) := by
  rw [run_eq w hw db endTime t hp]
  congr 1
  funext rows
  exact (buildSeries_eq w.count w.unit w.key w.label (w.lower t)
    (windows_compat w hw (w.lower t)) rows).symm

theorem windows_rows_sum (w : Window) (hw : w ∈ windows)
    (strftime : String → String → Option String) (s : Storage) (lo hi : String)
    (rows : List CountRow) (h : w.rowsOf (sqliteCounts strftime s) lo hi = some rows) :
    (rows.map fun r => r.count).sum =
      ((s.blackouts.filter fun e =>
        textLe lo e.start_date && textLt e.start_date hi).length : Int) := by
  simp only [windows, List.mem_cons, List.mem_singleton, List.not_mem_nil, or_false] at hw
  rcases hw with rfl | rfl | rfl | rfl <;> exact groupedCounts_sum _ _ _ _ _ _ _ h

set_option maxRecDepth 1000000 in
theorem sample_hour_keys :
    (hourWindow.lower sampleReference).formatDateTime = "2019-01-15 13:30:00" ∧
      ((List.range 60).map fun i => hourWindow.key (hourWindow.instant sampleReference i)) =
        (List.range 60).map fun i =>
          "2019-01-15 " ++ twoDigits ((810 + i) / 60) ++ ":" ++ twoDigits ((810 + i) % 60) ++
            ":00" := by
  decide

/-- What the ranking of `GetOrganizations` does guarantee: the names are in
non-increasing order of the number of distinct linked buildings, fake or
not, and there are at most 4 of them. -/
theorem GetOrganizations_sorted_by_group_count (s : Storage) (currentTime : String) :
    (GetOrganizations s currentTime).Pairwise
        (fun a b => orgGroupCount s currentTime b ≤ orgGroupCount s currentTime a) ∧
      (GetOrganizations s currentTime).length ≤ 4 := by
  haveI : IsTotal String
      (fun a b => orgGroupCount s currentTime b ≤ orgGroupCount s currentTime a) :=
    ⟨fun a b => Nat.le_total _ _⟩
  haveI : IsTrans String
      (fun a b => orgGroupCount s currentTime b ≤ orgGroupCount s currentTime a) :=
    ⟨fun a b c hab hbc => Nat.le_trans hbc hab⟩
  unfold GetOrganizations
  refine ⟨?_, ?_⟩
  · exact List.Pairwise.sublist (List.take_sublist 4 _) (List.sorted_insertionSort _ _)
  · simp

set_option maxRecDepth 100000 in
/-- C10: on a store where initiator `A` has an open event on two fake
buildings and initiator `B` one on a real building, `GetOrganizations`
returns `A` before `B`, while `GetBuildingsCountByOrgName` reports 0 for `A`
and 1 for `B`: the returned order is not non-increasing in the non-fake
counts. -/
theorem GetOrganizations_ignores_fake_flag :
    GetOrganizations fakeRankedStore "2019-01-15 14:30:00" = ["A", "B"] ∧
      GetBuildingsCountByOrgName fakeRankedStore "A" "2019-01-15 14:30:00" = 0 ∧
      GetBuildingsCountByOrgName fakeRankedStore "B" "2019-01-15 14:30:00" = 1 ∧
      ¬ (GetOrganizations fakeRankedStore "2019-01-15 14:30:00").Pairwise (fun a b =>
        GetBuildingsCountByOrgName fakeRankedStore b "2019-01-15 14:30:00" ≤
          GetBuildingsCountByOrgName fakeRankedStore a "2019-01-15 14:30:00") := by
  have h1 : GetOrganizations fakeRankedStore "2019-01-15 14:30:00" = ["A", "B"] := by decide
  have h2 : GetBuildingsCountByOrgName fakeRankedStore "A" "2019-01-15 14:30:00" = 0 := by
    decide
  have h3 : GetBuildingsCountByOrgName fakeRankedStore "B" "2019-01-15 14:30:00" = 1 := by
    decide
  refine ⟨h1, h2, h3, ?_⟩
  rw [h1]
  intro hp
  have := (List.pairwise_cons.1 hp).1 "B" (List.mem_singleton_self _)
  rw [h2, h3] at this
  exact absurd this (by decide)

/-! ### Inversion of the layout parsers -/

theorem getYear_some (v rest : List Char) (year : Int) (h : getYear v = some (year, rest)) :
    ∃ (a b c d : Char) (y : Nat), v = a :: b :: c :: d :: rest ∧ DigitQuad a b c d y ∧
      year = (y : Int) := by
  rcases v with _ | ⟨a, _ | ⟨b, _ | ⟨c, _ | ⟨d, r⟩⟩⟩⟩
  · simp [getYear] at h
  · simp [getYear] at h
  · simp [getYear] at h
  · simp [getYear] at h
  · by_cases hdig : (isDigit a && isDigit b && isDigit c && isDigit d) = true
    · simp only [getYear, hdig, if_true, Option.some.injEq, Prod.mk.injEq] at h
      simp only [Bool.and_eq_true] at hdig
      obtain ⟨⟨⟨ha, hb⟩, hc⟩, hd⟩ := hdig
      obtain ⟨h1, h2⟩ := h
      subst h2
      exact ⟨a, b, c, d, _, rfl, ⟨ha, hb, hc, hd, rfl⟩, h1.symm⟩
    · simp [getYear, hdig] at h

theorem getnum_fixed_some (v rest : List Char) (n : Nat) (h : getnum v true = some (n, rest)) :
    ∃ a b : Char, v = a :: b :: rest ∧ DigitPair a b n := by
  rcases v with _ | ⟨a, _ | ⟨b, r⟩⟩
  · simp [getnum] at h
  · simp [getnum] at h
  · by_cases ha : isDigit a = true
    · by_cases hb : isDigit b = true
      · simp only [getnum, ha, hb, Bool.not_true, Bool.false_eq_true, if_false,
          Option.some.injEq, Prod.mk.injEq] at h
        obtain ⟨h1, h2⟩ := h
        subst h2
        exact ⟨a, b, rfl, ha, hb, h1.symm⟩
      · simp [getnum, ha, hb] at h
    · simp [getnum, ha] at h

theorem skip_one_some (v rest : List Char) (p : Char) (hp : p ≠ ' ')
    (h : skip v [p] = some rest) : v = p :: rest := by
  rcases v with _ | ⟨c, cs⟩
  · simp [skip, skipFrom, hp] at h
  · by_cases hc : c = p
    · subst hc
      simp [skip, skipFrom, hp] at h
      rw [h]
    · simp [skip, skipFrom, hp, hc] at h

theorem parseDateChunks_some (v rest : List Char) (y : Int) (m d : Nat)
    (h : parseDateChunks v = some ((y, m, d), rest)) :
    ∃ (y1 y2 y3 y4 m1 m2 d1 d2 : Char) (yy : Nat),
      v = [y1, y2, y3, y4, '-', m1, m2, '-', d1, d2] ++ rest ∧ DigitQuad y1 y2 y3 y4 yy ∧
      y = (yy : Int) ∧ DigitPair m1 m2 m ∧ DigitPair d1 d2 d ∧ 1 ≤ m ∧ m ≤ 12 := by
  unfold parseDateChunks at h
  simp only [Option.bind_eq_some] at h
  obtain ⟨⟨year, v0⟩, hy, v1, hs1, ⟨month, v2⟩, hm, h⟩ := h
  simp only at hs1 h
  by_cases hr : month = 0 ∨ 12 < month
  · simp [hr] at h
  · rw [if_neg hr] at h
    simp only [Option.bind_eq_some] at h
    obtain ⟨v3, hs2, ⟨day, v4⟩, hd, h⟩ := h
    simp only [Option.some.injEq, Prod.mk.injEq] at h
    obtain ⟨⟨h1, h2, h3⟩, h4⟩ := h
    subst h1 h2 h3 h4
    obtain ⟨y1, y2, y3, y4, yy, hv, hq, hyy⟩ := getYear_some _ _ _ hy
    have e1 := skip_one_some _ _ '-' (by decide) hs1
    obtain ⟨m1, m2, hv1, hpm⟩ := getnum_fixed_some _ _ _ hm
    have e2 := skip_one_some _ _ '-' (by decide) hs2
    obtain ⟨d1, d2, hv3, hpd⟩ := getnum_fixed_some _ _ _ hd
    refine ⟨y1, y2, y3, y4, m1, m2, d1, d2, yy, ?_, hq, hyy, hpm, hpd, by omega, by omega⟩
    rw [hv, e1, hv1, e2, hv3]
    rfl

theorem parseDateChunks_of_text (date rest : List Char) (y m d : Nat)
    (h : IsDateText date y m d) :
    parseDateChunks (date ++ rest) = some (((y : Int), m, d), rest) := by
  obtain ⟨y1, y2, y3, y4, m1, m2, d1, d2, rfl, ⟨a1, a2, a3, a4, rfl⟩, ⟨b1, b2, rfl⟩,
    ⟨c1, c2, rfl⟩, hm1, hm12, -, -⟩ := h
  have hr : ¬ (digitVal m1 * 10 + digitVal m2 = 0 ∨ 12 < digitVal m1 * 10 + digitVal m2) := by
    omega
  simp [parseDateChunks, getYear, skip, skipFrom, getnum, a1, a2, a3, a4, b1, b2, c1, c2]
  omega

theorem getnum_some_lt (v rest : List Char) (fixed : Bool) (n : Nat)
    (h : getnum v fixed = some (n, rest)) : n < 100 := by
  rcases v with _ | ⟨a, _ | ⟨b, r⟩⟩
  · simp [getnum] at h
  · by_cases ha : isDigit a = true
    · have := digitVal_lt a ha
      cases fixed <;> simp [getnum, ha] at h
      omega
    · simp [getnum, ha] at h
  · by_cases ha : isDigit a = true
    · have h1 := digitVal_lt a ha
      by_cases hb : isDigit b = true
      · have h2 := digitVal_lt b hb
        simp [getnum, ha, hb] at h
        omega
      · cases fixed <;> simp [getnum, ha, hb] at h
        omega
    · simp [getnum, ha] at h

theorem parseClockChunks_some (v rest : List Char) (hh mm ss : Nat)
    (h : parseClockChunks v = some ((hh, mm, ss), rest)) : hh < 24 ∧ mm < 60 ∧ ss < 60 := by
  unfold parseClockChunks at h
  simp only [Option.bind_eq_some] at h
  obtain ⟨⟨hour, v0⟩, -, h⟩ := h
  simp only at h
  by_cases h1 : 24 ≤ hour
  · simp [h1] at h
  · rw [if_neg h1] at h
    simp only [Option.bind_eq_some] at h
    obtain ⟨v1, -, ⟨min, v2⟩, -, h⟩ := h
    simp only at h
    by_cases h2 : 60 ≤ min
    · simp [h2] at h
    · rw [if_neg h2] at h
      simp only [Option.bind_eq_some] at h
      obtain ⟨v3, -, ⟨sec, v4⟩, -, h⟩ := h
      simp only at h
      by_cases h3 : 60 ≤ sec
      · simp [h3] at h
      · rw [if_neg h3] at h
        simp only [Option.some.injEq, Prod.mk.injEq] at h
        obtain ⟨⟨e1, e2, e3⟩, -⟩ := h
        subst e1 e2 e3
        omega

theorem parseClockChunks_of_text (clock rest : List Char) (hh mm ss : Nat)
    (h : IsClockText clock hh mm ss) :
    parseClockChunks (clock ++ rest) = some ((hh, mm, ss), rest) := by
  obtain ⟨h1, h2, n1, n2, s1, s2, rfl, ⟨a1, a2, rfl⟩, ⟨b1, b2, rfl⟩, ⟨c1, c2, rfl⟩,
    hh24, hm60, hs60⟩ := h
  simp [parseClockChunks, skip, skipFrom, getnum, a1, a2, b1, b2, c1, c2]
  omega

/-! ### Canonical texts -/

theorem utod_digit : ∀ k : Fin 10, isDigit (utod k.val) = true ∧ digitVal (utod k.val) = k.val := by
  decide

theorem digitPair_utod (n : Nat) (h : n < 100) : DigitPair (utod (n / 10)) (utod (n % 10)) n := by
  have h1 := utod_digit ⟨n / 10, by omega⟩
  have h2 := utod_digit ⟨n % 10, by omega⟩
  simp only at h1 h2
  refine ⟨h1.1, h2.1, ?_⟩
  rw [h1.2, h2.2]
  omega

theorem digitQuad_utod (n : Nat) (h : n < 10000) :
    DigitQuad (utod (n / 1000)) (utod (n / 100 % 10)) (utod (n / 10 % 10)) (utod (n % 10)) n := by
  have h1 := utod_digit ⟨n / 1000, by omega⟩
  have h2 := utod_digit ⟨n / 100 % 10, by omega⟩
  have h3 := utod_digit ⟨n / 10 % 10, by omega⟩
  have h4 := utod_digit ⟨n % 10, by omega⟩
  simp only at h1 h2 h3 h4
  refine ⟨h1.1, h2.1, h3.1, h4.1, ?_⟩
  rw [h1.2, h2.2, h3.2, h4.2]
  omega

theorem appendInt_four_nat (n : Nat) (h : n < 10000) :
    appendInt (n : Int) 4 =
      [utod (n / 1000), utod (n / 100 % 10), utod (n / 10 % 10), utod (n % 10)] := by
  have h6 : ¬ ((n : Int) < 0) := by omega
  simp [appendInt, h, h6]

/-- The canonical form of a calendar date and time of day: the digits of the
fields. -/
theorem formatDateTime_Date (y m d h n s : Nat) (hy : y < 10000) (hm1 : 1 ≤ m) (hm : m ≤ 12)
    (hd1 : 1 ≤ d) (hd : d ≤ daysIn m (y : Int)) (hh : h < 24) (hn : n < 60) (hs : s < 60) :
    (Date y m d h n s).formatDateTime =
      ⟨[utod (y / 1000), utod (y / 100 % 10), utod (y / 10 % 10), utod (y % 10), '-',
        utod (m / 10), utod (m % 10), '-', utod (d / 10), utod (d % 10)] ++ [' '] ++
        [utod (h / 10), utod (h % 10), ':', utod (n / 10), utod (n % 10), ':',
          utod (s / 10), utod (s % 10)]⟩ := by
  have hd31 : d < 100 := by
    rw [daysIn_eq_gregorianDays y m hm1 hm] at hd
    have := (gregorianDays_bounds y m).2
    omega
  simp only [Time.formatDateTime, Date_civil (y : Int) m d h n s hm1 hm hd1 hd hh hn hs,
    Civil.dateChars, appendInt_four_nat y hy, appendInt_two m (by omega), appendInt_two d hd31,
    appendInt_two h (by omega), appendInt_two n (by omega), appendInt_two s (by omega),
    List.append_assoc, List.cons_append, List.nil_append]

theorem formatDateTime_Date_canonical (y m d h n s : Nat) (hy : y < 10000) (hm1 : 1 ≤ m)
    (hm : m ≤ 12) (hd1 : 1 ≤ d) (hd : d ≤ daysIn m (y : Int)) (hh : h < 24) (hn : n < 60)
    (hs : s < 60) : IsCanonicalDateTime (Date y m d h n s).formatDateTime := by
  have hg : d ≤ gregorianDays y m := by rwa [daysIn_eq_gregorianDays y m hm1 hm] at hd
  have hd31 : d < 100 := by
    have := (gregorianDays_bounds y m).2
    omega
  rw [formatDateTime_Date y m d h n s hy hm1 hm hd1 hd hh hn hs]
  exact ⟨_, _, y, m, d, h, n, s, rfl,
    ⟨_, _, _, _, _, _, _, _, rfl, digitQuad_utod y hy, digitPair_utod m (by omega),
      digitPair_utod d hd31, hm1, hm, hd1, hg⟩,
    ⟨_, _, _, _, _, _, rfl, digitPair_utod h (by omega), digitPair_utod n (by omega),
      digitPair_utod s (by omega), hh, hn, hs⟩⟩

theorem ZonedTime_formatDateTime (t : Time) (off : Int) :
    (⟨t.Add (-off), off⟩ : ZonedTime).formatDateTime = t.formatDateTime := by
  have : (t.Add (-off)).Add off = t := by
    cases t with
    | mk sec => simp [Time.Add]
  simp only [ZonedTime.formatDateTime, this]

/-- What a successful `time.Parse(time.RFC3339, s)` has read: a calendar date
and a time of day, and an offset. -/
theorem parseRFC3339_some (s : String) (z : ZonedTime) (h : parseRFC3339 s = some z) :
    ∃ (y m d hh mm ss : Nat) (off : Int), y < 10000 ∧ 1 ≤ m ∧ m ≤ 12 ∧ 1 ≤ d ∧
      d ≤ daysIn m (y : Int) ∧ hh < 24 ∧ mm < 60 ∧ ss < 60 ∧
      z = ⟨(Date y m d hh mm ss).Add (-off), off⟩ := by
  unfold parseRFC3339 at h
  simp only [Option.bind_eq_some] at h
  obtain ⟨⟨⟨y, m, d⟩, v0⟩, hdate, v1, -, ⟨⟨hh, mm, ss⟩, v2⟩, hclock, ⟨off, v3⟩, -, h⟩ := h
  simp only at h
  by_cases h1 : v3 ≠ []
  · rw [if_pos h1] at h
    exact Option.noConfusion h
  · rw [if_neg h1] at h
    by_cases h2 : d < 1 ∨ d > daysIn m y
    · rw [if_pos h2] at h
      exact Option.noConfusion h
    · rw [if_neg h2] at h
      simp only [Option.some.injEq] at h
      obtain ⟨y1, y2, y3, y4, m1, m2, d1, d2, yy, -, hq, hyy, -, -, hm1, hm12⟩ :=
        parseDateChunks_some _ _ _ _ _ hdate
      obtain ⟨c1, c2, c3⟩ := parseClockChunks_some _ _ _ _ _ hclock
      subst hyy
      have hy : yy < 10000 := by
        obtain ⟨a1, a2, a3, a4, rfl⟩ := hq
        have := digitVal_lt y1 a1
        have := digitVal_lt y2 a2
        have := digitVal_lt y3 a3
        have := digitVal_lt y4 a4
        omega
      exact ⟨yy, m, d, hh, mm, ss, off, hy, hm1, hm12, by omega, by omega, c1, c2, c3, h.symm⟩

/-! ### RFC 3339 texts -/

theorem dropWhile_digits_append (ds zone : List Char) (hds : ds.all isDigit = true)
    (hz : ∀ c rest, zone = c :: rest → isDigit c = false) :
    (ds ++ zone).dropWhile isDigit = zone := by
  induction ds with
  | nil =>
    rcases zone with _ | ⟨c, rest⟩
    · rfl
    · simp [List.dropWhile, hz c rest rfl]
  | cons a as ih =>
    simp only [List.all_cons, Bool.and_eq_true] at hds
    simp [List.dropWhile, hds.1, ih hds.2]

theorem zone_head_not_digit (zone : List Char) (hz : IsZoneText zone) :
    ∀ c rest, zone = c :: rest → isDigit c = false ∧ c ≠ '.' ∧ c ≠ ',' := by
  intro c rest hc
  rcases hz with rfl | ⟨sg, a, b, x, y, hh, mm, rfl, hsg, -⟩
  · simp only [List.cons.injEq] at hc
    rw [← hc.1]
    decide
  · simp only [List.cons.injEq] at hc
    rw [← hc.1]
    rcases hsg with rfl | rfl <;> decide

theorem skipFraction_of_text (frac zone : List Char) (hf : IsFractionText frac)
    (hz : IsZoneText zone) : skipFraction (frac ++ zone) = zone := by
  rcases hf with rfl | ⟨d, ds, rfl, hd, hds⟩
  · rcases zone with _ | ⟨c, _ | ⟨e, rest⟩⟩
    · rfl
    · rfl
    · have := (zone_head_not_digit _ hz c _ rfl).2
      simp [skipFraction, this.1, this.2]
  · simp only [skipFraction, List.cons_append, true_or, hd, and_self, if_true]
    exact dropWhile_digits_append ds zone hds
      (fun c rest hc => (zone_head_not_digit zone hz c rest hc).1)

theorem parseZone_of_text (zone : List Char) (hz : IsZoneText zone) :
    ∃ off, parseZone zone = some (off, []) := by
  rcases hz with rfl | ⟨sg, a, b, x, y, hh, mm, rfl, hsg, ⟨a1, a2, rfl⟩, ⟨b1, b2, rfl⟩, h24, h60⟩
  · exact ⟨0, rfl⟩
  · have hr : ¬ (digitVal a * 10 + digitVal b > 24 ∨ digitVal x * 10 + digitVal y > 60) := by
      omega
    rcases hsg with rfl | rfl
    · exact ⟨(((digitVal a * 10 + digitVal b) * 60 + (digitVal x * 10 + digitVal y)) * 60 : Nat),
        by simp [parseZone, getnum, a1, a2, b1, b2, hr]⟩
    · exact ⟨-((((digitVal a * 10 + digitVal b) * 60 + (digitVal x * 10 + digitVal y)) * 60 :
        Nat) : Int), by simp [parseZone, getnum, a1, a2, b1, b2, hr]⟩

theorem formatDateTime_of_text (date clock : List Char) (y m d h n s : Nat)
    (hd : IsDateText date y m d) (hc : IsClockText clock h n s) :
    (Date y m d h n s).formatDateTime = ⟨date ++ [' '] ++ clock⟩ := by
  obtain ⟨y1, y2, y3, y4, m1, m2, d1, d2, rfl, ⟨a1, a2, a3, a4, rfl⟩, ⟨b1, b2, rfl⟩,
    ⟨c1, c2, rfl⟩, hm1, hm12, hd1, hdg⟩ := hd
  obtain ⟨h1, h2, n1, n2, s1, s2, rfl, ⟨e1, e2, rfl⟩, ⟨f1, f2, rfl⟩, ⟨g1, g2, rfl⟩,
    hh24, hm60, hs60⟩ := hc
  have hdi : digitVal d1 * 10 + digitVal d2 ≤
      daysIn (digitVal m1 * 10 + digitVal m2)
        ((digitVal y1 * 1000 + digitVal y2 * 100 + digitVal y3 * 10 + digitVal y4 : Nat) : Int) := by
    rw [daysIn_eq_gregorianDays _ _ hm1 hm12]
    exact hdg
  simp only [Time.formatDateTime, Date_civil _ _ _ _ _ _ hm1 hm12 hd1 hdi hh24 hm60 hs60,
    Civil.dateChars, appendInt_four y1 y2 y3 y4 a1 a2 a3 a4, appendInt_two_digits m1 m2 b1 b2,
    appendInt_two_digits d1 d2 c1 c2, appendInt_two_digits h1 h2 e1 e2,
    appendInt_two_digits n1 n2 f1 f2, appendInt_two_digits s1 s2 g1 g2,
    List.append_assoc, List.cons_append, List.nil_append]

/-- On an RFC 3339 text `time.Parse` succeeds and the canonical form of the
result is the date and the time of day written in the text. -/
theorem parseRFC3339_of_text (s : String) (date clock : List Char)
    (h : IsRFC3339 s date clock) :
    ∃ z, parseRFC3339 s = some z ∧ z.formatDateTime = ⟨date ++ [' '] ++ clock⟩ := by
  obtain ⟨frac, zone, y, m, d, hh, mm, ss, hs, hd, hc, hf, hz⟩ := h
  obtain ⟨off, hoff⟩ := parseZone_of_text zone hz
  have hdate := parseDateChunks_of_text date (['T'] ++ clock ++ frac ++ zone) y m d hd
  have hclock := parseClockChunks_of_text clock (frac ++ zone) hh mm ss hc
  have hday : ¬ (d < 1 ∨ d > daysIn m (y : Int)) := by
    obtain ⟨_, _, _, _, _, _, _, _, -, -, -, -, hm1, hm12, hd1, hdg⟩ := hd
    rw [daysIn_eq_gregorianDays _ _ hm1 hm12]
    omega
  refine ⟨⟨(Date y m d hh mm ss).Add (-off), off⟩, ?_, ?_⟩
  · unfold parseRFC3339
    have e : s.data = date ++ (['T'] ++ clock ++ frac ++ zone) := by
      rw [hs]; simp
    rw [e, hdate]
    simp only [Option.some_bind, List.cons_append, List.nil_append, List.append_assoc, skip,
      skipFrom]
    simp only [show ¬ ('T' = ' ') by decide, if_false, if_true, Option.some_bind, hclock,
      skipFraction_of_text frac zone hf hz, hoff, ne_eq, not_true_eq_false, hday]
  · rw [ZonedTime_formatDateTime]
    exact formatDateTime_of_text date clock y m d hh mm ss hd hc

/-! ### `ParseQueryDate` -/

theorem parseRFC3339_contains_T (s : String) (z : ZonedTime) (h : parseRFC3339 s = some z) :
    goContains s 'T' = true := by
  unfold parseRFC3339 at h
  simp only [Option.bind_eq_some] at h
  obtain ⟨⟨⟨y, m, d⟩, v0⟩, hdate, v1, hskip, -⟩ := h
  obtain ⟨y1, y2, y3, y4, m1, m2, d1, d2, yy, hv, -⟩ := parseDateChunks_some _ _ _ _ _ hdate
  have e := skip_one_some _ _ 'T' (by decide) hskip
  simp only at e
  unfold goContains
  rw [hv, e]
  simp

theorem goContains_of_mem (s : String) (c : Char) (h : c ∈ s.data) : goContains s c = true := by
  unfold goContains
  rw [List.any_eq_true]
  exact ⟨c, h, by simp⟩

theorem ne_empty_of_goContains (s : String) (c : Char) (h : goContains s c = true) : s ≠ "" := by
  intro hs
  subst hs
  simp [goContains] at h

theorem ParseQueryDate_of_parse (s : String) (z : ZonedTime) (h : parseRFC3339 s = some z) :
    ParseQueryDate s = (z.formatDateTime, none) := by
  have hT := parseRFC3339_contains_T s z h
  have hne := ne_empty_of_goContains s 'T' hT
  simp [ParseQueryDate, hne, hT, h]

theorem isCanonical_of_parse (s : String) (z : ZonedTime) (h : parseRFC3339 s = some z) :
    IsCanonicalDateTime z.formatDateTime := by
  obtain ⟨y, m, d, hh, mm, ss, off, hy, hm1, hm12, hd1, hd, h1, h2, h3, rfl⟩ :=
    parseRFC3339_some s z h
  rw [ZonedTime_formatDateTime]
  exact formatDateTime_Date_canonical y m d hh mm ss hy hm1 hm12 hd1 hd h1 h2 h3

theorem isDateText_length (cs : List Char) (y m d : Nat) (h : IsDateText cs y m d) :
    cs.length = 10 := by
  obtain ⟨_, _, _, _, _, _, _, _, rfl, -⟩ := h
  rfl

theorem isClockText_length (cs : List Char) (h n s : Nat) (hc : IsClockText cs h n s) :
    cs.length = 8 := by
  obtain ⟨_, _, _, _, _, _, rfl, -⟩ := hc
  rfl

set_option maxRecDepth 100000 in
/-- C12: on an RFC 3339 date-time `ParseQueryDate` succeeds and returns the
date written in the input, a space and the time of day written in the input,
19 characters, whatever the fraction of a second and the zone designator
are; every input that `time.Parse(time.RFC3339, ·)` reads gives a canonical
string; `2019-01-15T14:30:00Z` gives `2019-01-15 14:30:00`. -/
theorem ParseQueryDate_rfc3339 (s : String) (date clock : List Char)
    (h : IsRFC3339 s date clock) :
    ParseQueryDate s = (⟨date ++ [' '] ++ clock⟩, none) ∧
      (date ++ [' '] ++ clock).length = 19 ∧
      s.data.take 10 = date ∧ (s.data.drop 11).take 8 = clock ∧
      (∀ (s2 : String) (z : ZonedTime), parseRFC3339 s2 = some z →
        ∃ r, ParseQueryDate s2 = (r, none) ∧ IsCanonicalDateTime r) ∧
      ParseQueryDate "2019-01-15T14:30:00Z" = ("2019-01-15 14:30:00", none) := by
  obtain ⟨z, hz, hf⟩ := parseRFC3339_of_text s date clock h
  obtain ⟨frac, zone, y, m, d, hh, mm, ss, hs, hd, hc, -, -⟩ := h
  have l1 := isDateText_length date y m d hd
  have l2 := isClockText_length clock hh mm ss hc
  refine ⟨by rw [ParseQueryDate_of_parse s z hz, hf], by simp [l1, l2], ?_, ?_, ?_, by decide⟩
  · rw [hs]
    simp [List.take_append_eq_append_take, l1]
  · rw [hs]
    have e : date ++ ['T'] ++ clock ++ frac ++ zone = (date ++ ['T']) ++ (clock ++ (frac ++ zone)) := by
      simp
    rw [e, List.drop_left' (by simp [l1]), List.take_left' l2]
  · intro s2 z2 h2
    exact ⟨_, ParseQueryDate_of_parse s2 z2 h2, isCanonical_of_parse s2 z2 h2⟩

theorem sample_dateText : IsDateText "2019-01-15".data 2019 1 15 :=
  ⟨'2', '0', '1', '9', '0', '1', '1', '5', rfl,
    ⟨by decide, by decide, by decide, by decide, by decide⟩,
    ⟨by decide, by decide, by decide⟩, ⟨by decide, by decide, by decide⟩,
    by decide, by decide, by decide, by decide⟩

theorem sample_clockText : IsClockText "14:30:00".data 14 30 0 :=
  ⟨'1', '4', '3', '0', '0', '0', rfl, ⟨by decide, by decide, by decide⟩,
    ⟨by decide, by decide, by decide⟩, ⟨by decide, by decide, by decide⟩,
    by decide, by decide, by decide⟩

theorem sample_rfc3339 :
    IsRFC3339 "2019-01-15T14:30:00.5+10:00" "2019-01-15".data "14:30:00".data :=
  ⟨['.', '5'], ['+', '1', '0', ':', '0', '0'], 2019, 1, 15, 14, 30, 0, rfl, sample_dateText,
    sample_clockText, Or.inr ⟨'5', [], rfl, by decide, rfl⟩,
    Or.inr ⟨'+', '1', '0', '0', '0', 10, 0, rfl, Or.inl rfl, ⟨by decide, by decide, by decide⟩,
      ⟨by decide, by decide, by decide⟩, by decide, by decide⟩⟩

theorem ParseQueryDate_rfc3339_witness :
    IsRFC3339 "2019-01-15T14:30:00.5+10:00" "2019-01-15".data "14:30:00".data ∧
      ParseQueryDate "2019-01-15T14:30:00.5+10:00" =
        (⟨"2019-01-15".data ++ [' '] ++ "14:30:00".data⟩, none) :=
  ⟨sample_rfc3339,
    (ParseQueryDate_rfc3339 "2019-01-15T14:30:00.5+10:00" _ _ sample_rfc3339).1⟩

/-- C13: `ParseQueryDate` returns an error exactly when the input contains
`T` and `time.Parse(time.RFC3339, ·)` rejects it, or is not empty and
contains neither `T` nor `_`; with an error the returned string is empty. -/
theorem ParseQueryDate_error_iff (s : String) :
    ((ParseQueryDate s).2 ≠ none ↔
      (goContains s 'T' = true ∧ parseRFC3339 s = none) ∨
        (s ≠ "" ∧ goContains s 'T' = false ∧ goContains s '_' = false)) ∧
      ((ParseQueryDate s).2 ≠ none → (ParseQueryDate s).1 = "") := by
  have key : (ParseQueryDate s).2 ≠ none → (ParseQueryDate s).1 = "" := by
    unfold ParseQueryDate
    by_cases h0 : s = ""
    · simp [h0]
    · by_cases hT : goContains s 'T' = true
      · cases hp : parseRFC3339 s <;> simp [h0, hT, hp]
      · by_cases hU : goContains s '_' = true <;> simp [h0, hT, hU]
  refine ⟨?_, key⟩
  unfold ParseQueryDate
  by_cases h0 : s = ""
  · subst h0
    simp [goContains]
  · by_cases hT : goContains s 'T' = true
    · cases hp : parseRFC3339 s <;> simp [h0, hT, hp]
    · by_cases hU : goContains s '_' = true <;> simp [h0, hT, hU]

theorem utf8_go_replace (front back : List Char) :
    String.utf8ByteSize.go (front ++ ' ' :: back) =
      String.utf8ByteSize.go (front ++ '_' :: back) := by
  induction front with
  | nil =>
    simp only [List.nil_append, String.utf8ByteSize.go]
    have : Char.utf8Size ' ' = Char.utf8Size '_' := by decide
    rw [this]
  | cons c cs ih =>
    show String.utf8ByteSize.go (cs ++ ' ' :: back) + c.utf8Size =
      String.utf8ByteSize.go (cs ++ '_' :: back) + c.utf8Size
    rw [ih]

/-- C15: on an input that contains `_` and no `T`, `ParseQueryDate` succeeds
and returns the input with its first `_` replaced by a space: the text
before it and the text after it are unchanged, nothing is validated, and the
length is the same. `2019-01-15_14:30:00` gives `2019-01-15 14:30:00`. -/
theorem ParseQueryDate_separator (s : String) (hU : goContains s '_' = true)
    (hT : goContains s 'T' = false) :
    (∃ front back : List Char, s.data = front ++ '_' :: back ∧ '_' ∉ front ∧
      ParseQueryDate s = (⟨front ++ ' ' :: back⟩, none)) ∧
      (ParseQueryDate s).1.length = s.length ∧ goLen (ParseQueryDate s).1 = goLen s ∧
      ParseQueryDate "2019-01-15_14:30:00" = ("2019-01-15 14:30:00", none) := by
  have hne := ne_empty_of_goContains s '_' hU
  have hres : ParseQueryDate s = (replaceFirst s '_' ' ', none) := by
    simp [ParseQueryDate, hne, hT, hU]
  have hsplit : ∀ l : List Char, (l.any fun x => decide (x = '_')) = true →
      ∃ front back : List Char, l = front ++ '_' :: back ∧ '_' ∉ front ∧
        replaceFirstChars '_' ' ' l = front ++ ' ' :: back := by
    intro l
    induction l with
    | nil => intro h; simp at h
    | cons c cs ih =>
      intro h
      by_cases hc : c = '_'
      · subst hc
        exact ⟨[], cs, rfl, by simp, by simp [replaceFirstChars]⟩
      · have hcs : (cs.any fun x => decide (x = '_')) = true := by
          simpa [hc] using h
        obtain ⟨front, back, e1, e2, e3⟩ := ih hcs
        refine ⟨c :: front, back, by rw [e1]; rfl, ?_, ?_⟩
        · simp only [List.mem_cons, not_or]
          exact ⟨fun h' => hc h'.symm, e2⟩
        · simp [replaceFirstChars, hc, e3]
  obtain ⟨front, back, e1, e2, e3⟩ := hsplit s.data hU
  refine ⟨⟨front, back, e1, e2, ?_⟩, ?_, ?_, by decide⟩
  · rw [hres]
    simp only [replaceFirst, e3]
  · rw [hres]
    show (replaceFirstChars '_' ' ' s.data).length = s.data.length
    rw [e3, e1]
    simp
  · rw [hres]
    show String.utf8ByteSize.go (replaceFirstChars '_' ' ' s.data) =
      String.utf8ByteSize.go s.data
    rw [e3, e1, utf8_go_replace]

theorem ParseQueryDate_separator_witness :
    goContains "2019-13-45_99:99:99" '_' = true ∧ goContains "2019-13-45_99:99:99" 'T' = false ∧
      ∃ front back : List Char, "2019-13-45_99:99:99".data = front ++ '_' :: back ∧
        '_' ∉ front ∧ ParseQueryDate "2019-13-45_99:99:99" = (⟨front ++ ' ' :: back⟩, none) :=
  ⟨by decide, by decide,
    (ParseQueryDate_separator "2019-13-45_99:99:99" (by decide) (by decide)).1⟩

/-- C16: on the empty string `ParseQueryDate` succeeds and returns
`2019-12-30 23:59:59`. -/
theorem ParseQueryDate_empty : ParseQueryDate "" = ("2019-12-30 23:59:59", none) := by
  decide

/-! ### `IsValidDate` -/

theorem utf8Size_of_isDigit (c : Char) (h : isDigit c = true) : c.utf8Size = 1 := by
  simp only [isDigit, Bool.and_eq_true, decide_eq_true_eq] at h
  have h1 : c.val.toNat ≤ 127 := by
    have : c.toNat = c.val.toNat := rfl
    omega
  have h2 : c.val ≤ UInt32.ofNatCore 127 (by decide) := by
    rw [UInt32.le_def]
    exact h1
  simp only [Char.utf8Size]
  rw [if_pos h2]

theorem goLen_of_isDateText (s : String) (y m d : Nat) (h : IsDateText s.data y m d) :
    goLen s = 10 := by
  obtain ⟨y1, y2, y3, y4, m1, m2, d1, d2, hs, ⟨a1, a2, a3, a4, -⟩, ⟨b1, b2, -⟩, ⟨c1, c2, -⟩, -⟩ := h
  show String.utf8ByteSize.go s.data = 10
  rw [hs]
  simp only [String.utf8ByteSize.go, utf8Size_of_isDigit _ a1, utf8Size_of_isDigit _ a2,
    utf8Size_of_isDigit _ a3, utf8Size_of_isDigit _ a4, utf8Size_of_isDigit _ b1,
    utf8Size_of_isDigit _ b2, utf8Size_of_isDigit _ c1, utf8Size_of_isDigit _ c2,
    show Char.utf8Size '-' = 1 by decide]

theorem parseDate_of_text (s : String) (y m d : Nat) (h : IsDateText s.data y m d) :
    parseDate s = some (Date y m d 0 0 0) := by
  have hp := parseDateChunks_of_text s.data [] y m d h
  rw [List.append_nil] at hp
  obtain ⟨_, _, _, _, _, _, _, _, -, -, -, -, hm1, hm12, hd1, hdg⟩ := h
  have hday : ¬ (d < 1 ∨ d > daysIn m (y : Int)) := by
    rw [daysIn_eq_gregorianDays _ _ hm1 hm12]
    omega
  simp [parseDate, hp]
  omega

theorem isCalendarDay_of_parseDate (s : String) (t : Time) (h : parseDate s = some t) :
    IsCalendarDay s := by
  unfold parseDate at h
  simp only [Option.bind_eq_some] at h
  obtain ⟨⟨⟨y, m, d⟩, v0⟩, hdate, h⟩ := h
  simp only at h
  by_cases h1 : v0 ≠ []
  · rw [if_pos h1] at h
    exact Option.noConfusion h
  · rw [if_neg h1] at h
    by_cases h2 : d < 1 ∨ d > daysIn m y
    · rw [if_pos h2] at h
      exact Option.noConfusion h
    · obtain ⟨y1, y2, y3, y4, m1, m2, d1, d2, yy, hv, hq, hyy, hpm, hpd, hm1, hm12⟩ :=
        parseDateChunks_some _ _ _ _ _ hdate
      have hv0 : v0 = [] := by simpa using h1
      subst hyy
      rw [hv0, List.append_nil] at hv
      rw [daysIn_eq_gregorianDays _ _ hm1 hm12] at h2
      exact ⟨yy, m, d, y1, y2, y3, y4, m1, m2, d1, d2, hv, hq, hpm, hpd, hm1, hm12, by omega,
        by omega⟩

theorem isCalendarDay_length (s : String) (h : IsCalendarDay s) : s.data.length = 10 := by
  obtain ⟨y, m, d, hd⟩ := h
  exact isDateText_length _ _ _ _ hd

theorem isCanonical_length (s : String) (h : IsCanonicalDateTime s) : s.data.length = 19 := by
  obtain ⟨date, clock, y, m, d, hh, n, sec, hs, hd, hc⟩ := h
  rw [hs]
  simp [isDateText_length _ _ _ _ hd, isClockText_length _ _ _ _ hc]

theorem isRFC3339_length (s : String) (date clock : List Char) (h : IsRFC3339 s date clock) :
    20 ≤ s.data.length := by
  obtain ⟨frac, zone, y, m, d, hh, n, sec, hs, hd, hc, -, hz⟩ := h
  have hz1 : 1 ≤ zone.length := by
    rcases hz with rfl | ⟨_, _, _, _, _, _, _, rfl, -⟩ <;> simp
  rw [hs]
  simp [isDateText_length _ _ _ _ hd, isClockText_length _ _ _ _ hc]
  omega

/-- C17: `IsValidDate` is true exactly on the strings `YYYY-MM-DD` (four
digits, hyphen, two digits, hyphen, two digits; 10 characters and 10 bytes)
that name a real calendar day; it is false on every canonical
`YYYY-MM-DD HH:MM:SS` and on every RFC 3339 date-time. -/
theorem IsValidDate_iff (s : String) :
    (IsValidDate s = true ↔ IsCalendarDay s) ∧
      (IsCalendarDay s → s.length = 10 ∧ goLen s = 10) ∧
      (IsCanonicalDateTime s → IsValidDate s = false) ∧
      (∀ date clock, IsRFC3339 s date clock → IsValidDate s = false) := by
  have hiff : IsValidDate s = true ↔ IsCalendarDay s := by
    constructor
    · intro h
      unfold IsValidDate at h
      cases hp : parseDate s with
      | none => simp [hp] at h
      | some t => exact isCalendarDay_of_parseDate s t hp
    · rintro ⟨y, m, d, hd⟩
      simp [IsValidDate, parseDate_of_text s y m d hd]
  refine ⟨hiff, ?_, ?_, ?_⟩
  · intro h
    refine ⟨isCalendarDay_length s h, ?_⟩
    obtain ⟨y, m, d, hd⟩ := h
    exact goLen_of_isDateText s y m d hd
  · intro hc
    have h19 := isCanonical_length s hc
    cases hv : IsValidDate s with
    | false => rfl
    | true =>
      have := isCalendarDay_length s (hiff.1 hv)
      omega
  · intro date clock hr
    have h20 := isRFC3339_length s date clock hr
    cases hv : IsValidDate s with
    | false => rfl
    | true =>
      have := isCalendarDay_length s (hiff.1 hv)
      omega

/-! ### Results of `ParseQueryDate` that are not canonical -/

theorem not_canonical_sample : ¬ IsCanonicalDateTime "2019-13-45 99:99:99" := by
  rintro ⟨date, clock, y, m, d, hh, n, sec, hs, ⟨y1, y2, y3, y4, m1, m2, d1, d2, rfl, -,
    ⟨-, -, hm⟩, -, -, hm12, -, -⟩, ⟨h1, h2, n1, n2, s1, s2, rfl, -⟩⟩
  have hs2 : ['2', '0', '1', '9', '-', '1', '3', '-', '4', '5', ' ', '9', '9', ':', '9', '9',
      ':', '9', '9'] = [y1, y2, y3, y4, '-', m1, m2, '-', d1, d2] ++ [' '] ++
        [h1, h2, ':', n1, n2, ':', s1, s2] := hs
  simp only [List.cons_append, List.nil_append, List.cons.injEq] at hs2
  obtain ⟨-, -, -, -, -, e1, e2, -⟩ := hs2
  subst e1 e2
  rw [hm] at hm12
  exact absurd hm12 (by decide)

/-- C14, as stated, fails: the input `2019-13-45_99:99:99` is accepted and
the result `2019-13-45 99:99:99` names no calendar day and no time of day. -/
theorem ParseQueryDate_accepts_malformed :
    ParseQueryDate "2019-13-45_99:99:99" = ("2019-13-45 99:99:99", none) ∧
      ¬ IsCanonicalDateTime "2019-13-45 99:99:99" :=
  ⟨by decide, not_canonical_sample⟩

theorem canonical_default : IsCanonicalDateTime "2019-12-30 23:59:59" :=
  ⟨"2019-12-30".data, "23:59:59".data, 2019, 12, 30, 23, 59, 59, rfl,
    ⟨'2', '0', '1', '9', '1', '2', '3', '0', rfl,
      ⟨by decide, by decide, by decide, by decide, by decide⟩,
      ⟨by decide, by decide, by decide⟩, ⟨by decide, by decide, by decide⟩,
      by decide, by decide, by decide, by decide⟩,
    ⟨'2', '3', '5', '9', '5', '9', rfl, ⟨by decide, by decide, by decide⟩,
      ⟨by decide, by decide, by decide⟩, ⟨by decide, by decide, by decide⟩,
      by decide, by decide, by decide⟩⟩

/-- C14, amended: when `ParseQueryDate` succeeds on the empty input or on an
input that contains `T`, the result is canonical, `YYYY-MM-DD HH:MM:SS` of 19
characters with a real calendar day and a time of day; on any other input it
succeeds with the input whose first `_` is replaced by a space, validated in
no way. -/
theorem ParseQueryDate_canonical (s r : String) (h : ParseQueryDate s = (r, none)) :
    ((s = "" ∨ goContains s 'T' = true) → IsCanonicalDateTime r ∧ r.length = 19) ∧
      ((s ≠ "" ∧ goContains s 'T' = false) → r = replaceFirst s '_' ' ') := by
  refine ⟨?_, ?_⟩
  · intro hs
    have hc : IsCanonicalDateTime r := by
      rcases hs with rfl | hT
      · have : r = "2019-12-30 23:59:59" := by
          have := congrArg Prod.fst h
          simpa [ParseQueryDate] using this.symm
        rw [this]
        exact canonical_default
      · have hne := ne_empty_of_goContains s 'T' hT
        cases hp : parseRFC3339 s with
        | none =>
          have := congrArg Prod.snd h
          simp [ParseQueryDate, hne, hT, hp] at this
        | some z =>
          rw [ParseQueryDate_of_parse s z hp] at h
          have hr : z.formatDateTime = r := congrArg Prod.fst h
          rw [← hr]
          exact isCanonical_of_parse s z hp
    exact ⟨hc, isCanonical_length r hc⟩
  · rintro ⟨hne, hT⟩
    by_cases hU : goContains s '_' = true
    · have := congrArg Prod.fst h
      simp [ParseQueryDate, hne, hT, hU] at this
      exact this.symm
    · have := congrArg Prod.snd h
      simp [ParseQueryDate, hne, hT, hU] at this

set_option maxRecDepth 100000 in
theorem ParseQueryDate_canonical_witness :
    ParseQueryDate "2019-01-15T14:30:00Z" = ("2019-01-15 14:30:00", none) ∧
      goContains "2019-01-15T14:30:00Z" 'T' = true ∧ IsCanonicalDateTime "2019-01-15 14:30:00" :=
  have h : ParseQueryDate "2019-01-15T14:30:00Z" = ("2019-01-15 14:30:00", none) := by decide
  ⟨h, by decide,
    ((ParseQueryDate_canonical "2019-01-15T14:30:00Z" "2019-01-15 14:30:00" h).1
      (Or.inr (by decide))).1⟩

/-! ### The number of ranked organizations -/

theorem mem_joinLinks (s : Storage) (p : BlackoutRow × LinkRow) :
    p ∈ joinLinks s ↔
      p.1 ∈ s.blackouts ∧ p.2 ∈ s.blackouts_buildings ∧ p.1.id = p.2.blackout_id := by
  obtain ⟨b, bb⟩ := p
  simp only [joinLinks, List.mem_flatMap, List.mem_map, List.mem_filter, decide_eq_true_eq,
    Prod.mk.injEq]
  constructor
  · rintro ⟨b2, hb2, bb2, ⟨hbb2, hid⟩, rfl, rfl⟩
    exact ⟨hb2, hbb2, hid⟩
  · rintro ⟨h1, h2, h3⟩
    exact ⟨b, h1, bb, ⟨h2, h3⟩, rfl, rfl⟩

theorem mem_joinBuildings (s : Storage) (p : BlackoutRow × LinkRow × BuildingRow) :
    p ∈ joinBuildings s ↔
      p.1 ∈ s.blackouts ∧ p.2.1 ∈ s.blackouts_buildings ∧ p.1.id = p.2.1.blackout_id ∧
        p.2.2 ∈ s.buildings ∧ p.2.1.building_id = p.2.2.id := by
  obtain ⟨b, bb, bu⟩ := p
  simp only [joinBuildings, List.mem_flatMap, List.mem_map, List.mem_filter, decide_eq_true_eq,
    Prod.mk.injEq, mem_joinLinks]
  constructor
  · rintro ⟨⟨b2, bb2⟩, ⟨h1, h2, h3⟩, bu2, ⟨h4, h5⟩, rfl, rfl, rfl⟩
    exact ⟨h1, h2, h3, h4, h5⟩
  · rintro ⟨h1, h2, h3, h4, h5⟩
    exact ⟨(b, bb), ⟨h1, h2, h3⟩, bu, ⟨h4, h5⟩, rfl, rfl, rfl⟩

theorem decide_activeBetween (lo hi : String) (b : BlackoutRow) :
    sqlWhere (activeCond hi lo b) = decide (ActiveBetween lo hi b) := by
  by_cases h : ActiveBetween lo hi b
  · simp [h, (sqlWhere_activeCond hi lo b).2 h]
  · have h2 : sqlWhere (activeCond hi lo b) ≠ true :=
      fun h3 => h ((sqlWhere_activeCond hi lo b).1 h3)
    simp [h, h2]

/-- The groups of `GetOrganizations` are the organizations with a linked
active event. -/
theorem orgGroups_perm (s : Storage) (t : String) :
    ((((joinLinks s).filter fun p => sqlWhere (activeCond t t p.1)).map fun p =>
      p.1.initiator_name).reverse.dedup.reverse).Perm (linkedActiveOrganizations s t) := by
  apply (List.perm_ext_iff_of_nodup ?_ ?_).2
  · intro n
    simp only [List.mem_reverse, List.mem_dedup, List.mem_map, List.mem_filter,
      linkedActiveOrganizations, mem_joinLinks, decide_activeBetween, Bool.and_eq_true,
      decide_eq_true_eq, List.any_eq_true]
    constructor
    · rintro ⟨⟨b, bb⟩, ⟨⟨h1, h2, h3⟩, h4⟩, rfl⟩
      exact ⟨b, ⟨h1, h4, bb, h2, h3⟩, rfl⟩
    · rintro ⟨b, ⟨h1, h4, bb, h2, h3⟩, rfl⟩
      exact ⟨(b, bb), ⟨⟨h1, h2, h3⟩, h4⟩, rfl⟩
  · exact List.nodup_reverse.2 (List.nodup_dedup _)
  · exact List.nodup_dedup _

/-- C11, as stated, fails: an organization whose only active event is linked
to no building is not returned, so one organization with an active event
gives an empty list. -/
theorem GetOrganizations_drops_unlinked :
    GetOrganizations unlinkedStore "2019-01-15 14:30:00" = [] ∧
      activeOrganizations unlinkedStore "2019-01-15 14:30:00" = ["A"] ∧
      (GetOrganizations unlinkedStore "2019-01-15 14:30:00").length ≠
        min 4 (activeOrganizations unlinkedStore "2019-01-15 14:30:00").length := by
  decide

/-- C11, amended: `GetOrganizations` returns `min(4, k)` distinct names, where
`k` is the number of organizations that have at least one event active at
the instant that is linked to at least one building; every returned name is
such an organization, and all of them are returned when there are at most 4. -/
theorem GetOrganizations_count (s : Storage) (t : String) :
    (GetOrganizations s t).Nodup ∧
      (GetOrganizations s t).length = min 4 (linkedActiveOrganizations s t).length ∧
      (∀ n, n ∈ GetOrganizations s t → n ∈ linkedActiveOrganizations s t) ∧
      ((linkedActiveOrganizations s t).length ≤ 4 →
        (GetOrganizations s t).Perm (linkedActiveOrganizations s t)) := by
  have hperm := orgGroups_perm s t
  have hsort := List.perm_insertionSort
    (fun a b => orgGroupCount s t b ≤ orgGroupCount s t a)
    ((((joinLinks s).filter fun p => sqlWhere (activeCond t t p.1)).map fun p =>
      p.1.initiator_name).reverse.dedup.reverse)
  have hall := hsort.trans hperm
  have hnd : (List.insertionSort (fun a b => orgGroupCount s t b ≤ orgGroupCount s t a)
      ((((joinLinks s).filter fun p => sqlWhere (activeCond t t p.1)).map fun p =>
        p.1.initiator_name).reverse.dedup.reverse)).Nodup :=
    hall.nodup_iff.2 (List.nodup_dedup _)
  unfold GetOrganizations
  refine ⟨hnd.sublist (List.take_sublist 4 _), ?_, ?_, ?_⟩
  · rw [List.length_take, hall.length_eq]
  · intro n hn
    exact hall.mem_iff.1 (List.mem_of_mem_take hn)
  · intro h4
    have hlen := hall.length_eq
    rw [List.take_of_length_le (by omega)]
    exact hall

/-! ### The activity predicate across the queries -/

/-- On a reference that is not 10 bytes long the five queries test the same
condition, the reference being both bounds. -/
theorem activity_queries_on_instants (s : Storage) (t : String) (h : goLen t ≠ 10) :
    GetBlackouts s t = (blackoutsQuery s t t).map scanBlackout ∧
      GetBlackoutsWithBuildingsCount s t = (blackoutInfoQuery s t t).map scanBlackoutInfo ∧
      (∀ ty, GetBuildingsCountByBlackoutType s ty t =
        countDistinct
          (((joinBuildings s).filter fun p =>
            decide (p.1.type = ty) && decide (p.2.2.is_fake = 0) &&
              sqlWhere (activeCond t t p.1)).map fun p => p.2.2.id)) := by
  have hb : activityBounds t = (t, t) := by simp [activityBounds, h]
  simp only [GetBlackouts, GetBlackoutsWithBuildingsCount, GetBuildingsCountByBlackoutType, hb]
  exact ⟨trivial, trivial, fun _ => trivial⟩

/-! ### The per-day detail -/

set_option maxRecDepth 100000 in
/-- C19, as stated, fails: an event that is active on the day and has no
non-fake building gets no entry. -/
theorem GetBlackoutsWithBuildingsCount_drops_unlinked :
    GetBlackoutsWithBuildingsCount unlinkedStore "2019-01-15" = [] ∧
      (unlinkedStore.blackouts.filter fun e =>
        decide (ActiveBetween ("2019-01-15" ++ " 00:00:00") ("2019-01-15" ++ " 23:59:59") e)).length
          = 1 := by
  decide

theorem mem_detailRows (s : Storage) (hi lo : String) (p : BlackoutRow × LinkRow × BuildingRow) :
    (p ∈ (joinBuildings s).filter fun p =>
        decide (p.2.2.is_fake = 0) && sqlWhere (activeCond hi lo p.1)) ↔
      (p.1 ∈ s.blackouts ∧ p.2.1 ∈ s.blackouts_buildings ∧ p.1.id = p.2.1.blackout_id ∧
        p.2.2 ∈ s.buildings ∧ p.2.1.building_id = p.2.2.id) ∧
        p.2.2.is_fake = 0 ∧ ActiveBetween lo hi p.1 := by
  simp only [List.mem_filter, mem_joinBuildings, Bool.and_eq_true, decide_eq_true_eq,
    decide_activeBetween]

theorem mem_nonFake (s : Storage) (e : BlackoutRow) (id : Nat) :
    (id ∈ ((s.blackouts_buildings.filter fun bb => decide (bb.blackout_id = e.id)).map fun bb =>
        bb.building_id).dedup.filter fun id =>
          s.buildings.any fun bu => decide (bu.id = id) && decide (bu.is_fake = 0)) ↔
      (∃ bb, bb ∈ s.blackouts_buildings ∧ bb.blackout_id = e.id ∧ bb.building_id = id) ∧
        ∃ bu, bu ∈ s.buildings ∧ bu.id = id ∧ bu.is_fake = 0 := by
  simp only [List.mem_filter, List.mem_dedup, List.mem_map, decide_eq_true_eq, List.any_eq_true,
    Bool.and_eq_true]
  constructor
  · rintro ⟨⟨bb, ⟨h1, h2⟩, h3⟩, bu, h4, h5, h6⟩
    exact ⟨⟨bb, h1, h2, h3⟩, bu, h4, h5, h6⟩
  · rintro ⟨⟨bb, h1, h2, h3⟩, bu, h4, h5, h6⟩
    exact ⟨⟨bb, ⟨h1, h2⟩, h3⟩, bu, h4, h5, h6⟩

/-- The count of a group of the detail query is the number of distinct
non-fake buildings of its event. -/
theorem detail_count (s : Storage) (hi lo : String) (e : BlackoutRow) (he : e ∈ s.blackouts)
    (hact : ActiveBetween lo hi e) :
    countDistinct
        ((((joinBuildings s).filter fun p =>
          decide (p.2.2.is_fake = 0) && sqlWhere (activeCond hi lo p.1)).filter fun p =>
            decide (detailKey p.1 = detailKey e)).map fun p => p.2.2.id) =
      nonFakeBuildingCount s e := by
  unfold countDistinct nonFakeBuildingCount
  apply List.Perm.length_eq
  apply (List.perm_ext_iff_of_nodup (List.nodup_dedup _)
    ((List.nodup_dedup _).sublist (List.filter_sublist _))).2
  intro id
  rw [mem_nonFake]
  simp only [List.mem_dedup, List.mem_map, List.mem_filter, mem_joinBuildings,
    decide_activeBetween, Bool.and_eq_true, decide_eq_true_eq]
  constructor
  · rintro ⟨⟨b, bb, bu⟩, ⟨⟨⟨h1, h2, h3, h4, h5⟩, h6, h7⟩, hk⟩, rfl⟩
    have hid : b.id = e.id := congrArg Prod.fst hk
    simp only at h3 h5 h6
    exact ⟨⟨bb, h2, by rw [← h3, hid], h5⟩, bu, h4, rfl, h6⟩
  · rintro ⟨⟨bb, h1, h2, h3⟩, bu, h4, h5, h6⟩
    exact ⟨(e, bb, bu), ⟨⟨⟨he, h1, h2.symm, h4, by rw [h3, h5]⟩, h6, hact⟩, rfl⟩, h5⟩

theorem nonFake_pos_iff (s : Storage) (hi lo : String) (e : BlackoutRow) (he : e ∈ s.blackouts)
    (hact : ActiveBetween lo hi e) :
    0 < nonFakeBuildingCount s e ↔
      ∃ p, (p ∈ (joinBuildings s).filter fun p =>
        decide (p.2.2.is_fake = 0) && sqlWhere (activeCond hi lo p.1)) ∧
          detailKey p.1 = detailKey e := by
  unfold nonFakeBuildingCount
  rw [List.length_pos_iff_exists_mem]
  constructor
  · rintro ⟨id, hid⟩
    rw [mem_nonFake] at hid
    obtain ⟨⟨bb, h1, h2, h3⟩, bu, h4, h5, h6⟩ := hid
    refine ⟨(e, bb, bu), ?_, rfl⟩
    rw [mem_detailRows]
    exact ⟨⟨he, h1, h2.symm, h4, by rw [h3, h5]⟩, h6, hact⟩
  · rintro ⟨⟨b, bb, bu⟩, hp, hk⟩
    rw [mem_detailRows] at hp
    obtain ⟨⟨h1, h2, h3, h4, h5⟩, h6, h7⟩ := hp
    have hid : b.id = e.id := congrArg Prod.fst hk
    simp only at h3 h5 h6
    refine ⟨bu.id, ?_⟩
    rw [mem_nonFake]
    exact ⟨⟨bb, h2, by rw [← h3, hid], h5⟩, bu, h4, rfl, h6⟩

theorem detailKey_nodup (s : Storage) (hid : (s.blackouts.map fun b => b.id).Nodup)
    (p : BlackoutRow → Bool) : ((s.blackouts.filter p).map detailKey).Nodup := by
  have h1 : (s.blackouts.map detailKey).Nodup := by
    have : (s.blackouts.map fun b => b.id) = (s.blackouts.map detailKey).map Prod.fst := by
      rw [List.map_map]
      rfl
    rw [this] at hid
    exact List.Nodup.of_map _ hid
  exact h1.sublist ((List.filter_sublist _).map detailKey)

theorem detailGroups_perm (s : Storage) (hi lo : String)
    (hid : (s.blackouts.map fun b => b.id).Nodup) :
    ((((joinBuildings s).filter fun p =>
        decide (p.2.2.is_fake = 0) && sqlWhere (activeCond hi lo p.1)).map fun p =>
          detailKey p.1).reverse.dedup.reverse).Perm
      ((s.blackouts.filter fun e =>
        decide (ActiveBetween lo hi e) && decide (0 < nonFakeBuildingCount s e)).map
          detailKey) := by
  apply (List.perm_ext_iff_of_nodup (List.nodup_reverse.2 (List.nodup_dedup _))
    (detailKey_nodup s hid _)).2
  intro g
  simp only [List.mem_reverse, List.mem_dedup, List.mem_map]
  constructor
  · rintro ⟨p, hp, rfl⟩
    have hp' := (mem_detailRows s hi lo p).1 hp
    refine ⟨p.1, ?_, rfl⟩
    rw [List.mem_filter]
    refine ⟨hp'.1.1, ?_⟩
    simp only [Bool.and_eq_true, decide_eq_true_eq]
    exact ⟨hp'.2.2, (nonFake_pos_iff s hi lo p.1 hp'.1.1 hp'.2.2).2 ⟨p, hp, rfl⟩⟩
  · rintro ⟨e, he, rfl⟩
    rw [List.mem_filter] at he
    simp only [Bool.and_eq_true, decide_eq_true_eq] at he
    obtain ⟨p, hp, hk⟩ := (nonFake_pos_iff s hi lo e he.1 he.2.1).1 he.2.2
    exact ⟨p, hp, hk⟩

/-- The rows of the detail query, scanned, are the entries of the active
events with at least one non-fake building. -/
theorem blackoutInfoQuery_perm (s : Storage) (hi lo : String)
    (hid : (s.blackouts.map fun b => b.id).Nodup) :
    ((blackoutInfoQuery s hi lo).map scanBlackoutInfo).Perm
      ((s.blackouts.filter fun e =>
        decide (ActiveBetween lo hi e) && decide (0 < nonFakeBuildingCount s e)).map
          (dayDetailEntry s)) := by
  unfold blackoutInfoQuery
  refine ((List.perm_insertionSort _ _).map scanBlackoutInfo).trans ?_
  refine (((detailGroups_perm s hi lo hid).map _).map scanBlackoutInfo).trans ?_
  rw [List.map_map, List.map_map]
  apply List.Perm.of_eq
  apply List.map_congr_left
  intro e he
  rw [List.mem_filter] at he
  simp only [Bool.and_eq_true, decide_eq_true_eq] at he
  simp only [Function.comp_def, scanBlackoutInfo, dayDetailEntry, detailKey,
    ← detail_count s hi lo e he.1 he.2.1]

/-- C19, amended: in a store whose event identifiers are distinct, for a
valid calendar day `d`, the per-day detail has, up to order, exactly one
entry for every event that is active on `d` and has at least one distinct
non-fake affected building, and no other entry; the entry carries the
category of the event, its start and end cut to the minute, and its number
of distinct non-fake affected buildings. -/
theorem GetBlackoutsWithBuildingsCount_detail (s : Storage) (d : String) (hd : IsCalendarDay d)
    (hid : (s.blackouts.map fun b => b.id).Nodup) :
    (GetBlackoutsWithBuildingsCount s d).Perm
      ((s.blackouts.filter fun e =>
        decide (ActiveBetween (d ++ " 00:00:00") (d ++ " 23:59:59") e) &&
          decide (0 < nonFakeBuildingCount s e)).map (dayDetailEntry s)) := by
  obtain ⟨y, m, dd, hdt⟩ := hd
  have hlen := goLen_of_isDateText d y m dd hdt
  have hb : activityBounds d = (d ++ " 23:59:59", d ++ " 00:00:00") := by
    simp [activityBounds, hlen]
  unfold GetBlackoutsWithBuildingsCount
  rw [hb]
  exact blackoutInfoQuery_perm s _ _ hid

set_option maxRecDepth 100000 in
theorem GetBlackoutsWithBuildingsCount_detail_witness :
    IsCalendarDay "2019-01-15" ∧ (dayStore.blackouts.map fun b => b.id).Nodup ∧
      (GetBlackoutsWithBuildingsCount dayStore "2019-01-15").Perm
        ((dayStore.blackouts.filter fun e =>
          decide (ActiveBetween ("2019-01-15" ++ " 00:00:00") ("2019-01-15" ++ " 23:59:59") e) &&
            decide (0 < nonFakeBuildingCount dayStore e)).map (dayDetailEntry dayStore)) ∧
      GetBlackoutsWithBuildingsCount dayStore "2019-01-15" =
        [⟨"heat", goBytes "2019-01-15 10:00", [], 1⟩] :=
  ⟨⟨2019, 1, 15, sample_dateText⟩, by decide,
    GetBlackoutsWithBuildingsCount_detail dayStore "2019-01-15" ⟨2019, 1, 15, sample_dateText⟩
      (by decide),
    by decide⟩
/-! ### The month calendar handler -/

theorem isYearMonth_ne_empty (s : String) (y m : Nat) (h : IsYearMonth s y m) : s ≠ "" := by
  obtain ⟨a, b, c, d, e, f, hs, -⟩ := h
  intro h0
  rw [h0] at hs
  exact List.noConfusion hs

theorem goLen_monthDay (s : String) (y m : Nat) (h : IsYearMonth s y m) (k : Nat)
    (hk : k < 100) : goLen (s ++ "-" ++ twoDigits k) = 10 := by
  obtain ⟨a, b, c, d, e, f, hs, ha, hb, hc, hd, he, hf, -⟩ := h
  have h1 := (digitPair_utod k hk).1
  have h2 := (digitPair_utod k hk).2.1
  show String.utf8ByteSize.go (s ++ "-" ++ twoDigits k).data = 10
  simp only [String.data_append, hs, twoDigits, List.cons_append, List.nil_append,
    String.utf8ByteSize.go, utf8Size_of_isDigit _ ha, utf8Size_of_isDigit _ hb,
    utf8Size_of_isDigit _ hc, utf8Size_of_isDigit _ hd, utf8Size_of_isDigit _ he,
    utf8Size_of_isDigit _ hf, utf8Size_of_isDigit _ h1, utf8Size_of_isDigit _ h2,
    show Char.utf8Size '-' = 1 by decide]

theorem mem_serviceKeys (blackouts : List Blackout) (c : String) :
    c ∈ serviceKeys blackouts ↔ ∃ b ∈ blackouts, b.Type_ = c := by
  simp [serviceKeys]

/-- The entries of the month calendar follow the days whose query succeeded. -/
theorem calendarEntries_dates (giver : DatesGiver) (l : List String) :
    ((l.filterMap fun dateStr =>
      match giver.GetBlackouts dateStr with
      | none => none
      | some blackouts => some ({ Date := dateStr, Services := serviceKeys blackouts } :
          DateInfo)).map fun e => e.Date) =
      l.filter fun d => (giver.GetBlackouts d).isSome := by
  induction l with
  | nil => rfl
  | cons d ds ih =>
    cases hg : giver.GetBlackouts d with
    | none => simpa [List.filterMap_cons, hg] using ih
    | some bs => simpa [List.filterMap_cons, hg] using ih

theorem mem_calendarEntries (giver : DatesGiver) (l : List String) (e : DateInfo)
    (he : e ∈ l.filterMap fun dateStr =>
      match giver.GetBlackouts dateStr with
      | none => none
      | some blackouts => some ({ Date := dateStr, Services := serviceKeys blackouts } :
          DateInfo)) :
    e.Date ∈ l ∧ ∃ blackouts, giver.GetBlackouts e.Date = some blackouts ∧
      e.Services = serviceKeys blackouts := by
  rw [List.mem_filterMap] at he
  obtain ⟨d, hd, hde⟩ := he
  cases hg : giver.GetBlackouts d with
  | none => simp [hg] at hde
  | some bs =>
    simp only [hg, Option.some.injEq] at hde
    subst hde
    exact ⟨hd, bs, hg, rfl⟩

theorem CalendarMonth_New_eq (giver : DatesGiver) (month : String) (y m : Nat)
    (h : IsYearMonth month y m) :
    CalendarMonth.New giver month =
      Response.ok
        (((List.range (gregorianDays y m)).map fun i =>
          month ++ "-" ++ twoDigits (i + 1)).filterMap fun dateStr =>
          match giver.GetBlackouts dateStr with
          | none => none
          | some blackouts => some { Date := dateStr, Services := serviceKeys blackouts }) := by
  unfold CalendarMonth.New
  rw [if_neg (isYearMonth_ne_empty month y m h), GetAllDatesInMonth_eq month y m h]

/-- C21: on a year-month the month calendar answers `OK`; its entries are,
in ascending order of date, the days of the month whose `GetBlackouts` call
succeeded, a failed day having no entry; the services of an entry have no
duplicate and are the categories of the events returned for the day, which
for a store are the categories of the events active on that day. -/
theorem CalendarMonth_New_entries (month : String) (y m : Nat) (h : IsYearMonth month y m) :
    (∀ giver : DatesGiver, ∃ dates, CalendarMonth.New giver month = Response.ok dates ∧
      (dates.map fun e => e.Date) =
        ((List.range (gregorianDays y m)).map fun i =>
          month ++ "-" ++ twoDigits (i + 1)).filter
            (fun d => (giver.GetBlackouts d).isSome) ∧
      dates.Pairwise (fun a b => textLt a.Date b.Date = true) ∧
      ∀ e ∈ dates, e.Services.Nodup ∧
        ∃ blackouts, giver.GetBlackouts e.Date = some blackouts ∧
          ∀ c, c ∈ e.Services ↔ ∃ b ∈ blackouts, b.Type_ = c) ∧
    (∀ (s : Storage) (failing : String → Bool), ∃ dates,
      CalendarMonth.New (storeDatesGiver s failing) month = Response.ok dates ∧
      (dates.map fun e => e.Date) =
        ((List.range (gregorianDays y m)).map fun i =>
          month ++ "-" ++ twoDigits (i + 1)).filter (fun d => !failing d) ∧
      ∀ e ∈ dates, ∀ c, c ∈ e.Services ↔
        ∃ ev ∈ s.blackouts,
          ActiveBetween (e.Date ++ " 00:00:00") (e.Date ++ " 23:59:59") ev ∧ ev.type = c) := by
  have hb31 := (gregorianDays_bounds y m).2
  have hdates : ∀ giver : DatesGiver,
      ((((List.range (gregorianDays y m)).map fun i =>
          month ++ "-" ++ twoDigits (i + 1)).filterMap fun dateStr =>
          match giver.GetBlackouts dateStr with
          | none => none
          | some blackouts => some ({ Date := dateStr, Services := serviceKeys blackouts } :
              DateInfo)).map fun e => e.Date) =
        ((List.range (gregorianDays y m)).map fun i =>
          month ++ "-" ++ twoDigits (i + 1)).filter
            (fun d => (giver.GetBlackouts d).isSome) :=
    fun giver => calendarEntries_dates giver _
  refine ⟨?_, ?_⟩
  · intro giver
    refine ⟨_, CalendarMonth_New_eq giver month y m h, hdates giver, ?_, ?_⟩
    · have hp := (dates_ascending month _ hb31).filter
        (fun d => (giver.GetBlackouts d).isSome)
      rw [← hdates giver, List.pairwise_map] at hp
      exact hp
    · intro e he
      obtain ⟨-, bs, hg, hs⟩ := mem_calendarEntries giver _ e he
      refine ⟨?_, bs, hg, ?_⟩
      · rw [hs]
        exact List.nodup_dedup _
      · intro c
        rw [hs]
        exact mem_serviceKeys bs c
  · intro s failing
    refine ⟨_, CalendarMonth_New_eq _ month y m h, ?_, ?_⟩
    · rw [hdates]
      apply List.filter_congr
      intro d _
      simp only [storeDatesGiver]
      cases failing d <;> rfl
    · intro e he c
      obtain ⟨hmem, bs, hg, hs⟩ := mem_calendarEntries _ _ e he
      rw [List.mem_map] at hmem
      obtain ⟨i, hi, hie⟩ := hmem
      have hi' := List.mem_range.1 hi
      have hlen : goLen e.Date = 10 := by
        rw [← hie]
        exact goLen_monthDay month y m h (i + 1) (by omega)
      simp only [storeDatesGiver] at hg
      split_ifs at hg with hf
      simp only [Option.some.injEq] at hg
      have hb : activityBounds e.Date = (e.Date ++ " 23:59:59", e.Date ++ " 00:00:00") := by
        simp [activityBounds, hlen]
      rw [hs, mem_serviceKeys, ← hg]
      simp only [GetBlackouts, hb, List.mem_map, mem_blackoutsQuery]
      constructor
      · rintro ⟨b, ⟨ev, ⟨hev, hact⟩, rfl⟩, rfl⟩
        exact ⟨ev, hev, hact, rfl⟩
      · rintro ⟨ev, hev, hact, rfl⟩
        exact ⟨scanBlackout ev, ⟨ev, ⟨hev, hact⟩, rfl⟩, rfl⟩


set_option maxRecDepth 1000000 in
theorem CalendarMonth_New_entries_witness :
    IsYearMonth "2019-01" 2019 1 ∧
      (∃ dates,
        CalendarMonth.New
          (storeDatesGiver ⟨sampleBlackouts, [], []⟩ fun d => decide (d = "2019-01-14"))
          "2019-01" = Response.ok dates ∧
        (dates.map fun e => e.Date) =
          ((List.range (gregorianDays 2019 1)).map fun i =>
            "2019-01" ++ "-" ++ twoDigits (i + 1)).filter
              (fun d => !decide (d = "2019-01-14"))) ∧
      (match CalendarMonth.New
          (storeDatesGiver ⟨sampleBlackouts, [], []⟩ fun d => decide (d = "2019-01-14"))
          "2019-01" with
        | Response.ok dates => (dates.length, (dates.drop 11).take 3)
        | Response.error _ => (0, [])) =
        (30, [⟨"2019-01-12", []⟩, ⟨"2019-01-13", ["heat"]⟩, ⟨"2019-01-15", ["electricity"]⟩]) :=
  have h : IsYearMonth "2019-01" 2019 1 :=
    ⟨'2', '0', '1', '9', '0', '1', rfl, by decide, by decide, by decide, by decide, by decide,
      by decide, by decide, by decide, by decide, by decide⟩
  ⟨h,
    let ⟨dates, h1, h2, _⟩ := (CalendarMonth_New_entries "2019-01" 2019 1 h).2
      ⟨sampleBlackouts, [], []⟩ (fun d => decide (d = "2019-01-14"))
    ⟨dates, h1, h2⟩,
    by decide⟩

/-! ### The organizations handler -/

/-- The entry the handler builds for an organization whose count succeeded. -/
theorem mem_organizationEntries (giver : OrganizationGiver) (r : String) (names : List String)
    (info : OrganizationInfo)
    (h : info ∈ names.filterMap fun orgName =>
      match giver.GetBuildingsCountByOrgName orgName r with
      | none => none
      | some countBuildings =>
        let last :=
          match giver.GetLastAddressByOrgName orgName r with
          | none => ("unknown", "unknown")
          | some found => found
        some ({ Name := orgName, CountBuildings := countBuildings,
                LastAddress := last.2, TimeLastBlackout := last.1 } : OrganizationInfo)) :
    info.Name ∈ names ∧
      giver.GetBuildingsCountByOrgName info.Name r = some info.CountBuildings ∧
      (giver.GetLastAddressByOrgName info.Name r = none →
        info.TimeLastBlackout = "unknown" ∧ info.LastAddress = "unknown") ∧
      ∀ lastTime lastAddress,
        giver.GetLastAddressByOrgName info.Name r = some (lastTime, lastAddress) →
          info.TimeLastBlackout = lastTime ∧ info.LastAddress = lastAddress := by
  rw [List.mem_filterMap] at h
  obtain ⟨name, hname, hinfo⟩ := h
  cases hc : giver.GetBuildingsCountByOrgName name r with
  | none => simp [hc] at hinfo
  | some count =>
    simp only [hc, Option.some.injEq] at hinfo
    subst hinfo
    refine ⟨hname, hc, ?_, ?_⟩
    · intro hl
      simp [hl]
    · intro lastTime lastAddress hl
      simp [hl]

theorem organizationEntries_names (giver : OrganizationGiver) (r : String)
    (names : List String) :
    ((names.filterMap fun orgName =>
      match giver.GetBuildingsCountByOrgName orgName r with
      | none => none
      | some countBuildings =>
        let last :=
          match giver.GetLastAddressByOrgName orgName r with
          | none => ("unknown", "unknown")
          | some found => found
        some ({ Name := orgName, CountBuildings := countBuildings,
                LastAddress := last.2, TimeLastBlackout := last.1 } : OrganizationInfo)).map
      fun info => info.Name) =
      names.filter fun name => (giver.GetBuildingsCountByOrgName name r).isSome := by
  induction names with
  | nil => rfl
  | cons d ds ih =>
    cases hg : giver.GetBuildingsCountByOrgName d r with
    | none => simpa [List.filterMap_cons, hg] using ih
    | some bs => simpa [List.filterMap_cons, hg] using ih

/-- C22: once the reference is accepted and the ranking query has returned
its names, the organizations handler answers `OK` whatever the queries on
single organizations do. The entries are, in ranked order, the organizations
whose count query succeeded, each with its count; an entry whose lookup of
the last event failed has `unknown` as last time and as last address, and an
entry whose lookup succeeded has the time and the address looked up. -/
theorem Organizations_New_entries (giver : OrganizationGiver) (currTime : String)
    (names : List String) (hne : currTime ≠ "") (hparse : (ParseQueryDate currTime).2 = none)
    (hnames : giver.GetOrganizations (ParseQueryDate currTime).1 = some names) :
    ∃ infos, Organizations.New giver currTime = Response.ok infos ∧
      (infos.map fun info => info.Name) =
        names.filter (fun name =>
          (giver.GetBuildingsCountByOrgName name (ParseQueryDate currTime).1).isSome) ∧
      ∀ info ∈ infos,
        giver.GetBuildingsCountByOrgName info.Name (ParseQueryDate currTime).1 =
          some info.CountBuildings ∧
        (giver.GetLastAddressByOrgName info.Name (ParseQueryDate currTime).1 = none →
          info.TimeLastBlackout = "unknown" ∧ info.LastAddress = "unknown") ∧
        ∀ lastTime lastAddress,
          giver.GetLastAddressByOrgName info.Name (ParseQueryDate currTime).1 =
              some (lastTime, lastAddress) →
            info.TimeLastBlackout = lastTime ∧ info.LastAddress = lastAddress := by
  rcases hp : ParseQueryDate currTime with ⟨r, err⟩
  simp only [hp] at hparse hnames ⊢
  subst hparse
  refine ⟨_, ?_, organizationEntries_names giver r names, ?_⟩
  · unfold Organizations.New
    rw [if_neg hne, hp]
    simp only [hnames]
  · intro info hinfo
    exact (mem_organizationEntries giver r names info hinfo).2

set_option maxRecDepth 1000000 in
theorem Organizations_New_entries_witness :
    "2019-01-15_14:30:00" ≠ "" ∧ (ParseQueryDate "2019-01-15_14:30:00").2 = none ∧
      (∃ infos,
        Organizations.New
          (sampleOrganizationGiver threeOrganizations (fun name => decide (name = "B"))
            fun name => if name = "C" then some ("2019-01-12 08:00:00", "Main 4") else none)
          "2019-01-15_14:30:00" = Response.ok infos ∧
        (infos.map fun info => info.Name) = ["A", "C"]) ∧
      Organizations.New
          (sampleOrganizationGiver threeOrganizations (fun name => decide (name = "B"))
            fun name => if name = "C" then some ("2019-01-12 08:00:00", "Main 4") else none)
          "2019-01-15_14:30:00" =
        Response.ok [⟨"A", 0, "unknown", "unknown"⟩, ⟨"C", 1, "Main 4", "2019-01-12 08:00:00"⟩] :=
  ⟨by decide, by decide,
    let ⟨infos, h1, h2, _⟩ := Organizations_New_entries
      (sampleOrganizationGiver threeOrganizations (fun name => decide (name = "B"))
        fun name => if name = "C" then some ("2019-01-12 08:00:00", "Main 4") else none)
      "2019-01-15_14:30:00" ["A", "B", "C"] (by decide) (by decide) (by decide)
    ⟨infos, h1, h2⟩,
    by decide⟩

/-! ### The complaints handler -/

theorem Complaints_New_of_valid (giver : ComplaintsGiver) (period currTime : String)
    (hne : currTime ≠ "") (hparse : (ParseQueryDate currTime).2 = none)
    (hvalid : validPeriods period = true) :
    Complaints.New giver period currTime =
      (renderComplaints (callBuilder giver period (ParseQueryDate currTime).1).1,
        (callBuilder giver period (ParseQueryDate currTime).1).2) := by
  have hp : period ≠ "" := by
    rintro rfl
    exact absurd hvalid (by decide)
  rcases hq : ParseQueryDate currTime with ⟨r, err⟩
  simp only [hq] at hparse ⊢
  subst hparse
  unfold Complaints.New
  rw [if_neg hp, if_neg hne, hq]
  simp only [hvalid, Bool.true_eq_false, if_false]
  rcases callBuilder giver period r with ⟨_ | complaints, calls⟩ <;> rfl

theorem validPeriods_iff (period : String) :
    validPeriods period = true ↔
      period = "hour" ∨ period = "day" ∨ period = "week" ∨ period = "month" := by
  simp [validPeriods, or_assoc]

/-- C23: the complaints handler answers with an error and without a call to
a builder exactly when the period is empty, the reference is empty, the
reference is rejected by `ParseQueryDate`, or the period is none of `hour`,
`day`, `week`, `month`. Otherwise it makes exactly one call, to the builder
of the keyword, on the normalized reference, and renders its result; the
builders of a store are the four windows, of 60 buckets of a minute, 24 of
an hour, 7 and 30 of a day. -/
theorem Complaints_New_dispatch (giver : ComplaintsGiver) (period currTime : String) :
    (((Complaints.New giver period currTime).1.isError = true ∧
        (Complaints.New giver period currTime).2 = []) ↔
      (period = "" ∨ currTime = "" ∨ (ParseQueryDate currTime).2 ≠ none ∨
        ¬ (period = "hour" ∨ period = "day" ∨ period = "week" ∨ period = "month"))) ∧
      (currTime ≠ "" → (ParseQueryDate currTime).2 = none →
        (period = "hour" → Complaints.New giver period currTime =
          (renderComplaints (giver.GetComplaintsLastHour (ParseQueryDate currTime).1),
            [BuilderCall.lastHour (ParseQueryDate currTime).1])) ∧
        (period = "day" → Complaints.New giver period currTime =
          (renderComplaints (giver.GetComplaintsLastDay (ParseQueryDate currTime).1),
            [BuilderCall.lastDay (ParseQueryDate currTime).1])) ∧
        (period = "week" → Complaints.New giver period currTime =
          (renderComplaints (giver.GetComplaintsLastWeek (ParseQueryDate currTime).1),
            [BuilderCall.lastWeek (ParseQueryDate currTime).1])) ∧
        (period = "month" → Complaints.New giver period currTime =
          (renderComplaints (giver.GetComplaintsLastMonth (ParseQueryDate currTime).1),
            [BuilderCall.lastMonth (ParseQueryDate currTime).1]))) ∧
      (∀ db : CountsStore,
        (storeComplaintsGiver db).GetComplaintsLastHour = hourWindow.run db ∧
        (storeComplaintsGiver db).GetComplaintsLastDay = dayWindow.run db ∧
        (storeComplaintsGiver db).GetComplaintsLastWeek = weekWindow.run db ∧
        (storeComplaintsGiver db).GetComplaintsLastMonth = monthWindow.run db) ∧
      (windows.map fun w => (w.count, w.unit)) =
        [(60, 1 * Minute), (24, 1 * Hour), (7, 24 * Hour), (30, 24 * Hour)] ∧
      (Minute, Hour) = (60, 60 * 60) := by
  refine ⟨?_, ?_, fun db => ⟨rfl, rfl, rfl, rfl⟩, by decide, by decide⟩
  · by_cases hp : period = ""
    · simp [Complaints.New, hp, Response.isError]
    by_cases hc : currTime = ""
    · simp [Complaints.New, hp, hc, Response.isError]
    by_cases hparse : (ParseQueryDate currTime).2 = none
    swap
    · rcases hq : ParseQueryDate currTime with ⟨r, err⟩
      rw [hq] at hparse
      cases err with
      | none => exact absurd rfl hparse
      | some e => simp [Complaints.New, hp, hc, hq, Response.isError]
    by_cases hv : validPeriods period = true
    swap
    · have hv2 : validPeriods period = false := by simpa using hv
      rcases hq : ParseQueryDate currTime with ⟨r, err⟩
      rw [hq] at hparse
      simp only at hparse
      subst hparse
      rw [validPeriods_iff] at hv
      simp [Complaints.New, hp, hc, hq, hv2, hv, Response.isError]
    · rw [Complaints_New_of_valid giver period currTime hc hparse hv]
      have hv3 := (validPeriods_iff period).1 hv
      simp only [hp, hc, hparse, hv3, not_true_eq_false, ne_eq, or_self, iff_false, not_and]
      intro _
      rcases hv3 with rfl | rfl | rfl | rfl <;> simp [callBuilder]
  · intro hc hparse
    refine ⟨?_, ?_, ?_, ?_⟩ <;> rintro rfl <;>
      rw [Complaints_New_of_valid giver _ currTime hc hparse (by decide)] <;> rfl

/-! ### The cut to the minute -/

theorem utf8Bytes_length (c : Char) : (utf8Bytes c).length = c.utf8Size := by
  have e : c.toNat = c.val.toNat := rfl
  have h1 : c.val ≤ UInt32.ofNatCore 127 (by decide) ↔ c.toNat < 128 := by
    rw [UInt32.le_def, e]
    show c.val.toNat ≤ 127 ↔ _
    omega
  have h2 : c.val ≤ UInt32.ofNatCore 2047 (by decide) ↔ c.toNat < 2048 := by
    rw [UInt32.le_def, e]
    show c.val.toNat ≤ 2047 ↔ _
    omega
  have h3 : c.val ≤ UInt32.ofNatCore 65535 (by decide) ↔ c.toNat < 65536 := by
    rw [UInt32.le_def, e]
    show c.val.toNat ≤ 65535 ↔ _
    omega
  simp only [Char.utf8Size, utf8Bytes, h1, h2, h3]
  split_ifs <;> rfl

theorem goBytes_length (x : String) : (goBytes x).length = goLen x := by
  show (x.data.flatMap utf8Bytes).length = String.utf8ByteSize.go x.data
  induction x.data with
  | nil => rfl
  | cons c cs ih =>
    simp only [List.flatMap_cons, List.length_append, String.utf8ByteSize.go, ih,
      utf8Bytes_length]
    omega

theorem utf8Bytes_ascii (c : Char) (h : c.utf8Size = 1) : utf8Bytes c = [c.toNat] := by
  have hl := utf8Bytes_length c
  rw [h] at hl
  unfold utf8Bytes at hl ⊢
  split_ifs at hl ⊢ with h1 h2 h3
  · rfl
  all_goals simp at hl

theorem goBytes_ascii (l : List Char) (h : ∀ c ∈ l, c.utf8Size = 1) :
    l.flatMap utf8Bytes = l.map Char.toNat := by
  induction l with
  | nil => rfl
  | cons c cs ih =>
    rw [List.flatMap_cons, List.map_cons, utf8Bytes_ascii c (h c (List.mem_cons_self _ _)),
      ih (fun x hx => h x (List.mem_cons_of_mem _ hx))]
    rfl

theorem utf8Size_go_ascii (l : List Char) (h : ∀ c ∈ l, c.utf8Size = 1) :
    String.utf8ByteSize.go l = l.length := by
  induction l with
  | nil => rfl
  | cons c cs ih =>
    simp only [String.utf8ByteSize.go, List.length_cons]
    rw [ih (fun x hx => h x (List.mem_cons_of_mem _ hx)), h c (List.mem_cons_self _ _)]

theorem cutToMinute_ascii (x : String) (h : ∀ c ∈ x.data, c.utf8Size = 1) :
    cutToMinute x = goBytes (if x.length > 16 then ⟨x.data.take 16⟩ else x) := by
  have hb : goBytes x = x.data.map Char.toNat := goBytes_ascii x.data h
  have hlen : (goBytes x).length = x.length := by rw [hb, List.length_map]; rfl
  unfold cutToMinute cutBytes
  rw [hlen]
  split_ifs with h16
  · have ht : ∀ c ∈ x.data.take 16, c.utf8Size = 1 :=
      fun c hc => h c (List.mem_of_mem_take hc)
    show (goBytes x).take 16 = (x.data.take 16).flatMap utf8Bytes
    rw [hb, goBytes_ascii _ ht, List.map_take]
  · rfl

theorem cutBytes_length (b : List Nat) : (cutBytes b).length ≤ 16 := by
  unfold cutBytes
  split_ifs with h
  · rw [List.length_take]
    omega
  · omega

theorem cutBytes_idem (b : List Nat) : cutBytes (cutBytes b) = cutBytes b := by
  have h := cutBytes_length b
  generalize cutBytes b = c at h
  unfold cutBytes
  rw [if_neg (by omega)]

theorem isCanonical_ascii (s : String) (h : IsCanonicalDateTime s) :
    ∀ c ∈ s.data, c.utf8Size = 1 := by
  obtain ⟨date, clock, y, m, d, hh, n, sec, hs, hd, hc⟩ := h
  obtain ⟨y1, y2, y3, y4, m1, m2, d1, d2, rfl, ⟨a1, a2, a3, a4, -⟩, ⟨b1, b2, -⟩, ⟨c1, c2, -⟩, -⟩ :=
    hd
  obtain ⟨h1, h2, n1, n2, s1, s2, rfl, ⟨e1, e2, -⟩, ⟨f1, f2, -⟩, ⟨g1, g2, -⟩, -⟩ := hc
  intro c hmem
  rw [hs] at hmem
  simp only [List.cons_append, List.nil_append, List.mem_cons, List.mem_singleton,
    List.not_mem_nil, or_false] at hmem
  rcases hmem with rfl | rfl | rfl | rfl | rfl | rfl | rfl | rfl | rfl | rfl | rfl | rfl | rfl |
    rfl | rfl | rfl | rfl | rfl | rfl
  all_goals first
    | exact utf8Size_of_isDigit _ (by assumption)
    | decide

theorem mem_blackoutInfoQuery (s : Storage) (hi lo : String)
    (row : (String × String × String × Option String) × Nat)
    (h : row ∈ blackoutInfoQuery s hi lo) : ∃ e ∈ s.blackouts, row.1 = detailKey e := by
  unfold blackoutInfoQuery at h
  rw [(List.perm_insertionSort _ _).mem_iff] at h
  simp only [List.mem_map, List.mem_reverse, List.mem_dedup, List.mem_filter] at h
  obtain ⟨g, ⟨p, ⟨hp, -⟩, rfl⟩, rfl⟩ := h
  exact ⟨p.1, ((mem_joinBuildings s p).1 hp).1, rfl⟩

set_option maxRecDepth 100000 in
/-- C24, as stated, fails on a stored text with a character of several
bytes: the start `2019-01-15 10:0é` has 16 characters, so by the claim it is
emitted as it is, but it has 17 bytes and the entry carries its first 16
bytes, which end inside the last character. -/
theorem GetBlackoutsWithBuildingsCount_cuts_bytes :
    "2019-01-15 10:0é".length = 16 ∧ goLen "2019-01-15 10:0é" = 17 ∧
      ((GetBlackoutsWithBuildingsCount twoByteStore "2019-01-15").map fun info =>
        info.StartDate) = [(goBytes "2019-01-15 10:0é").take 16] ∧
      (goBytes "2019-01-15 10:0é").take 16 ≠ goBytes "2019-01-15 10:0é" ∧
      (goBytes "2019-01-15 10:0é").take 16 = goBytes "2019-01-15 10:0" ++ [195] ∧
      goBytes "2019-01-15 10:0é" = goBytes "2019-01-15 10:0" ++ [195, 169] := by
  decide

/-- C24, amended: every entry of the per-day detail carries the stored start
of an event and its stored end after the cut, a NULL end being the empty
string. The cut counts bytes: a text of at most 16 bytes is emitted as it
is, a longer one as its first 16 bytes, whether or not they end with a
character. On a text of one-byte characters, such as every timestamp, these
are its first 16 characters when it has more than 16 and the text itself
otherwise; a canonical `YYYY-MM-DD HH:MM:SS` is emitted as its 16 characters
`YYYY-MM-DD HH:MM`; cutting twice is cutting once. -/
theorem GetBlackoutsWithBuildingsCount_truncation (s : Storage) (targetDate : String) :
    (∀ info ∈ GetBlackoutsWithBuildingsCount s targetDate, ∃ e ∈ s.blackouts,
      info.StartDate = cutBytes (goBytes e.start_date) ∧
      info.EndDate = (match e.end_date with
        | some x => cutBytes (goBytes x)
        | none => [])) ∧
    (∀ x : String, (goBytes x).length = goLen x ∧
      (goLen x ≤ 16 → cutBytes (goBytes x) = goBytes x) ∧
      (goLen x > 16 → cutBytes (goBytes x) = (goBytes x).take 16 ∧
        (cutBytes (goBytes x)).length = 16)) ∧
    (∀ x : String, (∀ c ∈ x.data, c.utf8Size = 1) →
      goLen x = x.length ∧
        cutBytes (goBytes x) = goBytes (if x.length > 16 then ⟨x.data.take 16⟩ else x)) ∧
    (∀ x : String, IsCanonicalDateTime x →
      x.length = 19 ∧ cutBytes (goBytes x) = goBytes ⟨x.data.take 16⟩ ∧
        ∃ date clock : List Char, x.data = date ++ [' '] ++ clock ∧
          x.data.take 16 = date ++ [' '] ++ clock.take 5) ∧
    (∀ b : List Nat, cutBytes (cutBytes b) = cutBytes b) ∧
    cutBytes (goBytes "2019-01-15 10:00:00") = goBytes "2019-01-15 10:00" := by
  refine ⟨?_, ?_, ?_, ?_, cutBytes_idem, by decide⟩
  · intro info hinfo
    unfold GetBlackoutsWithBuildingsCount at hinfo
    rw [List.mem_map] at hinfo
    obtain ⟨row, hrow, rfl⟩ := hinfo
    obtain ⟨e, he, hkey⟩ := mem_blackoutInfoQuery s _ _ row hrow
    refine ⟨e, he, ?_, ?_⟩
    · show cutToMinute row.1.2.2.1 = cutToMinute e.start_date
      rw [hkey]
      rfl
    · show (match row.1.2.2.2 with
        | some x => cutToMinute x
        | none => []) = _
      rw [hkey]
      rfl
  · intro x
    have hlen := goBytes_length x
    refine ⟨hlen, ?_, ?_⟩
    · intro hx
      unfold cutBytes
      rw [if_neg (by omega)]
    · intro hx
      unfold cutBytes
      rw [if_pos (by omega)]
      refine ⟨rfl, ?_⟩
      rw [List.length_take]
      omega
  · intro x hx
    exact ⟨utf8Size_go_ascii x.data hx, cutToMinute_ascii x hx⟩
  · intro x hx
    have hlen : x.length = 19 := isCanonical_length x hx
    have hcut := cutToMinute_ascii x (isCanonical_ascii x hx)
    rw [if_pos (by omega)] at hcut
    refine ⟨hlen, hcut, ?_⟩
    obtain ⟨date, clock, y, m, d, hh, n, sec, hs, hd, hc⟩ := hx
    refine ⟨date, clock, hs, ?_⟩
    have hdl := isDateText_length date y m d hd
    rw [hs]
    have h11 : (date ++ [' ']).length = 11 := by simp [hdl]
    rw [List.take_append_eq_append_take, h11, List.take_of_length_le (by omega)]

/-! ### An instant of a day and the day -/

theorem charsLe_refl (a : List Char) : charsLe a a = true := by
  induction a with
  | nil => rfl
  | cons c cs ih => simp [charsLe, ih]

theorem charsLe_trans (a b c : List Char) (hab : charsLe a b = true) (hbc : charsLe b c = true) :
    charsLe a c = true := by
  induction a generalizing b c with
  | nil => rfl
  | cons x xs ih =>
    cases b with
    | nil => simp [charsLe] at hab
    | cons y ys =>
      cases c with
      | nil => simp [charsLe] at hbc
      | cons z zs =>
        simp only [charsLe] at hab hbc ⊢
        split_ifs at hab hbc ⊢ with h1 h2 h3 h4 h5 h6 <;>
          first
            | rfl
            | omega
            | exact Bool.noConfusion hab
            | exact Bool.noConfusion hbc
            | exact ih ys zs hab hbc

theorem textLe_trans (a b c : String) (hab : textLe a b = true) (hbc : textLe b c = true) :
    textLe a c = true := charsLe_trans _ _ _ hab hbc

theorem charsLe_cons (a b : Char) (as bs : List Char) :
    charsLe (a :: as) (b :: bs) =
      if a.toNat < b.toNat then true else if b.toNat < a.toNat then false else charsLe as bs :=
  rfl

/-- Two-digit numbers at the head of two texts: the smaller number makes the
smaller text, equal numbers leave the comparison to the rest. -/
theorem charsLe_pair (a b x y : Char) (r1 r2 : List Char) (ha : isDigit a = true)
    (hb : isDigit b = true) (hx : isDigit x = true) (hy : isDigit y = true)
    (hle : digitVal a * 10 + digitVal b ≤ digitVal x * 10 + digitVal y)
    (hrest : charsLe r1 r2 = true) : charsLe (a :: b :: r1) (x :: y :: r2) = true := by
  simp only [isDigit, Bool.and_eq_true, decide_eq_true_eq] at ha hb hx hy
  simp only [digitVal] at hle
  rw [charsLe_cons, charsLe_cons]
  split_ifs <;> first | rfl | omega | exact hrest

theorem charsLe_same (c : Char) (r1 r2 : List Char) (hrest : charsLe r1 r2 = true) :
    charsLe (c :: r1) (c :: r2) = true := by
  rw [charsLe_cons]
  split_ifs <;> first | rfl | omega | exact hrest

/-- Two clock texts whose hours, minutes and seconds are ordered as numbers
are ordered as texts. -/
theorem clock_le (h1 h2 n1 n2 s1 s2 x1 x2 y1 y2 z1 z2 c : Char)
    (a1 : isDigit h1 = true) (a2 : isDigit h2 = true) (b1 : isDigit n1 = true)
    (b2 : isDigit n2 = true) (c1 : isDigit s1 = true) (c2 : isDigit s2 = true)
    (d1 : isDigit x1 = true) (d2 : isDigit x2 = true) (e1 : isDigit y1 = true)
    (e2 : isDigit y2 = true) (f1 : isDigit z1 = true) (f2 : isDigit z2 = true)
    (hh : digitVal h1 * 10 + digitVal h2 ≤ digitVal x1 * 10 + digitVal x2)
    (hn : digitVal n1 * 10 + digitVal n2 ≤ digitVal y1 * 10 + digitVal y2)
    (hs : digitVal s1 * 10 + digitVal s2 ≤ digitVal z1 * 10 + digitVal z2) :
    charsLe [h1, h2, c, n1, n2, c, s1, s2] [x1, x2, c, y1, y2, c, z1, z2] = true :=
  charsLe_pair _ _ _ _ _ _ a1 a2 d1 d2 hh
    (charsLe_same c _ _
      (charsLe_pair _ _ _ _ _ _ b1 b2 e1 e2 hn
        (charsLe_same c _ _ (charsLe_pair _ _ _ _ _ _ c1 c2 f1 f2 hs rfl))))

theorem clock_bounds (clock : List Char) (h n sec : Nat) (hc : IsClockText clock h n sec) :
    charsLe "00:00:00".data clock = true ∧ charsLe clock "23:59:59".data = true := by
  obtain ⟨h1, h2, n1, n2, s1, s2, rfl, ⟨a1, a2, rfl⟩, ⟨b1, b2, rfl⟩, ⟨c1, c2, rfl⟩, hh, hn, hs⟩ :=
    hc
  have z : isDigit '0' = true ∧ digitVal '0' = 0 := by decide
  have t2 : isDigit '2' = true ∧ digitVal '2' = 2 := by decide
  have t3 : isDigit '3' = true ∧ digitVal '3' = 3 := by decide
  have t5 : isDigit '5' = true ∧ digitVal '5' = 5 := by decide
  have t9 : isDigit '9' = true ∧ digitVal '9' = 9 := by decide
  constructor
  · exact clock_le '0' '0' '0' '0' '0' '0' h1 h2 n1 n2 s1 s2 ':' z.1 z.1 z.1 z.1 z.1 z.1
      a1 a2 b1 b2 c1 c2 (by rw [z.2]; omega) (by rw [z.2]; omega) (by rw [z.2]; omega)
  · exact clock_le h1 h2 n1 n2 s1 s2 '2' '3' '5' '9' '5' '9' ':' a1 a2 b1 b2 c1 c2
      t2.1 t3.1 t5.1 t9.1 t5.1 t9.1 (by rw [t2.2, t3.2]; omega) (by rw [t5.2, t9.2]; omega)
      (by rw [t5.2, t9.2]; omega)

theorem activeBetween_widen (lo lo2 hi hi2 : String) (e : BlackoutRow)
    (hlo : textLe lo2 lo = true) (hhi : textLe hi hi2 = true) (h : ActiveBetween lo hi e) :
    ActiveBetween lo2 hi2 e := by
  obtain ⟨hstart, hend⟩ := h
  refine ⟨textLe_trans _ _ _ hstart hhi, ?_⟩
  rcases hend with hnull | ⟨x, hx, hle⟩
  · exact Or.inl hnull
  · exact Or.inr ⟨x, hx, textLe_trans _ _ _ hlo hle⟩

theorem instant_within_day (d : String) (clock : List Char) (h n sec : Nat)
    (hc : IsClockText clock h n sec) :
    textLe (d ++ " 00:00:00") (d ++ " " ++ ⟨clock⟩) = true ∧
      textLe (d ++ " " ++ ⟨clock⟩) (d ++ " 23:59:59") = true := by
  have hb := clock_bounds clock h n sec hc
  have e1 : (d ++ " 00:00:00").data = (d.data ++ [' ']) ++ "00:00:00".data := by
    simp [String.data_append]
  have e2 : (d ++ " 23:59:59").data = (d.data ++ [' ']) ++ "23:59:59".data := by
    simp [String.data_append]
  have e3 : (d ++ " " ++ (⟨clock⟩ : String)).data = (d.data ++ [' ']) ++ clock := by
    simp [String.data_append]
  unfold textLe
  rw [e1, e2, e3, charsLe_append_left, charsLe_append_left]
  exact hb

theorem goLen_append (a b : String) : goLen (a ++ b) = goLen a + goLen b := by
  show String.utf8ByteSize.go (a ++ b).data = String.utf8ByteSize.go a.data +
    String.utf8ByteSize.go b.data
  rw [String.data_append]
  induction a.data with
  | nil => simp [String.utf8ByteSize.go]
  | cons c cs ih =>
    show String.utf8ByteSize.go (cs ++ b.data) + c.utf8Size =
      String.utf8ByteSize.go cs + c.utf8Size + String.utf8ByteSize.go b.data
    rw [ih]
    omega

theorem countDistinct_mono (l1 l2 : List Nat) (h : l1 ⊆ l2) :
    countDistinct l1 ≤ countDistinct l2 := by
  unfold countDistinct
  apply List.Subperm.length_le
  apply List.subperm_of_subset (List.nodup_dedup l1)
  intro x hx
  exact List.mem_dedup.2 (h (List.mem_dedup.1 hx))

/-- C26: an event that is active at an instant of a calendar day is active
for the day. For a calendar day `d` and a time of day `hh:mm:ss`, the
activity condition at `d hh:mm:ss` implies the one for the 10-character
reference `d`; so `GetBlackouts` for `d` returns every event it returns for
`d hh:mm:ss`, and the count of `GetBuildingsCountByBlackoutType` for `d` is
at least the one for `d hh:mm:ss`. -/
theorem day_reference_contains_instants (s : Storage) (d : String) (clock : List Char)
    (h n sec : Nat) (hd : IsCalendarDay d) (hc : IsClockText clock h n sec) :
    (∀ e : BlackoutRow,
      ActiveBetween (d ++ " " ++ ⟨clock⟩) (d ++ " " ++ ⟨clock⟩) e →
        ActiveBetween (d ++ " 00:00:00") (d ++ " 23:59:59") e) ∧
    (∀ e : BlackoutRow,
      e ∈ blackoutsQuery s (activityBounds (d ++ " " ++ ⟨clock⟩)).1
          (activityBounds (d ++ " " ++ ⟨clock⟩)).2 →
        e ∈ blackoutsQuery s (activityBounds d).1 (activityBounds d).2) ∧
    (∀ b : Blackout, b ∈ GetBlackouts s (d ++ " " ++ ⟨clock⟩) → b ∈ GetBlackouts s d) ∧
    (∀ blackoutType : String,
      GetBuildingsCountByBlackoutType s blackoutType (d ++ " " ++ ⟨clock⟩) ≤
        GetBuildingsCountByBlackoutType s blackoutType d) ∧
    goLen d = 10 ∧ goLen (d ++ " " ++ ⟨clock⟩) = 19 := by
  obtain ⟨y, m, dd, hdt⟩ := hd
  have hlen := goLen_of_isDateText d y m dd hdt
  have hclock : goLen (⟨clock⟩ : String) = 8 := by
    obtain ⟨h1, h2, n1, n2, s1, s2, rfl, ⟨a1, a2, -⟩, ⟨b1, b2, -⟩, ⟨c1, c2, -⟩, -⟩ := hc
    show String.utf8ByteSize.go _ = 8
    simp only [String.utf8ByteSize.go, utf8Size_of_isDigit _ a1, utf8Size_of_isDigit _ a2,
      utf8Size_of_isDigit _ b1, utf8Size_of_isDigit _ b2, utf8Size_of_isDigit _ c1,
      utf8Size_of_isDigit _ c2, show Char.utf8Size ':' = 1 by decide]
  have hlen2 : goLen (d ++ " " ++ (⟨clock⟩ : String)) = 19 := by
    rw [goLen_append, goLen_append, hlen, hclock]
    rfl
  have hb : activityBounds d = (d ++ " 23:59:59", d ++ " 00:00:00") := by
    simp [activityBounds, hlen]
  have hb2 : activityBounds (d ++ " " ++ (⟨clock⟩ : String)) =
      (d ++ " " ++ ⟨clock⟩, d ++ " " ++ ⟨clock⟩) := by
    simp [activityBounds, hlen2]
  have hin := instant_within_day d clock h n sec hc
  have hact : ∀ e : BlackoutRow,
      ActiveBetween (d ++ " " ++ ⟨clock⟩) (d ++ " " ++ ⟨clock⟩) e →
        ActiveBetween (d ++ " 00:00:00") (d ++ " 23:59:59") e :=
    fun e => activeBetween_widen _ _ _ _ e hin.1 hin.2
  have hquery : ∀ e : BlackoutRow,
      e ∈ blackoutsQuery s (activityBounds (d ++ " " ++ ⟨clock⟩)).1
          (activityBounds (d ++ " " ++ ⟨clock⟩)).2 →
        e ∈ blackoutsQuery s (activityBounds d).1 (activityBounds d).2 := by
    intro e
    rw [hb, hb2, mem_blackoutsQuery, mem_blackoutsQuery]
    exact fun he => ⟨he.1, hact e he.2⟩
  refine ⟨hact, hquery, ?_, ?_, hlen, hlen2⟩
  · intro b
    simp only [GetBlackouts, List.mem_map]
    rintro ⟨e, he, rfl⟩
    exact ⟨e, hquery e he, rfl⟩
  · intro blackoutType
    unfold GetBuildingsCountByBlackoutType
    rw [hb, hb2]
    simp only [Nat.cast_le]
    apply countDistinct_mono
    intro id
    simp only [List.mem_map, List.mem_filter, Bool.and_eq_true, decide_eq_true_eq,
      decide_activeBetween]
    rintro ⟨p, ⟨hp, ⟨h1, h2⟩, h3⟩, rfl⟩
    exact ⟨p, ⟨hp, ⟨h1, h2⟩, hact p.1 h3⟩, rfl⟩

theorem day_reference_contains_instants_witness :
    IsCalendarDay "2019-01-15" ∧ IsClockText "14:30:00".data 14 30 0 ∧
      ∀ b : Blackout,
        b ∈ GetBlackouts dayStore ("2019-01-15" ++ " " ++ ⟨"14:30:00".data⟩) →
          b ∈ GetBlackouts dayStore "2019-01-15" :=
  ⟨⟨2019, 1, 15, sample_dateText⟩, sample_clockText,
    (day_reference_contains_instants dayStore "2019-01-15" "14:30:00".data 14 30 0
      ⟨2019, 1, 15, sample_dateText⟩ sample_clockText).2.2.1⟩

/-! ### Instants and their canonical texts -/

/-- Every day number splits into cycles of 400, 100, 4 and 1 years and a day
of the year. -/
theorem days_cycles (d : Int) :
    ∃ a b c u yd : Int, 0 ≤ b ∧ b ≤ 3 ∧ 0 ≤ c ∧ c ≤ 24 ∧ 0 ≤ u ∧ u ≤ 3 ∧ 0 ≤ yd ∧
      (yd < 365 ∨ (yd = 365 ∧ u = 3 ∧ (c ≠ 24 ∨ b = 3))) ∧
      d = 146097 * a + 36524 * b + 1461 * c + 365 * u + yd := by
  obtain ⟨a, d1, h1, h1a, h1b⟩ : ∃ a d1 : Int, d = 146097 * a + d1 ∧ 0 ≤ d1 ∧ d1 < 146097 :=
    ⟨d / 146097, d % 146097, by omega, by omega, by omega⟩
  obtain ⟨b, d2, h2, hb0, hb3, h2a, h2b, h2c⟩ : ∃ b d2 : Int, d1 = 36524 * b + d2 ∧ 0 ≤ b ∧
      b ≤ 3 ∧ 0 ≤ d2 ∧ d2 ≤ 36524 ∧ (d2 = 36524 → b = 3) :=
    ⟨d1 / 36524 - d1 / 36524 / 4, d1 - 36524 * (d1 / 36524 - d1 / 36524 / 4), by omega,
      by omega, by omega, by omega, by omega, by omega⟩
  obtain ⟨c, d3, h3, hc0, hc24, h3a, h3b⟩ : ∃ c d3 : Int, d2 = 1461 * c + d3 ∧ 0 ≤ c ∧
      c ≤ 24 ∧ 0 ≤ d3 ∧ d3 ≤ 1460 :=
    ⟨d2 / 1461, d2 % 1461, by omega, by omega, by omega, by omega, by omega⟩
  obtain ⟨u, yd, h4, hu0, hu3, h4a, h4b, h4c⟩ : ∃ u yd : Int, d3 = 365 * u + yd ∧ 0 ≤ u ∧
      u ≤ 3 ∧ 0 ≤ yd ∧ yd ≤ 365 ∧ (yd = 365 → u = 3) :=
    ⟨d3 / 365 - d3 / 365 / 4, d3 - 365 * (d3 / 365 - d3 / 365 / 4), by omega,
      by omega, by omega, by omega, by omega, by omega⟩
  refine ⟨a, b, c, u, yd, hb0, hb3, hc0, hc24, hu0, hu3, h4a, ?_, by omega⟩
  by_cases hyd : yd < 365
  · exact Or.inl hyd
  · refine Or.inr ⟨by omega, h4c (by omega), ?_⟩
    by_cases hc : c = 24
    · exact Or.inr (h2c (by omega))
    · exact Or.inl hc

theorem yearOfDays_spec (d : Int) :
    d = daysSinceEpoch (yearOfDays d).1 + ((yearOfDays d).2 : Int) := by
  obtain ⟨a, b, c, u, yd, hb0, hb3, hc0, hc24, hu0, hu3, hyd0, hyd, hd⟩ := days_cycles d
  have hy := yearOfDays_cycles a b c u yd hb0 hb3 hc0 hc24 hu0 hu3 hyd0 hyd
  rw [← hd] at hy
  rw [hy, daysSinceEpoch_cycles]
  simp only
  omega

theorem daysSinceEpoch_lt (a b : Int) (h : a < b) :
    daysSinceEpoch a + 365 ≤ daysSinceEpoch b := by
  simp only [daysSinceEpoch]
  omega

set_option maxRecDepth 100000 in
theorem monthDay_inverse : ∀ leap : Bool, ∀ yd : Fin 366,
    yd.val + 1 = daysBefore ((monthDay leap yd.val).1 - 1) + (monthDay leap yd.val).2 +
      (if leap = true ∧ (monthDay leap yd.val).1 ≥ 3 then 1 else 0) := by
  decide

/-- The instant of its calendar fields. -/
theorem civil_sec (t : Time) :
    t.sec =
      (daysSinceEpoch t.civil.year + (daysBefore (t.civil.month - 1) : Int) + t.civil.day +
        (if isLeap t.civil.year = true ∧ t.civil.month ≥ 3 then 1 else 0) - 1) * 86400 +
      ((t.civil.hour * 3600 + t.civil.minute * 60 + t.civil.second : Nat) : Int) := by
  have hy := yearOfDays_yday_le (t.sec / 86400)
  have hs := yearOfDays_spec (t.sec / 86400)
  have hm := monthDay_inverse (isLeap (yearOfDays (t.sec / 86400)).1)
    ⟨(yearOfDays (t.sec / 86400)).2, by omega⟩
  simp only at hm
  simp only [Time.civil]
  split_ifs at hm ⊢ <;> omega

theorem utod_pair_inj (a b : Nat) (ha : a < 100) (hb : b < 100)
    (h1 : utod (a / 10) = utod (b / 10)) (h2 : utod (a % 10) = utod (b % 10)) : a = b := by
  have e1 := (utod_digit ⟨a / 10, by omega⟩).2
  have e2 := (utod_digit ⟨b / 10, by omega⟩).2
  have e3 := (utod_digit ⟨a % 10, by omega⟩).2
  have e4 := (utod_digit ⟨b % 10, by omega⟩).2
  simp only at e1 e2 e3 e4
  rw [h1, e2] at e1
  rw [h2, e4] at e3
  omega

/-- The canonical text of an instant shows its month, day and time of day. -/
theorem fields_of_formatDateTime (a b : Time) (h : a.formatDateTime = b.formatDateTime) :
    a.civil.month = b.civil.month ∧ a.civil.day = b.civil.day ∧ a.civil.hour = b.civil.hour ∧
      a.civil.minute = b.civil.minute ∧ a.civil.second = b.civil.second := by
  have ha := civil_bounds a
  have hb := civil_bounds b
  have sa : appendInt (a.civil.second : Int) 2 =
      [utod (a.civil.second / 10), utod (a.civil.second % 10)] := appendInt_two _ (by omega)
  have sb : appendInt (b.civil.second : Int) 2 =
      [utod (b.civil.second / 10), utod (b.civil.second % 10)] := appendInt_two _ (by omega)
  simp only [Time.formatDateTime, Civil.dateChars, appendInt_month, appendInt_day,
    appendInt_hour, appendInt_minute, sa, sb, List.append_assoc, List.cons_append,
    List.nil_append] at h
  have := (List.append_inj' (congrArg String.data h) (by simp)).2
  simp only [List.cons.injEq] at this
  obtain ⟨-, m1, m2, -, d1, d2, -, h1, h2, -, n1, n2, -, s1, s2, -⟩ := this
  exact ⟨utod_pair_inj _ _ ha.1 hb.1 m1 m2, utod_pair_inj _ _ ha.2.1 hb.2.1 d1 d2,
    utod_pair_inj _ _ (by omega) (by omega) h1 h2, utod_pair_inj _ _ (by omega) (by omega) n1 n2,
    utod_pair_inj _ _ (by omega) (by omega) s1 s2⟩

/-- Two instants less than 300 days apart with the same canonical text are
the same instant. -/
theorem formatDateTime_inj_near (a b : Time) (h1 : a.sec - b.sec < 300 * 86400)
    (h2 : b.sec - a.sec < 300 * 86400) (h : a.formatDateTime = b.formatDateTime) : a = b := by
  obtain ⟨hm, hd, hh, hn, hs⟩ := fields_of_formatDateTime a b h
  have ea := civil_sec a
  have eb := civil_sec b
  rw [hm, hd, hh, hn, hs] at ea
  have hyear : a.civil.year = b.civil.year := by
    rcases lt_trichotomy a.civil.year b.civil.year with hlt | heq | hgt
    · have := daysSinceEpoch_lt _ _ hlt
      exfalso
      split_ifs at ea eb <;> omega
    · exact heq
    · have := daysSinceEpoch_lt _ _ hgt
      exfalso
      split_ifs at ea eb <;> omega
  rw [hyear] at ea
  have : a.sec = b.sec := by rw [ea, ← eb]
  cases a
  cases b
  simp only at this
  rw [this]

/-! ### The last partial unit of a window -/

theorem truncateTo_near (u v : Time) (unit : Int) (h0 : 0 < unit) (hunit : unit ≤ 86400)
    (h1 : u.sec - v.sec ≤ 31 * 86400) (h2 : v.sec - u.sec ≤ 31 * 86400)
    (h : (truncateTo u unit).formatDateTime = (truncateTo v unit).formatDateTime) :
    u.sec - u.sec % unit = v.sec - v.sec % unit := by
  have hu := Int.emod_nonneg u.sec (ne_of_gt h0)
  have hv := Int.emod_nonneg v.sec (ne_of_gt h0)
  have hu2 := Int.emod_lt_of_pos u.sec h0
  have hv2 := Int.emod_lt_of_pos v.sec h0
  have := formatDateTime_inj_near (truncateTo u unit) (truncateTo v unit)
    (by simp only [truncateTo]; omega) (by simp only [truncateTo]; omega) h
  exact congrArg Time.sec this

/-- Seeded keys and the last partial unit, for a key that is the canonical
text of the truncated instant up to a fixed suffix. -/
theorem partial_unit_core (key : Time → String) (unit : Int) (count : Nat)
    (hunit : unit = 60 ∨ unit = 3600 ∨ unit = 86400) (hc1 : 1 ≤ count)
    (hc : (count : Int) * unit ≤ 30 * 86400)
    (hkey : ∀ u v : Time, key u = key v ↔
      (truncateTo u unit).formatDateTime = (truncateTo v unit).formatDateTime)
    (t : Time) :
    ((∀ u : Time, (t.Add (-((count : Int) * unit))).sec ≤ u.sec → u.sec < t.sec →
        ∃ i, i < count ∧ key u = key (bucketTime (t.Add (-((count : Int) * unit))) unit i)) ↔
      t.sec % unit = 0) ∧
    ∀ u : Time, t.sec - t.sec % unit ≤ u.sec → u.sec < t.sec →
      (t.Add (-((count : Int) * unit))).sec ≤ u.sec ∧
        ∀ i, i < count → key u ≠ key (bucketTime (t.Add (-((count : Int) * unit))) unit i) := by
  have h0 : 0 < unit := by omega
  have h86 : unit ≤ 86400 := by omega
  have hpart : ∀ u : Time, t.sec - t.sec % unit ≤ u.sec → u.sec < t.sec →
      (t.Add (-((count : Int) * unit))).sec ≤ u.sec ∧
        ∀ i, i < count →
          key u ≠ key (bucketTime (t.Add (-((count : Int) * unit))) unit i) := by
    intro u hu1 hu2
    have hlow : (t.Add (-((count : Int) * unit))).sec ≤ u.sec := by
      simp only [Time.Add]
      rcases hunit with rfl | rfl | rfl <;> omega
    refine ⟨hlow, ?_⟩
    intro i hi hk
    rw [hkey] at hk
    have hsec := truncateTo_near _ _ unit h0 h86
      (by simp only [bucketTime, Time.Add] at hlow ⊢; rcases hunit with rfl | rfl | rfl <;> omega)
      (by simp only [bucketTime, Time.Add] at hlow ⊢; rcases hunit with rfl | rfl | rfl <;> omega)
      hk
    simp only [bucketTime, Time.Add] at hsec hlow
    rcases hunit with rfl | rfl | rfl <;> omega
  refine ⟨⟨?_, ?_⟩, hpart⟩
  · intro hall
    by_contra hne
    have hm := Int.emod_nonneg t.sec (ne_of_gt h0)
    have hu0 := hpart ⟨t.sec - t.sec % unit⟩ (le_refl _) (by simp only; omega)
    obtain ⟨i, hi, hk⟩ := hall ⟨t.sec - t.sec % unit⟩ hu0.1 (by simp only; omega)
    exact hu0.2 i hi hk
  · intro hzero u hu1 hu2
    simp only [Time.Add] at hu1
    refine ⟨((u.sec - (t.sec - (count : Int) * unit)) / unit).toNat, ?_, ?_⟩
    · rcases hunit with rfl | rfl | rfl <;> omega
    · rw [hkey]
      apply congrArg Time.formatDateTime
      simp only [truncateTo, bucketTime, Time.Add, Time.mk.injEq]
      rcases hunit with rfl | rfl | rfl <;> omega

theorem string_append_right_cancel (a b c : String) (h : a ++ c = b ++ c) : a = b := by
  apply String.ext
  have := congrArg String.data h
  simp only [String.data_append] at this
  exact List.append_cancel_right this

/-- Two instants have the same key in a window exactly when their
truncations to the unit of the window have the same canonical text. -/
theorem windows_key_iff (w : Window) (hw : w ∈ windows) (u v : Time) :
    w.key u = w.key v ↔
      (truncateTo u w.unit).formatDateTime = (truncateTo v w.unit).formatDateTime := by
  simp only [windows, List.mem_cons, List.mem_singleton, List.not_mem_nil, or_false] at hw
  rcases hw with rfl | rfl | rfl | rfl
  · show u.formatMinuteKey = v.formatMinuteKey ↔ _
    rw [formatMinuteKey_eq, formatMinuteKey_eq]
    rfl
  · show u.formatHourKey = v.formatHourKey ↔ _
    rw [formatHourKey_eq, formatHourKey_eq]
    rfl
  · show u.formatDay = v.formatDay ↔
      (truncateTo u 86400).formatDateTime = (truncateTo v 86400).formatDateTime
    rw [← formatDay_eq, ← formatDay_eq]
    exact ⟨fun h => by rw [h], string_append_right_cancel _ _ _⟩
  · show u.formatDay = v.formatDay ↔
      (truncateTo u 86400).formatDateTime = (truncateTo v 86400).formatDateTime
    rw [← formatDay_eq, ← formatDay_eq]
    exact ⟨fun h => by rw [h], string_append_right_cancel _ _ _⟩

theorem windows_unit_count (w : Window) (hw : w ∈ windows) :
    (w.unit = 60 ∨ w.unit = 3600 ∨ w.unit = 86400) ∧ 1 ≤ w.count ∧
      (w.count : Int) * w.unit ≤ 30 * 86400 := by
  simp only [windows, List.mem_cons, List.mem_singleton, List.not_mem_nil, or_false] at hw
  rcases hw with rfl | rfl | rfl | rfl <;> decide

/-- The granularity of a window in calendar fields. -/
theorem aligned_iff (t : Time) :
    (t.sec % 60 = 0 ↔ t.civil.second = 0) ∧
      (t.sec % 3600 = 0 ↔ t.civil.minute = 0 ∧ t.civil.second = 0) ∧
      (t.sec % 86400 = 0 ↔ t.civil.hour = 0 ∧ t.civil.minute = 0 ∧ t.civil.second = 0) := by
  simp only [Time.civil]
  refine ⟨?_, ?_, ?_⟩ <;> omega

/-- A returned row whose key no bucket has can be removed without changing
the series. -/
theorem run_remove_row (w : Window) (hw : w ∈ windows) (db db2 : CountsStore)
    (endTime : String) (t : Time) (rows1 rows2 : List CountRow) (r : CountRow)
    (hp : parseDateTime endTime = some t)
    (hr : ∀ i, i < w.count → r.bucket ≠ w.key (w.instant t i))
    (hq : w.rowsOf db (w.lower t).formatDateTime t.formatDateTime = some (rows1 ++ r :: rows2))
    (hq2 : w.rowsOf db2 (w.lower t).formatDateTime t.formatDateTime = some (rows1 ++ rows2)) :
    w.run db2 endTime = w.run db endTime := by
  rw [run_eq w hw db endTime t hp, run_eq w hw db2 endTime t hp, hq, hq2]
  simp only [Option.map_some', Option.some.injEq]
  apply List.map_congr_left
  intro i hi
  have hne : ∀ cat : String, ¬ (r.bucket = w.key (w.instant t i) ∧ r.blackoutType = cat) :=
    fun cat hh => hr i (List.mem_range.1 hi) hh.1
  unfold expectedBucket
  rw [lastCount_remove rows1 rows2 r _ _ (hne _), lastCount_remove rows1 rows2 r _ _ (hne _),
    lastCount_remove rows1 rows2 r _ _ (hne _), lastCount_remove rows1 rows2 r _ _ (hne _)]

/-- C25: in each builder, every instant of the fetched range
`[reference - count * unit, reference)` has the key of a seeded bucket if
and only if the reference is a whole number of units, that is, its seconds
are 00 for the hour window, its minutes and seconds for the day window, its
time of day is 00:00:00 for the week and month windows. For any reference,
an instant of the last partial unit before it lies in the fetched range and
has a key that no bucket has: the seeded map has no entry for it, and a
returned row with that key can be removed without changing the series. -/
theorem series_partial_unit (w : Window) (hw : w ∈ windows) (db : CountsStore)
    (endTime : String) (t : Time) (hp : parseDateTime endTime = some t) :
    ((∀ u : Time, (w.lower t).sec ≤ u.sec → u.sec < t.sec →
        ∃ i, i < w.count ∧ w.key u = w.key (w.instant t i)) ↔ t.sec % w.unit = 0) ∧
    (∀ u : Time, t.sec - t.sec % w.unit ≤ u.sec → u.sec < t.sec →
      (w.lower t).sec ≤ u.sec ∧
      (∀ i, i < w.count → w.key u ≠ w.key (w.instant t i)) ∧
      seedBuckets w.count w.unit w.key w.label (w.lower t) (w.key u) = none ∧
      ∀ (db2 : CountsStore) (rows1 rows2 : List CountRow) (r : CountRow),
        r.bucket = w.key u →
        w.rowsOf db (w.lower t).formatDateTime t.formatDateTime = some (rows1 ++ r :: rows2) →
        w.rowsOf db2 (w.lower t).formatDateTime t.formatDateTime = some (rows1 ++ rows2) →
        w.run db2 endTime = w.run db endTime) ∧
    (w = hourWindow → (t.sec % w.unit = 0 ↔ t.civil.second = 0)) ∧
    (w = dayWindow → (t.sec % w.unit = 0 ↔ t.civil.minute = 0 ∧ t.civil.second = 0)) ∧
    ((w = weekWindow ∨ w = monthWindow) →
      (t.sec % w.unit = 0 ↔ t.civil.hour = 0 ∧ t.civil.minute = 0 ∧ t.civil.second = 0)) := by
  obtain ⟨hunit, hc1, hspan⟩ := windows_unit_count w hw
  have hcore := partial_unit_core w.key w.unit w.count hunit hc1 hspan
    (windows_key_iff w hw) t
  refine ⟨hcore.1, ?_, ?_, ?_, ?_⟩
  · intro u hu1 hu2
    obtain ⟨hlow, hkeys⟩ := hcore.2 u hu1 hu2
    refine ⟨hlow, hkeys, ?_, ?_⟩
    · by_contra hsome
      obtain ⟨i, hi, hk⟩ := (seedBuckets_isSome _ _ _ _ _ _).1 hsome
      exact hkeys i hi hk
    · intro db2 rows1 rows2 r hr hq hq2
      exact run_remove_row w hw db db2 endTime t rows1 rows2 r hp
        (fun i hi => by rw [hr]; exact hkeys i hi) hq hq2
  · rintro rfl
    exact (aligned_iff t).1
  · rintro rfl
    exact (aligned_iff t).2.1
  · rintro (rfl | rfl) <;> exact (aligned_iff t).2.2

set_option maxRecDepth 1000000 in
theorem parse_unaligned :
    parseDateTime "2019-01-15 14:30:30" = some (Date 2019 1 15 14 30 30) := by
  decide

set_option maxRecDepth 1000000 in
theorem series_partial_unit_witness :
    hourWindow ∈ windows ∧
      parseDateTime "2019-01-15 14:30:30" = some (Date 2019 1 15 14 30 30) ∧
      (Date 2019 1 15 14 30 30).sec % hourWindow.unit ≠ 0 ∧
      (hourWindow.lower (Date 2019 1 15 14 30 30)).sec ≤ (Date 2019 1 15 14 30 10).sec ∧
      (Date 2019 1 15 14 30 10).sec < (Date 2019 1 15 14 30 30).sec ∧
      (∀ i, i < hourWindow.count →
        hourWindow.key (Date 2019 1 15 14 30 10) ≠
          hourWindow.key (hourWindow.instant (Date 2019 1 15 14 30 30) i)) ∧
      hourWindow.key (Date 2019 1 15 14 30 10) = "2019-01-15 14:30:00" ∧
      hourWindow.key (hourWindow.instant (Date 2019 1 15 14 30 30) 59) =
        "2019-01-15 14:29:00" :=
  have hw : hourWindow ∈ windows := List.mem_cons_self _ _
  have h := (series_partial_unit hourWindow hw sampleCounts "2019-01-15 14:30:30"
    (Date 2019 1 15 14 30 30) parse_unaligned).2.1 (Date 2019 1 15 14 30 10) (by decide)
    (by decide)
  ⟨hw, parse_unaligned, by decide, h.1, by decide, h.2.1, by decide, by decide⟩

/-! ### One predicate, two treatments of the reference -/

theorem activeFor_iff (t : String) (e : BlackoutRow) :
    ActiveFor t e ↔ ActiveBetween (activityBounds t).2 (activityBounds t).1 e := by
  unfold ActiveFor activityBounds
  split_ifs <;> rfl

theorem mem_replaceFirstChars (l : List Char) (h : '_' ∈ l) :
    ' ' ∈ replaceFirstChars '_' ' ' l := by
  induction l with
  | nil => exact absurd h (List.not_mem_nil _)
  | cons c cs ih =>
    unfold replaceFirstChars
    split_ifs with hc
    · exact List.mem_cons_self _ _
    · rcases List.mem_cons.1 h with h1 | h1
      · exact absurd h1.symm hc
      · exact List.mem_cons_of_mem _ (ih h1)

theorem isCalendarDay_no_space (r : String) (h : IsCalendarDay r) : ' ' ∉ r.data := by
  obtain ⟨y, m, d, y1, y2, y3, y4, m1, m2, d1, d2, hs, ⟨a1, a2, a3, a4, -⟩, ⟨b1, b2, -⟩,
    ⟨c1, c2, -⟩, -⟩ := h
  have hsp : isDigit ' ' = false := by decide
  intro hmem
  rw [hs] at hmem
  simp only [List.mem_cons, List.mem_singleton, List.not_mem_nil, or_false] at hmem
  rcases hmem with h | h | h | h | h | h | h | h | h | h
  all_goals first
    | (rw [← h] at a1; rw [hsp] at a1; exact Bool.noConfusion a1)
    | (rw [← h] at a2; rw [hsp] at a2; exact Bool.noConfusion a2)
    | (rw [← h] at a3; rw [hsp] at a3; exact Bool.noConfusion a3)
    | (rw [← h] at a4; rw [hsp] at a4; exact Bool.noConfusion a4)
    | (rw [← h] at b1; rw [hsp] at b1; exact Bool.noConfusion b1)
    | (rw [← h] at b2; rw [hsp] at b2; exact Bool.noConfusion b2)
    | (rw [← h] at c1; rw [hsp] at c1; exact Bool.noConfusion c1)
    | (rw [← h] at c2; rw [hsp] at c2; exact Bool.noConfusion c2)
    | exact absurd h (by decide)

/-- A reference that `ParseQueryDate` returns is never a calendar day. -/
theorem ParseQueryDate_not_day (currTime r : String) (h : ParseQueryDate currTime = (r, none)) :
    ¬ IsCalendarDay r := by
  intro hday
  have hlen := isCalendarDay_length r hday
  unfold ParseQueryDate at h
  split_ifs at h with h0 hT hU
  · simp only [Prod.mk.injEq, and_true] at h
    rw [← h] at hlen
    exact absurd hlen (by decide)
  · cases hp : parseRFC3339 currTime with
    | none => simp [hp] at h
    | some z =>
      simp only [hp, Prod.mk.injEq, and_true] at h
      have hc := isCanonical_length r (by rw [← h]; exact (isCanonical_of_parse currTime z hp))
      omega
  · simp only [Prod.mk.injEq, and_true] at h
    have hmem : '_' ∈ currTime.data := by
      simp only [goContains, List.any_eq_true, decide_eq_true_eq] at hU
      obtain ⟨x, hx, rfl⟩ := hU
      exact hx
    have := mem_replaceFirstChars currTime.data hmem
    rw [← h] at hday
    exact isCalendarDay_no_space _ hday this
  · simp at h

theorem normalizeQuot_up (fuel n d : Nat) (e : Int) (h1 : n < d * 2 ^ 53)
    (hf : d * 2 ^ 52 ≤ n * 2 ^ fuel) :
    ∃ k : Nat, normalizeQuot fuel n d e = (n * 2 ^ k, d, e - k) ∧ d * 2 ^ 52 ≤ n * 2 ^ k ∧
      n * 2 ^ k < d * 2 ^ 53 := by
  induction fuel generalizing n e with
  | zero =>
    refine ⟨0, ?_, ?_, ?_⟩
    · simp [normalizeQuot]
    · simpa using hf
    · simpa using h1
  | succ fuel ih =>
    by_cases hlt : n < d * 2 ^ 52
    · have h53 : d * 2 ^ 53 = 2 * (d * 2 ^ 52) := by ring
      obtain ⟨k, hk, hk1, hk2⟩ := ih (2 * n) (e - 1) (by rw [h53]; omega)
        (by rw [pow_succ] at hf; calc d * 2 ^ 52 ≤ n * (2 ^ fuel * 2) := hf
              _ = 2 * n * 2 ^ fuel := by ring)
      refine ⟨k + 1, ?_, ?_, ?_⟩
      · rw [normalizeQuot, if_pos hlt, hk]
        have : 2 * n * 2 ^ k = n * 2 ^ (k + 1) := by ring
        rw [this]
        congr 2
        push_cast
        ring
      · calc d * 2 ^ 52 ≤ 2 * n * 2 ^ k := hk1
          _ = n * 2 ^ (k + 1) := by ring
      · calc n * 2 ^ (k + 1) = 2 * n * 2 ^ k := by ring
          _ < d * 2 ^ 53 := hk2
    · refine ⟨0, ?_, ?_, ?_⟩
      · rw [normalizeQuot, if_neg hlt, if_neg (by omega)]
        simp
      · simpa using Nat.le_of_not_lt hlt
      · simpa using h1

theorem normalizeQuot_down (fuel n d : Nat) (e : Int) (h1 : d * 2 ^ 52 ≤ n)
    (hf : n < d * 2 ^ 53 * 2 ^ fuel) :
    ∃ k : Nat, normalizeQuot fuel n d e = (n, d * 2 ^ k, e + k) ∧ d * 2 ^ k * 2 ^ 52 ≤ n ∧
      n < d * 2 ^ k * 2 ^ 53 := by
  induction fuel generalizing d e with
  | zero =>
    refine ⟨0, ?_, ?_, ?_⟩
    · simp [normalizeQuot]
    · simpa using h1
    · simpa using hf
  | succ fuel ih =>
    have hnlt : ¬ n < d * 2 ^ 52 := by omega
    by_cases hge : d * 2 ^ 53 ≤ n
    · have h53 : d * 2 ^ 53 = 2 * d * 2 ^ 52 := by ring
      obtain ⟨k, hk, hk1, hk2⟩ := ih (2 * d) (e + 1) (by rw [← h53]; exact hge)
        (by rw [pow_succ] at hf; calc n < d * 2 ^ 53 * (2 ^ fuel * 2) := hf
              _ = 2 * d * 2 ^ 53 * 2 ^ fuel := by ring)
      refine ⟨k + 1, ?_, ?_, ?_⟩
      · rw [normalizeQuot, if_neg hnlt, if_pos hge, hk]
        have : 2 * d * 2 ^ k = d * 2 ^ (k + 1) := by ring
        rw [this]
        congr 2
        push_cast
        ring
      · calc d * 2 ^ (k + 1) * 2 ^ 52 = 2 * d * 2 ^ k * 2 ^ 52 := by ring
          _ ≤ n := hk1
      · calc n < 2 * d * 2 ^ k * 2 ^ 53 := hk2
          _ = d * 2 ^ (k + 1) * 2 ^ 53 := by ring
    · refine ⟨0, ?_, ?_, ?_⟩
      · rw [normalizeQuot, if_neg hnlt, if_neg hge]
        simp
      · simpa using h1
      · simpa using Nat.lt_of_not_le hge

/-- The rounded quotient is within one half of the quotient. -/
theorem roundQuot_error (n d : Nat) (hd : 0 < d) :
    |((roundQuot n d : Nat) : ℚ) - (n : ℚ) / (d : ℚ)| ≤ 1 / 2 := by
  have hdq : (0 : ℚ) < (d : ℚ) := Nat.cast_pos.2 hd
  have hdiv : (n : ℚ) = (d : ℚ) * ((n / d : Nat) : ℚ) + ((n % d : Nat) : ℚ) := by
    exact_mod_cast (Nat.div_add_mod n d).symm
  have hr : n % d < d := Nat.mod_lt n hd
  have hrq : ((n % d : Nat) : ℚ) < (d : ℚ) := Nat.cast_lt.2 hr
  have hr0 : (0 : ℚ) ≤ ((n % d : Nat) : ℚ) := Nat.cast_nonneg _
  have hq : (n : ℚ) / (d : ℚ) = ((n / d : Nat) : ℚ) + ((n % d : Nat) : ℚ) / (d : ℚ) := by
    have e1 : (d : ℚ) * ((n / d : Nat) : ℚ) / (d : ℚ) = ((n / d : Nat) : ℚ) :=
      mul_div_cancel_left₀ _ hdq.ne'
    calc (n : ℚ) / (d : ℚ) = ((d : ℚ) * ((n / d : Nat) : ℚ) + ((n % d : Nat) : ℚ)) / (d : ℚ) := by
          rw [← hdiv]
      _ = ((n / d : Nat) : ℚ) + ((n % d : Nat) : ℚ) / (d : ℚ) := by rw [add_div, e1]
  rw [abs_le]
  unfold roundQuot
  split_ifs with h1 h2 h3
  · have h1q : 2 * ((n % d : Nat) : ℚ) < (d : ℚ) := by exact_mod_cast h1
    have : ((n % d : Nat) : ℚ) / (d : ℚ) < 1 / 2 := by
      rw [div_lt_iff₀ hdq]
      linarith
    have h0 : 0 ≤ ((n % d : Nat) : ℚ) / (d : ℚ) := div_nonneg hr0 hdq.le
    rw [hq]
    constructor <;> linarith
  · have h2q : (d : ℚ) < 2 * ((n % d : Nat) : ℚ) := by exact_mod_cast h2
    have : 1 / 2 < ((n % d : Nat) : ℚ) / (d : ℚ) := by
      rw [lt_div_iff₀ hdq]
      linarith
    have h1' : ((n % d : Nat) : ℚ) / (d : ℚ) < 1 := by
      rw [div_lt_one hdq]
      exact hrq
    rw [hq]
    push_cast
    constructor <;> linarith
  · have heq : 2 * (n % d) = d := by omega
    have heq' : 2 * ((n % d : Nat) : ℚ) = (d : ℚ) := by exact_mod_cast heq
    have : ((n % d : Nat) : ℚ) / (d : ℚ) = 1 / 2 := by
      rw [div_eq_div_iff hdq.ne' (by norm_num)]
      linarith
    rw [hq, this]
    constructor <;> linarith
  · have heq : 2 * (n % d) = d := by omega
    have heq' : 2 * ((n % d : Nat) : ℚ) = (d : ℚ) := by exact_mod_cast heq
    have : ((n % d : Nat) : ℚ) / (d : ℚ) = 1 / 2 := by
      rw [div_eq_div_iff hdq.ne' (by norm_num)]
      linarith
    rw [hq, this]
    push_cast
    constructor <;> linarith

theorem roundQuot_ge (n d : Nat) : n / d ≤ roundQuot n d := by
  unfold roundQuot
  split_ifs <;> omega

theorem F64_toRat_neg (m : Int) (k : Nat) :
    F64.toRat ⟨m, -(k : Int)⟩ = (m : ℚ) / (2 : ℚ) ^ k := by
  unfold F64.toRat F64.num F64.den
  rcases Nat.eq_zero_or_pos k with rfl | hk
  · simp
  · have hneg : ¬ (0 : Int) ≤ -(k : Int) := by omega
    simp only [hneg, if_false, neg_neg, Int.toNat_ofNat]
    push_cast
    rfl

theorem F64_toRat_pos (m : Int) (k : Nat) :
    F64.toRat ⟨m, (k : Int)⟩ = (m : ℚ) * (2 : ℚ) ^ k := by
  unfold F64.toRat F64.num F64.den
  have hpos : (0 : Int) ≤ (k : Int) := by omega
  simp only [hpos, if_true, Int.toNat_ofNat]
  push_cast
  simp

/-- The scaling of `roundToF64` ends with a quotient of 53 bits, in one of
two shapes: the numerator or the denominator has been doubled `k` times. -/
theorem normalizeQuot_spec (n d : Nat) (hn : 0 < n) (hd : 0 < d) :
    (∃ k : Nat, normalizeQuot (n + d + 52) n d 0 = (n * 2 ^ k, d, -(k : Int)) ∧
        d * 2 ^ 52 ≤ n * 2 ^ k ∧ n * 2 ^ k < d * 2 ^ 53) ∨
      ∃ k : Nat, normalizeQuot (n + d + 52) n d 0 = (n, d * 2 ^ k, (k : Int)) ∧
        d * 2 ^ k * 2 ^ 52 ≤ n ∧ n < d * 2 ^ k * 2 ^ 53 := by
  have hfuel : (2 : Nat) ^ (n + d + 52) = 2 ^ n * 2 ^ d * 2 ^ 52 := by
    rw [pow_add, pow_add]
  have hdlt : d < 2 ^ d := Nat.lt_two_pow d
  have hnlt : n < 2 ^ n := Nat.lt_two_pow n
  have hn1 : 1 ≤ 2 ^ n := Nat.one_le_two_pow
  have hd1 : 1 ≤ 2 ^ d := Nat.one_le_two_pow
  by_cases h : n < d * 2 ^ 53
  · left
    obtain ⟨k, hk, hk1, hk2⟩ := normalizeQuot_up (n + d + 52) n d 0 h (by
      rw [hfuel]
      calc d * 2 ^ 52 ≤ 2 ^ d * 2 ^ 52 := Nat.mul_le_mul_right _ hdlt.le
        _ ≤ 1 * (1 * 2 ^ d * 2 ^ 52) := by simp
        _ ≤ n * (2 ^ n * 2 ^ d * 2 ^ 52) := by
          apply Nat.mul_le_mul hn
          apply Nat.mul_le_mul_right
          exact Nat.mul_le_mul_right _ hn1)
    exact ⟨k, by rw [hk]; simp, hk1, hk2⟩
  · right
    have h52 : d * 2 ^ 52 ≤ n := by
      have : d * 2 ^ 52 ≤ d * 2 ^ 53 := Nat.mul_le_mul_left _ (by norm_num)
      omega
    obtain ⟨k, hk, hk1, hk2⟩ := normalizeQuot_down (n + d + 52) n d 0 h52 (by
      rw [hfuel]
      calc n < 2 ^ n := hnlt
        _ = 1 * 1 * (2 ^ n * 1 * 1) := by simp
        _ ≤ d * 2 ^ 53 * (2 ^ n * 2 ^ d * 2 ^ 52) := by
          apply Nat.mul_le_mul
          · exact Nat.mul_le_mul hd (by norm_num)
          · apply Nat.mul_le_mul
            · exact Nat.mul_le_mul_left _ hd1
            · norm_num)
    exact ⟨k, by rw [hk]; simp, hk1, hk2⟩

/-- The value `roundToF64` gives for a positive fraction is positive and
within the relative error `2 ^ -53` of the fraction. -/
theorem roundToF64_spec (n d : Nat) (hn : 0 < n) (hd : 0 < d) :
    0 < (roundToF64 (n : Int) d).mant ∧
      |(roundToF64 (n : Int) d).toRat - (n : ℚ) / (d : ℚ)| * 2 ^ 53 ≤ (n : ℚ) / (d : ℚ) := by
  have hdq : (0 : ℚ) < (d : ℚ) := Nat.cast_pos.2 hd
  have hne : ¬ ((n : Int) = 0 ∨ d = 0) := by omega
  have hpos : ¬ ((n : Int) < 0) := by omega
  unfold roundToF64
  rw [if_neg hne]
  simp only [Int.natAbs_ofNat, if_neg hpos, one_mul]
  rcases normalizeQuot_spec n d hn hd with ⟨k, hk, hk1, hk2⟩ | ⟨k, hk, hk1, hk2⟩
  · rw [hk]
    simp only
    have hq : 2 ^ 52 ≤ n * 2 ^ k / d := (Nat.le_div_iff_mul_le hd).2 (by rw [mul_comm]; exact hk1)
    have hm := roundQuot_ge (n * 2 ^ k) d
    have herr := roundQuot_error (n * 2 ^ k) d hd
    have h2k : (0 : ℚ) < (2 : ℚ) ^ k := by positivity
    refine ⟨by have : 0 < 2 ^ 52 := by norm_num
               omega, ?_⟩
    rw [F64_toRat_neg]
    have hx : ((n * 2 ^ k : Nat) : ℚ) / (d : ℚ) = (n : ℚ) / (d : ℚ) * 2 ^ k := by
      push_cast
      ring
    have hlow : (2 : ℚ) ^ 52 * (d : ℚ) ≤ ((n * 2 ^ k : Nat) : ℚ) := by
      have : ((d * 2 ^ 52 : Nat) : ℚ) ≤ ((n * 2 ^ k : Nat) : ℚ) := Nat.cast_le.2 hk1
      push_cast at this ⊢
      linarith
    have hxl : (2 : ℚ) ^ 52 ≤ (n : ℚ) / (d : ℚ) * 2 ^ k := by
      rw [← hx, le_div_iff₀ hdq]
      exact hlow
    rw [hx] at herr
    have hdiff : ((roundQuot (n * 2 ^ k) d : Int) : ℚ) / 2 ^ k - (n : ℚ) / (d : ℚ) =
        (((roundQuot (n * 2 ^ k) d : Nat) : ℚ) - (n : ℚ) / (d : ℚ) * 2 ^ k) / 2 ^ k := by
      push_cast
      field_simp
      ring
    rw [hdiff, abs_div, abs_of_pos h2k, div_mul_eq_mul_div, div_le_iff₀ h2k]
    calc |((roundQuot (n * 2 ^ k) d : Nat) : ℚ) - (n : ℚ) / (d : ℚ) * 2 ^ k| * 2 ^ 53
        ≤ 1 / 2 * 2 ^ 53 := by
          apply mul_le_mul_of_nonneg_right herr (by positivity)
      _ = 2 ^ 52 := by norm_num
      _ ≤ (n : ℚ) / (d : ℚ) * 2 ^ k := hxl
  · rw [hk]
    simp only
    have hD : 0 < d * 2 ^ k := Nat.mul_pos hd (by positivity)
    have hDq : (0 : ℚ) < ((d * 2 ^ k : Nat) : ℚ) := Nat.cast_pos.2 hD
    have hq : 2 ^ 52 ≤ n / (d * 2 ^ k) := (Nat.le_div_iff_mul_le hD).2 (by
      rw [mul_comm]; exact hk1)
    have hm := roundQuot_ge n (d * 2 ^ k)
    have herr := roundQuot_error n (d * 2 ^ k) hD
    have h2k : (0 : ℚ) < (2 : ℚ) ^ k := by positivity
    refine ⟨by have : 0 < 2 ^ 52 := by norm_num
               omega, ?_⟩
    rw [F64_toRat_pos]
    have hx : (n : ℚ) / (d : ℚ) = (n : ℚ) / ((d * 2 ^ k : Nat) : ℚ) * 2 ^ k := by
      push_cast
      field_simp
      ring
    have hlow : (2 : ℚ) ^ 52 ≤ (n : ℚ) / ((d * 2 ^ k : Nat) : ℚ) := by
      rw [le_div_iff₀ hDq]
      have : ((d * 2 ^ k * 2 ^ 52 : Nat) : ℚ) ≤ (n : ℚ) := Nat.cast_le.2 hk1
      push_cast at this ⊢
      linarith
    have hdiff : ((roundQuot n (d * 2 ^ k) : Int) : ℚ) * 2 ^ k - (n : ℚ) / (d : ℚ) =
        (((roundQuot n (d * 2 ^ k) : Nat) : ℚ) - (n : ℚ) / ((d * 2 ^ k : Nat) : ℚ)) * 2 ^ k := by
      rw [hx]
      push_cast
      ring
    rw [hdiff, abs_mul, abs_of_pos h2k, hx]
    calc |((roundQuot n (d * 2 ^ k) : Nat) : ℚ) - (n : ℚ) / ((d * 2 ^ k : Nat) : ℚ)| * 2 ^ k *
          2 ^ 53 ≤ 1 / 2 * 2 ^ k * 2 ^ 53 := by
          apply mul_le_mul_of_nonneg_right _ (by positivity)
          exact mul_le_mul_of_nonneg_right herr h2k.le
      _ = 2 ^ 52 * 2 ^ k := by ring
      _ ≤ (n : ℚ) / ((d * 2 ^ k : Nat) : ℚ) * 2 ^ k :=
          mul_le_mul_of_nonneg_right hlow h2k.le

theorem F64_den_pos (x : F64) : 0 < x.den := by
  unfold F64.den
  split_ifs
  · exact Nat.one_pos
  · positivity

theorem F64_num_pos (x : F64) (h : 0 < x.mant) : ∃ p : Nat, 0 < p ∧ x.num = (p : Int) := by
  have hnum : 0 < x.num := by
    unfold F64.num
    split_ifs
    · positivity
    · exact h
  exact ⟨x.num.toNat, by omega, by omega⟩

/-- The quotient of two positive values is positive and within the relative
error `2 ^ -53` of the exact quotient. -/
theorem F64_div_spec (a b : F64) (ha : 0 < a.mant) (hb : 0 < b.mant) :
    0 < (a.div b).mant ∧
      |(a.div b).toRat - a.toRat / b.toRat| * 2 ^ 53 ≤ a.toRat / b.toRat := by
  obtain ⟨p, hp, hpe⟩ := F64_num_pos a ha
  obtain ⟨q, hq, hqe⟩ := F64_num_pos b hb
  have hda := F64_den_pos a
  have hdb := F64_den_pos b
  have harg : a.num * (b.den : Int) * Int.sign b.num = ((p * b.den : Nat) : Int) := by
    rw [hpe, hqe, Int.sign_eq_one_of_pos (by omega)]
    push_cast
    ring
  have hden : a.den * b.num.natAbs = a.den * q := by rw [hqe, Int.natAbs_ofNat]
  have hval : ((p * b.den : Nat) : ℚ) / ((a.den * q : Nat) : ℚ) = a.toRat / b.toRat := by
    unfold F64.toRat
    rw [hpe, hqe]
    have h1 : (a.den : ℚ) ≠ 0 := Nat.cast_ne_zero.2 (by omega)
    have h2 : (b.den : ℚ) ≠ 0 := Nat.cast_ne_zero.2 (by omega)
    have h3 : (q : ℚ) ≠ 0 := Nat.cast_ne_zero.2 (by omega)
    push_cast
    field_simp
  unfold F64.div
  rw [harg, hden, ← hval]
  exact roundToF64_spec _ _ (Nat.mul_pos hp hdb) (Nat.mul_pos hda hq)

/-- The product of two positive values is positive and within the relative
error `2 ^ -53` of the exact product. -/
theorem F64_mul_spec (a b : F64) (ha : 0 < a.mant) (hb : 0 < b.mant) :
    0 < (a.mul b).mant ∧
      |(a.mul b).toRat - a.toRat * b.toRat| * 2 ^ 53 ≤ a.toRat * b.toRat := by
  obtain ⟨p, hp, hpe⟩ := F64_num_pos a ha
  obtain ⟨q, hq, hqe⟩ := F64_num_pos b hb
  have hda := F64_den_pos a
  have hdb := F64_den_pos b
  have harg : a.num * b.num = ((p * q : Nat) : Int) := by
    rw [hpe, hqe]
    push_cast
    ring
  have hval : ((p * q : Nat) : ℚ) / ((a.den * b.den : Nat) : ℚ) = a.toRat * b.toRat := by
    unfold F64.toRat
    rw [hpe, hqe]
    have h1 : (a.den : ℚ) ≠ 0 := Nat.cast_ne_zero.2 (by omega)
    have h2 : (b.den : ℚ) ≠ 0 := Nat.cast_ne_zero.2 (by omega)
    push_cast
    field_simp
  unfold F64.mul
  rw [harg, ← hval]
  exact roundToF64_spec _ _ (Nat.mul_pos hp hq) (Nat.mul_pos hda hdb)

/-- The conversion of a positive integer below `2 ^ 53` is exact. -/
theorem F64_ofInt_exact (n : Nat) (hn : 0 < n) (h : n < 2 ^ 53) :
    0 < (F64.ofInt (n : Int)).mant ∧ (F64.ofInt (n : Int)).toRat = (n : ℚ) := by
  have hne : ¬ ((n : Int) = 0 ∨ 1 = 0) := by omega
  have hpos : ¬ ((n : Int) < 0) := by omega
  have hround : ∀ N : Nat, roundQuot N 1 = N := by
    intro N
    unfold roundQuot
    simp [Nat.mod_one]
  unfold F64.ofInt roundToF64
  rw [if_neg hne]
  simp only [Int.natAbs_ofNat, if_neg hpos, one_mul]
  rcases normalizeQuot_spec n 1 hn Nat.one_pos with ⟨k, hk, hk1, hk2⟩ | ⟨k, hk, hk1, hk2⟩
  · rw [hk]
    simp only [hround]
    refine ⟨by positivity, ?_⟩
    rw [F64_toRat_neg]
    push_cast
    field_simp
  · have hk0 : k = 0 := by
      rcases Nat.eq_zero_or_pos k with h0 | h0
      · exact h0
      · exfalso
        have h2 : 2 ^ 1 ≤ 2 ^ k := Nat.pow_le_pow_right (by norm_num) h0
        have h3 : 2 ^ 1 * 2 ^ 52 ≤ 2 ^ k * 2 ^ 52 := Nat.mul_le_mul_right _ h2
        have h4 : (2 : Nat) ^ 1 * 2 ^ 52 = 2 ^ 53 := by norm_num
        omega
    subst hk0
    rw [hk]
    simp only [pow_zero, mul_one, hround]
    refine ⟨by exact_mod_cast hn, ?_⟩
    have := F64_toRat_pos (n : Int) 0
    simp only [pow_zero, mul_one] at this
    rw [this]
    simp

/-! ### The share of the blackout summary -/

theorem F64_hundred_toRat : 0 < F64.hundred.mant ∧ F64.hundred.toRat = 100 := by
  refine ⟨by decide, ?_⟩
  have := F64_toRat_pos 100 0
  simp only [pow_zero, mul_one] at this
  exact_mod_cast this

theorem F64_toRat_pos_of_mant (x : F64) (h : 0 < x.mant) : 0 < x.toRat := by
  obtain ⟨p, hp, hpe⟩ := F64_num_pos x h
  unfold F64.toRat
  rw [hpe]
  have hd : (0 : ℚ) < (x.den : ℚ) := Nat.cast_pos.2 (F64_den_pos x)
  have hpq : (0 : ℚ) < ((p : Int) : ℚ) := by exact_mod_cast hp
  exact div_pos hpq hd

/-- A relative error of `2 ^ -53` as a pair of bounds. -/
theorem rel_bounds (v y : ℚ) (h : |v - y| * 2 ^ 53 ≤ y) :
    y * (1 - 1 / 2 ^ 53) ≤ v ∧ v ≤ y * (1 + 1 / 2 ^ 53) := by
  have h1 : |v - y| ≤ y / 2 ^ 53 := by
    rw [le_div_iff₀ (by positivity)]
    exact h
  have h2 := abs_le.1 h1
  constructor
  · have : y * (1 - 1 / 2 ^ 53) = y - y / 2 ^ 53 := by ring
    rw [this]
    linarith [h2.1]
  · have : y * (1 + 1 / 2 ^ 53) = y + y / 2 ^ 53 := by ring
    rw [this]
    linarith [h2.2]

/-- Three roundings in a row stay within the relative error `2 ^ -51`. -/
theorem chain_bounds (x v1 v2 v3 : ℚ) (hx : 0 ≤ x) (h1 : |v1 - x| * 2 ^ 53 ≤ x)
    (h2 : |v2 - v1 * 100| * 2 ^ 53 ≤ v1 * 100) (h3 : |v3 - v2 * 100| * 2 ^ 53 ≤ v2 * 100) :
    x * 10000 * (1 - 1 / 2 ^ 51) ≤ v3 ∧ v3 ≤ x * 10000 * (1 + 1 / 2 ^ 51) := by
  obtain ⟨a1, b1⟩ := rel_bounds _ _ h1
  obtain ⟨a2, b2⟩ := rel_bounds _ _ h2
  obtain ⟨a3, b3⟩ := rel_bounds _ _ h3
  have hlo : (0 : ℚ) ≤ 1 - 1 / 2 ^ 53 := by norm_num
  have hhi : (0 : ℚ) ≤ 1 + 1 / 2 ^ 53 := by norm_num
  have c2 : x * (1 - 1 / 2 ^ 53) * 100 * (1 - 1 / 2 ^ 53) ≤ v2 :=
    le_trans (mul_le_mul_of_nonneg_right (mul_le_mul_of_nonneg_right a1 (by norm_num)) hlo) a2
  have d2 : v2 ≤ x * (1 + 1 / 2 ^ 53) * 100 * (1 + 1 / 2 ^ 53) :=
    le_trans b2 (mul_le_mul_of_nonneg_right (mul_le_mul_of_nonneg_right b1 (by norm_num)) hhi)
  have c3 : x * (1 - 1 / 2 ^ 53) * 100 * (1 - 1 / 2 ^ 53) * 100 * (1 - 1 / 2 ^ 53) ≤ v3 :=
    le_trans (mul_le_mul_of_nonneg_right (mul_le_mul_of_nonneg_right c2 (by norm_num)) hlo) a3
  have d3 : v3 ≤ x * (1 + 1 / 2 ^ 53) * 100 * (1 + 1 / 2 ^ 53) * 100 * (1 + 1 / 2 ^ 53) :=
    le_trans b3 (mul_le_mul_of_nonneg_right (mul_le_mul_of_nonneg_right d2 (by norm_num)) hhi)
  have e1 : (1 - 1 / 2 ^ 51 : ℚ) ≤ (1 - 1 / 2 ^ 53) * (1 - 1 / 2 ^ 53) * (1 - 1 / 2 ^ 53) := by
    norm_num
  have e2 : ((1 + 1 / 2 ^ 53) * (1 + 1 / 2 ^ 53) * (1 + 1 / 2 ^ 53) : ℚ) ≤ 1 + 1 / 2 ^ 51 := by
    norm_num
  have hx4 : 0 ≤ x * 10000 := by positivity
  constructor
  · calc x * 10000 * (1 - 1 / 2 ^ 51)
        ≤ x * 10000 * ((1 - 1 / 2 ^ 53) * (1 - 1 / 2 ^ 53) * (1 - 1 / 2 ^ 53)) :=
          mul_le_mul_of_nonneg_left e1 hx4
      _ = x * (1 - 1 / 2 ^ 53) * 100 * (1 - 1 / 2 ^ 53) * 100 * (1 - 1 / 2 ^ 53) := by ring
      _ ≤ v3 := c3
  · calc v3 ≤ x * (1 + 1 / 2 ^ 53) * 100 * (1 + 1 / 2 ^ 53) * 100 * (1 + 1 / 2 ^ 53) := d3
      _ = x * 10000 * ((1 + 1 / 2 ^ 53) * (1 + 1 / 2 ^ 53) * (1 + 1 / 2 ^ 53)) := by ring
      _ ≤ x * 10000 * (1 + 1 / 2 ^ 51) := mul_le_mul_of_nonneg_left e2 hx4

/-- The value handed to `math.Round`, for positive counts below `2 ^ 53`: it
is positive and within the relative error `2 ^ -51` of `10000 * A / T`. -/
theorem scaled_bounds (A T : Nat) (hA : 0 < A) (hA53 : A < 2 ^ 53) (hT : 0 < T)
    (hT53 : T < 2 ^ 53) :
    0 < ((((F64.ofInt A).div (F64.ofInt T)).mul F64.hundred).mul F64.hundred).mant ∧
      (A : ℚ) / (T : ℚ) * 10000 * (1 - 1 / 2 ^ 51) ≤
        ((((F64.ofInt A).div (F64.ofInt T)).mul F64.hundred).mul F64.hundred).toRat ∧
      ((((F64.ofInt A).div (F64.ofInt T)).mul F64.hundred).mul F64.hundred).toRat ≤
        (A : ℚ) / (T : ℚ) * 10000 * (1 + 1 / 2 ^ 51) := by
  obtain ⟨ha, hae⟩ := F64_ofInt_exact A hA hA53
  obtain ⟨hb, hbe⟩ := F64_ofInt_exact T hT hT53
  obtain ⟨h1m, h1⟩ := F64_div_spec _ _ ha hb
  obtain ⟨h2m, h2⟩ := F64_mul_spec _ _ h1m F64_hundred_toRat.1
  obtain ⟨h3m, h3⟩ := F64_mul_spec _ _ h2m F64_hundred_toRat.1
  rw [hae, hbe] at h1
  rw [F64_hundred_toRat.2] at h2 h3
  have hx : (0 : ℚ) ≤ (A : ℚ) / (T : ℚ) := by positivity
  exact ⟨h3m, chain_bounds _ _ _ _ hx h1 h2 h3⟩

/-- The result of `math.Round` on a positive value is the integer `k` with
`k ≤ x + 1/2 < k + 1`. -/
theorem F64_Round_of_pos (x : F64) (h : 0 < x.mant) (k : Nat)
    (hlo : (k : ℚ) ≤ x.toRat + 1 / 2) (hhi : x.toRat + 1 / 2 < (k : ℚ) + 1) :
    x.Round = ⟨(k : Int), 0⟩ := by
  obtain ⟨p, hp, hpe⟩ := F64_num_pos x h
  have hd := F64_den_pos x
  have hdq : (0 : ℚ) < (x.den : ℚ) := Nat.cast_pos.2 hd
  have hval : x.toRat = (p : ℚ) / (x.den : ℚ) := by
    unfold F64.toRat
    rw [hpe]
    push_cast
    rfl
  have hsum : (p : ℚ) / (x.den : ℚ) + 1 / 2 =
      ((2 * p + x.den : Nat) : ℚ) / ((2 * x.den : Nat) : ℚ) := by
    push_cast
    field_simp
    ring
  rw [hval, hsum] at hlo hhi
  have h2d : (0 : ℚ) < ((2 * x.den : Nat) : ℚ) := Nat.cast_pos.2 (by omega)
  rw [le_div_iff₀ h2d] at hlo
  rw [div_lt_iff₀ h2d] at hhi
  have hlo' : k * (2 * x.den) ≤ 2 * p + x.den := by exact_mod_cast hlo
  have hhi' : 2 * p + x.den < (k + 1) * (2 * x.den) := by exact_mod_cast hhi
  have hdiv : (2 * p + x.den) / (2 * x.den) = k := Nat.div_eq_of_lt_le hlo' hhi'
  unfold F64.Round
  rw [hpe, Int.sign_eq_one_of_pos (by omega), Int.natAbs_ofNat, hdiv, one_mul]

theorem F64_div_hundred (k : Nat) :
    F64.div ⟨(k : Int), 0⟩ F64.hundred = roundToF64 (k : Int) 100 := by
  have h1 : (F64.mk (k : Int) 0).num = (k : Int) := by simp [F64.num]
  have h2 : (F64.mk (k : Int) 0).den = 1 := by simp [F64.den]
  have h3 : F64.hundred.num = 100 := by decide
  have h4 : F64.hundred.den = 1 := by decide
  unfold F64.div
  rw [h1, h2, h3, h4]
  have h5 : Int.sign 100 = 1 := by decide
  have h6 : (100 : Int).natAbs = 100 := by decide
  rw [h5, h6]
  simp

theorem percentage_eq (A T : Nat) (hT : 0 < T) :
    percentage A T =
      ((((F64.ofInt A).div (F64.ofInt T)).mul F64.hundred).mul F64.hundred).Round.div
        F64.hundred := by
  have h : ((T : Int) > 0) := by omega
  simp only [percentage, h, if_true]

theorem roundToF64_zero (d : Nat) : roundToF64 0 d = ⟨0, 0⟩ := by
  simp [roundToF64]

theorem percentage_of_zero (T : Int) : percentage 0 T = ⟨0, 0⟩ := by
  have hz : (F64.mk 0 0).num = 0 := by simp [F64.num]
  have h0 : ∀ b : F64, F64.div ⟨0, 0⟩ b = ⟨0, 0⟩ := by
    intro b
    unfold F64.div
    rw [hz]
    simp [roundToF64_zero]
  have h1 : ∀ b : F64, F64.mul ⟨0, 0⟩ b = ⟨0, 0⟩ := by
    intro b
    unfold F64.mul
    rw [hz]
    simp [roundToF64_zero]
  have h2 : F64.Round ⟨0, 0⟩ = ⟨0, 0⟩ := by
    unfold F64.Round
    rw [hz]
    simp
  have h3 : F64.ofInt 0 = ⟨0, 0⟩ := roundToF64_zero 1
  unfold percentage
  split_ifs
  · simp only [h3, h0, h1, h2]
  · simp only [h0, h1, h2]

theorem percentage_of_no_total (A T : Int) (hT : T ≤ 0) : percentage A T = ⟨0, 0⟩ := by
  have h : ¬ (T > 0) := by omega
  have := percentage_of_zero T
  unfold percentage at this ⊢
  rw [if_neg h] at this ⊢
  exact this

/-- Away from a tie, with an affected count below `2 ^ 36`, `math.Round`
returns the exact number of hundredths. -/
theorem Round_exact (A T : Nat) (hA : 0 < A) (hA36 : A < 2 ^ 36) (hT : 0 < T)
    (hT53 : T < 2 ^ 53) (htie : ¬ IsHalfway A T) :
    ((((F64.ofInt A).div (F64.ofInt T)).mul F64.hundred).mul F64.hundred).Round =
      ⟨(exactHundredths A T : Int), 0⟩ := by
  have hA53 : A < 2 ^ 53 := lt_trans hA36 (by norm_num)
  obtain ⟨hm, hlo, hhi⟩ := scaled_bounds A T hA hA53 hT hT53
  apply F64_Round_of_pos _ hm
  all_goals
    have hK := Nat.div_add_mod (20000 * A + T) (2 * T)
    have hrem : (20000 * A + T) % (2 * T) < 2 * T := Nat.mod_lt _ (by omega)
    have hrem0 : 1 ≤ (20000 * A + T) % (2 * T) := Nat.one_le_iff_ne_zero.2 htie
    have hKq : (20000 * (A : ℚ) + (T : ℚ)) =
        2 * (T : ℚ) * ((exactHundredths A T : Nat) : ℚ) +
          (((20000 * A + T) % (2 * T) : Nat) : ℚ) := by
      unfold exactHundredths
      exact_mod_cast hK.symm
    have hr1 : (1 : ℚ) ≤ (((20000 * A + T) % (2 * T) : Nat) : ℚ) := by exact_mod_cast hrem0
    have hr2 : (((20000 * A + T) % (2 * T) : Nat) : ℚ) ≤ 2 * (T : ℚ) - 1 := by
      have : (20000 * A + T) % (2 * T) + 1 ≤ 2 * T := hrem
      have h2 : ((((20000 * A + T) % (2 * T) + 1 : Nat)) : ℚ) ≤ ((2 * T : Nat) : ℚ) :=
        Nat.cast_le.2 this
      push_cast at h2
      linarith
    have ht : (0 : ℚ) < (T : ℚ) := Nat.cast_pos.2 hT
    have hAq : (A : ℚ) < 2 ^ 36 := by exact_mod_cast hA36
    have hx : (A : ℚ) / (T : ℚ) * 10000 =
        ((exactHundredths A T : Nat) : ℚ) +
          (((20000 * A + T) % (2 * T) : Nat) : ℚ) / (2 * (T : ℚ)) - 1 / 2 := by
      field_simp
      linear_combination (2 * (T : ℚ)) * hKq
    have heps : (A : ℚ) / (T : ℚ) * 10000 * (1 / 2 ^ 51) < 1 / (2 * (T : ℚ)) := by
      rw [lt_div_iff₀ (by positivity)]
      have e : (A : ℚ) / (T : ℚ) * 10000 * (1 / 2 ^ 51) * (2 * (T : ℚ)) =
          (A : ℚ) * 20000 / 2 ^ 51 := by
        field_simp
        ring
      rw [e, div_lt_one (by positivity)]
      have : (A : ℚ) * 20000 < 2 ^ 36 * 20000 := by linarith
      norm_num at this ⊢
      linarith
    have hq1 : 1 / (2 * (T : ℚ)) ≤
        (((20000 * A + T) % (2 * T) : Nat) : ℚ) / (2 * (T : ℚ)) :=
      div_le_div_of_nonneg_right hr1 (by positivity)
    have hq2 : (((20000 * A + T) % (2 * T) : Nat) : ℚ) / (2 * (T : ℚ)) ≤
        1 - 1 / (2 * (T : ℚ)) := by
      rw [div_le_iff₀ (by positivity)]
      have : (1 - 1 / (2 * (T : ℚ))) * (2 * (T : ℚ)) = 2 * (T : ℚ) - 1 := by
        field_simp
      rw [this]
      exact hr2
    have hlo2 : (A : ℚ) / (T : ℚ) * 10000 * (1 - 1 / 2 ^ 51) =
        (A : ℚ) / (T : ℚ) * 10000 - (A : ℚ) / (T : ℚ) * 10000 * (1 / 2 ^ 51) := by ring
    have hhi2 : (A : ℚ) / (T : ℚ) * 10000 * (1 + 1 / 2 ^ 51) =
        (A : ℚ) / (T : ℚ) * 10000 + (A : ℚ) / (T : ℚ) * 10000 * (1 / 2 ^ 51) := by ring
    rw [hlo2] at hlo
    rw [hhi2] at hhi
    linarith

/-- The result of `math.Round` on a positive value below `N + 1/2` is an
integer of at most `N`. -/
theorem F64_Round_le (x : F64) (h : 0 < x.mant) (N : Nat) (hhi : x.toRat + 1 / 2 < (N : ℚ) + 1) :
    ∃ n : Nat, n ≤ N ∧ x.Round = ⟨(n : Int), 0⟩ := by
  have hpos := F64_toRat_pos_of_mant x h
  have h0 : (0 : ℚ) ≤ x.toRat + 1 / 2 := by linarith
  have hlo := Nat.floor_le h0
  have hlt := Nat.lt_floor_add_one (x.toRat + 1 / 2)
  refine ⟨⌊x.toRat + 1 / 2⌋₊, ?_, F64_Round_of_pos x h _ hlo hlt⟩
  have : ((⌊x.toRat + 1 / 2⌋₊ : Nat) : ℚ) < (N : ℚ) + 1 := lt_of_le_of_lt hlo hhi
  have h2 : ((⌊x.toRat + 1 / 2⌋₊ : Nat) : ℚ) < ((N + 1 : Nat) : ℚ) := by
    push_cast
    exact this
  have h3 := Nat.cast_lt.1 h2
  omega

set_option maxRecDepth 100000 in
theorem roundToF64_full : roundToF64 10000 100 = ⟨7036874417766400, -46⟩ := by
  decide

/-- A number of hundredths of at most 10000 gives a value from 0 to 100. -/
theorem roundToF64_hundredths_range (n : Nat) (hn : n ≤ 10000) :
    0 ≤ (roundToF64 (n : Int) 100).toRat ∧ (roundToF64 (n : Int) 100).toRat ≤ 100 := by
  rcases Nat.eq_zero_or_pos n with rfl | hpos
  · have : roundToF64 ((0 : Nat) : Int) 100 = ⟨0, 0⟩ := roundToF64_zero 100
    rw [this]
    have h0 : F64.toRat ⟨0, 0⟩ = 0 := by
      have := F64_toRat_pos 0 0
      simpa using this
    rw [h0]
    norm_num
  · obtain ⟨hm, herr⟩ := roundToF64_spec n 100 hpos (by norm_num)
    refine ⟨(F64_toRat_pos_of_mant _ hm).le, ?_⟩
    rcases Nat.lt_or_ge n 10000 with hlt | hge
    · have hb := (rel_bounds _ _ herr).2
      have hn' : (n : ℚ) ≤ 9999 := by exact_mod_cast Nat.lt_succ_iff.1 hlt
      have h1 : ((n : ℚ) / ((100 : Nat) : ℚ)) * (1 + 1 / 2 ^ 53) ≤
          (9999 / 100 : ℚ) * (1 + 1 / 2 ^ 53) := by
        apply mul_le_mul_of_nonneg_right _ (by norm_num)
        push_cast
        linarith
      have h2 : (9999 / 100 : ℚ) * (1 + 1 / 2 ^ 53) ≤ 100 := by norm_num
      linarith
    · have hn10 : n = 10000 := le_antisymm hn hge
      subst hn10
      have : roundToF64 ((10000 : Nat) : Int) 100 = ⟨7036874417766400, -46⟩ := roundToF64_full
      rw [this]
      have h46 := F64_toRat_neg 7036874417766400 46
      have e : (-((46 : Nat) : Int)) = -46 := rfl
      rw [e] at h46
      rw [h46]
      norm_num

/-- With at most as many affected as total buildings the share lies between
0 and 100. -/
theorem percentage_range (A T : Nat) (hT : 0 < T) (hT53 : T < 2 ^ 53) (hAT : A ≤ T) :
    0 ≤ (percentage A T).toRat ∧ (percentage A T).toRat ≤ 100 := by
  rcases Nat.eq_zero_or_pos A with rfl | hA
  · have : percentage ((0 : Nat) : Int) (T : Int) = ⟨0, 0⟩ := percentage_of_zero T
    rw [this]
    have h0 : F64.toRat ⟨0, 0⟩ = 0 := by
      have := F64_toRat_pos 0 0
      simpa using this
    rw [h0]
    norm_num
  · have hA53 : A < 2 ^ 53 := lt_of_le_of_lt hAT hT53
    obtain ⟨hm, -, hhi⟩ := scaled_bounds A T hA hA53 hT hT53
    have ht : (0 : ℚ) < (T : ℚ) := Nat.cast_pos.2 hT
    have hx : (A : ℚ) / (T : ℚ) ≤ 1 := by
      rw [div_le_one ht]
      exact_mod_cast hAT
    have hbound : (A : ℚ) / (T : ℚ) * 10000 * (1 + 1 / 2 ^ 51) ≤ 10000 * (1 + 1 / 2 ^ 51) := by
      apply mul_le_mul_of_nonneg_right _ (by norm_num)
      linarith
    have hnum : (10000 : ℚ) * (1 + 1 / 2 ^ 51) + 1 / 2 < ((10000 : Nat) : ℚ) + 1 := by norm_num
    obtain ⟨n, hn, hround⟩ := F64_Round_le _ hm 10000 (by linarith)
    rw [percentage_eq A T hT, hround, F64_div_hundred]
    exact roundToF64_hundredths_range n hn

set_option maxRecDepth 1000000 in
/-- C20, as stated, fails at `A = 23`, `T = 160`: `100 * A / T` is 14.375,
which rounds to 14.38 (1438 hundredths, halves away from zero), but the
three binary64 roundings before `math.Round` leave a value below 1437.5, so
`math.Round` gives 1437 and the share reported is the binary64 value of
14.37, not that of 14.38. -/
theorem percentage_rounds_tie_down :
    exactHundredths 23 160 = 1438 ∧ IsHalfway 23 160 ∧
      (((F64.ofInt 23).div (F64.ofInt 160)).mul F64.hundred).mul F64.hundred =
        ⟨6322191859711999, -42⟩ ∧
      6322191859711999 * 2 < 2875 * 2 ^ 42 ∧
      F64.Round ⟨6322191859711999, -42⟩ = ⟨1437, 0⟩ ∧
      percentage 23 160 = roundToF64 1437 100 ∧
      roundToF64 1437 100 ≠ roundToF64 1438 100 := by
  decide

set_option maxRecDepth 1000000 in
/-- C20, amended: with no total the share is zero, whatever the affected
count, and the divisor `float64(T)` of a positive total is never zero. With
`0 < T < 2 ^ 53` and `A < 2 ^ 36`, when `10000 * A / T` does not lie halfway
between two integers the share is the binary64 value nearest to `k / 100`,
where `k` is `10000 * A / T` rounded to the nearest integer; on a tie the
binary64 errors of the division and the two multiplications decide, and the
share can be a hundredth below (`A = 23`, `T = 160`) or as the halves-up
rule says (`A = 1`, `T = 32`). With `A ≤ T` the share lies between 0 and
100. -/
theorem percentage_share (A T : Nat) :
    percentage A 0 = ⟨0, 0⟩ ∧
    (0 < T → 0 < (F64.ofInt T).mant) ∧
    (0 < T → T < 2 ^ 53 → A < 2 ^ 36 → ¬ IsHalfway A T →
      percentage A T = roundToF64 (exactHundredths A T) 100) ∧
    (∀ k : Nat, 0 < k →
      |(roundToF64 (k : Int) 100).toRat - (k : ℚ) / 100| * 2 ^ 53 ≤ (k : ℚ) / 100) ∧
    (0 < T → T < 2 ^ 53 → A ≤ T →
      0 ≤ (percentage A T).toRat ∧ (percentage A T).toRat ≤ 100) ∧
    (0 < T → ((exactHundredths A T : ℚ) ≤ 10000 * (A : ℚ) / (T : ℚ) + 1 / 2 ∧
      10000 * (A : ℚ) / (T : ℚ) + 1 / 2 < (exactHundredths A T : ℚ) + 1)) ∧
    (IsHalfway 1 32 ∧ percentage 1 32 = roundToF64 (exactHundredths 1 32) 100) ∧
    (IsHalfway 23 160 ∧ percentage 23 160 = roundToF64 (exactHundredths 23 160 - 1) 100) := by
  refine ⟨percentage_of_no_total _ _ (le_refl _), ?_, ?_, ?_, percentage_range A T, ?_,
    by decide, by decide⟩
  · intro hT
    exact (roundToF64_spec T 1 hT Nat.one_pos).1
  · intro hT hT53 hA36 htie
    rcases Nat.eq_zero_or_pos A with rfl | hA
    · have h1 : percentage ((0 : Nat) : Int) (T : Int) = ⟨0, 0⟩ := percentage_of_zero T
      have h2 : exactHundredths 0 T = 0 := by
        unfold exactHundredths
        simp only [Nat.mul_zero, Nat.zero_add]
        exact Nat.div_eq_of_lt (by omega)
      rw [h1, h2]
      exact (roundToF64_zero 100).symm
    · rw [percentage_eq A T hT, Round_exact A T hA hA36 hT hT53 htie, F64_div_hundred]
  · intro k hk
    have := (roundToF64_spec k 100 hk (by norm_num)).2
    exact_mod_cast this
  · intro hT
    have ht : (0 : ℚ) < (T : ℚ) := Nat.cast_pos.2 hT
    have h2t : (0 : ℚ) < ((2 * T : Nat) : ℚ) := Nat.cast_pos.2 (by omega)
    have hsum : 10000 * (A : ℚ) / (T : ℚ) + 1 / 2 =
        ((20000 * A + T : Nat) : ℚ) / ((2 * T : Nat) : ℚ) := by
      push_cast
      field_simp
      ring
    rw [hsum]
    unfold exactHundredths
    constructor
    · rw [le_div_iff₀ h2t]
      have := Nat.div_mul_le_self (20000 * A + T) (2 * T)
      exact_mod_cast this
    · rw [div_lt_iff₀ h2t]
      have := Nat.lt_div_mul_add (a := 20000 * A + T) (b := 2 * T) (by omega)
      have h3 : 20000 * A + T < ((20000 * A + T) / (2 * T) + 1) * (2 * T) := by
        rw [Nat.add_mul, Nat.one_mul]
        exact this
      exact_mod_cast h3


end Farpost
